import Mathlib

/-!
Conduit `Node` (src/conduit/Node.cpp): a shallow embedding.

The embedding follows `Node.cpp` function by function.

* `std::string` is a list of characters (`Str`); `size_t` arithmetic is done
  modulo `2 ^ 64` where the source relies on wrap-around (`split_path`).
* `std::map<std::string, Node>` is an association list kept in ascending key
  order (`map_find`, `map_index`), which is the iteration order of `std::map`.
* Raw memory is a flat byte store (`Heap`): a pointer is an address, `NULL` is
  address `0`, `new char[n]` hands out fresh addresses and records the block.
  A `memcpy` of at least one byte through a null pointer does not return; the
  extent of the caller's buffers is not part of the state.
* A `Node&` returned by `fetch` is a reference into the tree: the list of entry
  names leading to it (`fetch` returns the new tree together with it).
* `Node::get` performs no assignment and no `new`; it is a function of the tree
  and of the current value of the static sentinel `Node::Empty`.
* `DataType` lives in a header that is not part of the sources at hand; the few
  members `Node.cpp` calls are modelled from the specification, and
  `DataType::total_bytes()` is a parameter (`tb`) of every function using it.
-/

namespace conduit

/-! ## Strings -/

/-- Contents of a `std::string`. -/
abbrev Str := List Char

/-- Unsigned subtraction on `size_t` (wraps modulo `2 ^ 64`). -/
def size_sub (a b : Nat) : Nat := (a + 2 ^ 64 - b % 2 ^ 64) % 2 ^ 64

/-- Index of the first occurrence of `c`: `std::string::find`, with `none`
standing for `npos`. -/
def str_find (c : Char) : Str → Option Nat
  | [] => none
  | x :: xs => if x = c then some 0 else (str_find c xs).map (· + 1)

/-- Substring `s.substr(pos, n)`: at most `n` characters starting at `pos`. -/
def substr (s : Str) (pos n : Nat) : Str := (s.drop pos).take n

/-- The characters a `std::string` built from a `const char*` receives
(`std::string(const char*)`): those before the first NUL. -/
def c_str (s : Str) : Str := s.takeWhile (fun c => c != Char.ofNat 0)

/-- Ordering of `std::string` keys (`operator<`): lexicographic on the
character codes, a proper prefix being smaller. -/
def str_lt : Str → Str → Bool
  | [], [] => false
  | [], _ :: _ => true
  | _ :: _, [] => false
  | a :: as, b :: bs =>
      if a.toNat < b.toNat then true
      else if b.toNat < a.toNat then false
      else str_lt as bs

/-- Embedding of `Node::split_path(path, curr, next)`; returns `(curr, next)`. -/
def split_path (path : Str) : Str × Str :=
  match str_find '/' path with
  | some found =>
      let curr := substr path 0 found
      let next :=
        if found ≠ size_sub path.length 1 then
          substr path (found + 1) (size_sub path.length (size_sub found 1))
        else []
      (curr, next)
  | none => (path, [])

/-! ## DataType (modelled from the specification) -/

/-- Modelled from the spec: the closed set of type tags of `DataType`
(section 3.1); `NODE_T` is the tag the source uses for OBJECT. -/
inductive TypeId where
  | EMPTY_T | NODE_T | LIST_T
  | INT8_T | INT16_T | INT32_T | INT64_T
  | UINT8_T | UINT16_T | UINT32_T | UINT64_T
  | FLOAT32_T | FLOAT64_T | CHAR8_STR_T
  deriving DecidableEq, Repr

/-- Modelled from the spec: endianness tags (section 3.2). -/
inductive Endianness where
  | DEFAULT_T | LITTLE_T | BIG_T
  deriving DecidableEq, Repr

/-- Modelled from the spec: the layout descriptor `DataType` (section 3.2):
tag, element count, offset, stride, element bytes, endianness. -/
structure DataType where
  m_id : TypeId
  m_num_ele : Nat
  m_offset : Nat
  m_stride : Nat
  m_ele_bytes : Nat
  m_endianness : Endianness
  deriving DecidableEq, Repr

namespace DataType

/-- Modelled from the spec: a leaf tag is any tag other than EMPTY, OBJECT and
LIST (section 3.1). -/
def is_leaf (d : DataType) : Bool :=
  d.m_id ≠ TypeId.EMPTY_T ∧ d.m_id ≠ TypeId.NODE_T ∧ d.m_id ≠ TypeId.LIST_T

/-- Modelled from the spec: `DataType(id)` / `reset(id)`, a descriptor that
carries only a tag. -/
def of_id (t : TypeId) : DataType := ⟨t, 0, 0, 0, 0, Endianness.DEFAULT_T⟩

/-- Modelled from the spec: `DataType::empty_dtype`. -/
def empty_dtype : DataType := of_id TypeId.EMPTY_T

/-- Modelled from the spec: `DataType::node_dtype`. -/
def node_dtype : DataType := of_id TypeId.NODE_T

/-- Modelled from the spec: `DataType::uint32_dtype`, the canonical compact
one-element descriptor (section 4.2). -/
def uint32_dtype : DataType := ⟨TypeId.UINT32_T, 1, 0, 4, 4, Endianness.DEFAULT_T⟩

/-- Modelled from the spec: `DataType::float64_dtype`, the canonical compact
one-element descriptor (section 4.2). -/
def float64_dtype : DataType := ⟨TypeId.FLOAT64_T, 1, 0, 8, 8, Endianness.DEFAULT_T⟩

/-- Modelled from the spec: `element_index(i) = offset + i * stride`
(section 4.2). -/
def element_index (d : DataType) (i : Nat) : Nat := d.m_offset + i * d.m_stride

/-- Modelled from the spec: `compatible_storage(other)` holds iff both are
leaves with the same tag and `count * element_bytes` agree (section 4.2). -/
def compatible_storage (d o : DataType) : Bool :=
  d.is_leaf && o.is_leaf && decide (d.m_id = o.m_id) &&
    decide (d.m_num_ele * d.m_ele_bytes = o.m_num_ele * o.m_ele_bytes)

/-- Modelled from the spec: the natural width in bytes implied by a tag
(section 3.1); composite and empty tags have none. -/
def default_bytes : TypeId → Nat
  | TypeId.INT8_T | TypeId.UINT8_T | TypeId.CHAR8_STR_T => 1
  | TypeId.INT16_T | TypeId.UINT16_T => 2
  | TypeId.INT32_T | TypeId.UINT32_T | TypeId.FLOAT32_T => 4
  | TypeId.INT64_T | TypeId.UINT64_T | TypeId.FLOAT64_T => 8
  | _ => 0

/-- Modelled from the spec: the descriptor invariant of section 3.2, a leaf's
`element_bytes` is its tag's natural width unless widened. -/
def wf (d : DataType) : Bool := decide (default_bytes d.m_id ≤ d.m_ele_bytes)

end DataType

/-! ## Memory -/

/-- A pointer: an address in the flat store, `0` being `NULL`. -/
abbrev Ptr := Nat

/-- The null pointer. -/
def NULL : Ptr := 0

/-- Raw memory: the bytes at every address, the live `new`-allocated blocks
(base and size) and the last address handed out. -/
structure Heap where
  mem : Nat → Nat
  allocs : List (Ptr × Nat)
  brk : Nat

namespace Heap

/-- Allocation `new char[n]`: a fresh non-null block. -/
def alloc (h : Heap) (n : Nat) : Heap × Ptr :=
  ({ h with allocs := (h.brk + 1, n) :: h.allocs, brk := h.brk + 1 + n }, h.brk + 1)

/-- Deallocation `delete p`: the block is no longer live. -/
def free (h : Heap) (p : Ptr) : Heap :=
  { h with allocs := h.allocs.filter (fun b => b.1 ≠ p) }

/-- The contents of the store at the `n` addresses from `p` on. Whether a
copy may read there is decided where the copy is made: `memcpy` through a null
pointer does not return (`Heap.memcpy`, `Node.serialize_to`). A read that runs
past the end of a block gives the bytes the store holds there. -/
def read (h : Heap) (p : Ptr) (n : Nat) : List Nat :=
  (List.range n).map (fun i => h.mem (p + i))

/-- Store of the bytes `bs` at `p` (the write half of `memcpy`). -/
def write (h : Heap) (p : Ptr) (bs : List Nat) : Heap :=
  { h with mem := fun a => if p ≤ a ∧ a < p + bs.length then bs.getD (a - p) 0 else h.mem a }

end Heap

/-- The four bytes of a `uint32` in host order (little-endian host). -/
def uint32_bytes (v : Nat) : List Nat :=
  [v % 256, v / 256 % 256, v / 65536 % 256, v / 16777216 % 256]

/-- The `uint32` read at `p` in host order (little-endian host). -/
def load_uint32 (h : Heap) (p : Ptr) : Nat :=
  h.mem p % 256 + h.mem (p + 1) % 256 * 256 + h.mem (p + 2) % 256 * 65536
    + h.mem (p + 3) % 256 * 16777216

/-! ## std::map as an ordered association list -/

/-- Lookup `std::map::find`: the entry stored under `k`, if any. -/
def map_find {α : Type} : List (Str × α) → Str → Option α
  | [], _ => none
  | (k', v) :: r, k => if k = k' then some v else map_find r k

/-- Store of `v` under `k`: replaces the entry with key `k`, or inserts a new
entry at its place in key order. -/
def map_insert {α : Type} : List (Str × α) → Str → α → List (Str × α)
  | [], k, v => [(k, v)]
  | (k', v') :: r, k, v =>
      if k = k' then (k, v) :: r
      else if str_lt k k' then (k, v) :: (k', v') :: r
      else (k', v') :: map_insert r k v

/-! ## Node -/

/-- State of a `conduit::Node`: data pointer, ownership flag, descriptor, lock
flag, the `std::map` of entries and the `std::vector` of list children.
(`m_obj_data` is initialised to `NULL` and never used again.) -/
inductive Node where
  | mk (m_data : Ptr) (m_alloced : Bool) (m_dtype : DataType) (m_locked : Bool)
      (m_entries : List (Str × Node)) (m_list_data : List Node)

namespace Node

/-- Field `m_data`. -/
def m_data : Node → Ptr
  | mk d _ _ _ _ _ => d

/-- Field `m_alloced`. -/
def m_alloced : Node → Bool
  | mk _ a _ _ _ _ => a

/-- Field `m_dtype`. -/
def m_dtype : Node → DataType
  | mk _ _ t _ _ _ => t

/-- Field `m_locked`. -/
def m_locked : Node → Bool
  | mk _ _ _ l _ _ => l

/-- Field `m_entries`: `entries()`. -/
def entries : Node → List (Str × Node)
  | mk _ _ _ _ e _ => e

/-- Field `m_list_data`: `list()`. -/
def list : Node → List Node
  | mk _ _ _ _ _ l => l

/-- Assignment to `m_entries`. -/
def set_entries : Node → List (Str × Node) → Node
  | mk d a t l _ ls, e => mk d a t l e ls

/-- Assignment to `m_list_data`. -/
def set_list : Node → List Node → Node
  | mk d a t l e _, ls => mk d a t l e ls

/-- Default constructor `Node::Node()`. -/
def default : Node := mk NULL false (DataType.of_id TypeId.EMPTY_T) false [] []

/-- Embedding of `Node::set(const DataType&)`: only the descriptor changes. -/
def set_dtype : Node → DataType → Node
  | mk d a _ l e ls, t => mk d a t l e ls

/-- Constructor `Node::Node(const DataType&, bool locked)`. -/
def of_dtype (dtype : DataType) (locked : Bool) : Node :=
  set_dtype (mk NULL false (DataType.of_id TypeId.EMPTY_T) locked [] []) dtype

/-- The static sentinel as constructed at start-up:
`Node Node::Empty(DataType::empty_dtype, true)`. -/
def Empty : Node := of_dtype DataType.empty_dtype true

/-- Embedding of `Node::is_empty`. -/
def is_empty (n : Node) : Bool := n.m_dtype.m_id = TypeId.EMPTY_T

/-- Embedding of `Node::schema_locked`. -/
def schema_locked (n : Node) : Bool := n.m_locked

/-- Embedding of `Node::cleanup`: frees an owned scalar block, then clears the
pointer, the ownership flag and the tag (the children are left in place). -/
def cleanup (h : Heap) : Node → Heap × Node
  | mk d a t l e ls =>
      let h1 :=
        if a && decide (d ≠ NULL) then
          (if t.m_id = TypeId.NODE_T then h
           else if t.m_id = TypeId.LIST_T then h
           else if t.m_id = TypeId.UINT32_T then h.free d
           else if t.m_id = TypeId.FLOAT64_T then h.free d
           else h)
        else h
      (h1, mk NULL false (DataType.of_id TypeId.EMPTY_T) l e ls)

/-- Embedding of `Node::init`. -/
def init (h : Heap) (n : Node) (dtype : DataType) : Heap × Node :=
  if !(n.m_dtype.compatible_storage dtype) || decide (n.m_data = NULL) then
    match cleanup h n with
    | (h1, mk d a _ l e ls) =>
        if dtype.m_id = TypeId.UINT32_T ∨ dtype.m_id = TypeId.FLOAT64_T then
          let r := h1.alloc (dtype.m_num_ele * dtype.m_ele_bytes)
          (r.1, mk r.2 true dtype l e ls)
        else (h1, mk d a dtype l e ls)
  else (h, n)

/-- Embedding of `Node::set(uint32)`. -/
def set_uint32 (data : Nat) (h : Heap) (n : Node) : Heap × Node :=
  match init h n DataType.uint32_dtype with
  | (h1, n1) =>
      (h1.write (n1.m_data + n1.m_dtype.element_index 0) (uint32_bytes (data % 2 ^ 32)), n1)

/-- Recursion of `Node::fetch(const std::string&)`, the fuel bounding the
number of nested calls. Returns the heap, the node and the reference. -/
def fetch_fuel : Nat → Heap → Node → Str → Heap × Node × List Str
  | 0, h, n, _ => (h, n, [])
  | fuel + 1, h, n, path =>
      let hn := if n.m_dtype.m_id ≠ TypeId.NODE_T then init h n DataType.node_dtype else (h, n)
      let p := split_path path
      let child := (map_find hn.2.entries p.1).getD default
      if p.2.isEmpty then
        (hn.1, hn.2.set_entries (map_insert hn.2.entries p.1 child), [p.1])
      else
        let r := fetch_fuel fuel hn.1 child p.2
        (r.1, hn.2.set_entries (map_insert hn.2.entries p.1 r.2.1), p.1 :: r.2.2)

/-- Embedding of `Node::fetch(const std::string&)`: each nested call consumes
at least one character of the path. -/
def fetch (h : Heap) (n : Node) (path : Str) : Heap × Node × List Str :=
  fetch_fuel (path.length + 1) h n path

/-- Recursion of `Node::get(const std::string&)`; `E` is the sentinel. -/
def get_fuel : Nat → Node → Node → Str → Node
  | 0, E, _, _ => E
  | fuel + 1, E, n, path =>
      if n.m_dtype.m_id ≠ TypeId.NODE_T then E
      else
        let p := split_path path
        match map_find n.entries p.1 with
        | none => E
        | some c => if p.2.isEmpty then c else get_fuel fuel E c p.2

/-- Embedding of `Node::get(const std::string&)` (both overloads). -/
def get (E n : Node) (path : Str) : Node := get_fuel (path.length + 1) E n path

/-- Embedding of `Node::get(index_t)`: `none` when `list()[idx]` is out of
range (the source does not check). -/
def get_index (E n : Node) (idx : Nat) : Option Node :=
  if n.m_dtype.m_id ≠ TypeId.LIST_T then some E else n.list.get? idx

/-- Recursion of `Node::has_path`. -/
def has_path_fuel : Nat → Node → Str → Bool
  | 0, _, _ => false
  | fuel + 1, n, path =>
      if n.m_dtype.m_id ≠ TypeId.NODE_T then false
      else
        let p := split_path path
        match map_find n.entries p.1 with
        | none => false
        | some c => if !p.2.isEmpty then has_path_fuel fuel c p.2 else true

/-- Embedding of `Node::has_path`. -/
def has_path (n : Node) (path : Str) : Bool := has_path_fuel (path.length + 1) n path

/-- A mutator applied through a reference returned by `fetch`. -/
def modify_at (f : Heap → Node → Heap × Node) : Heap → Node → List Str → Heap × Node
  | h, n, [] => f h n
  | h, n, k :: ks =>
      match map_find n.entries k with
      | none => (h, n)
      | some c =>
          let r := modify_at f h c ks
          (r.1, n.set_entries (map_insert n.entries k r.2))

end Node

/-- The heap before any allocation. -/
def Heap.init : Heap := ⟨fun _ => 0, [], 0⟩


/-! ## Sizes, serialization, JSON schema emission -/

namespace DataType

/-- Modelled from the spec: total content bytes, `count * element_bytes`
(section 3.2); one reading of the absent `DataType::total_bytes()`. -/
def content_bytes (d : DataType) : Nat := d.m_num_ele * d.m_ele_bytes

/-- Modelled from the spec: total bytes spanned,
`offset + (count-1) * stride + element_bytes` if `count > 0` else `0`
(section 3.2); another reading of the absent `DataType::total_bytes()`. -/
def spanned_bytes (d : DataType) : Nat :=
  if d.m_num_ele = 0 then 0 else d.m_offset + (d.m_num_ele - 1) * d.m_stride + d.m_ele_bytes

/-- Modelled from the spec: the strided footprint `count * stride` (section
3.3); a third reading of the absent `DataType::total_bytes()`. -/
def strided_bytes (d : DataType) : Nat := d.m_num_ele * d.m_stride

/-- Modelled from the spec: `default_dtype(name)`, the canonical compact
descriptor for each type name (section 4.2); `none` for an unknown name. -/
def default_dtype (name : Str) : Option DataType :=
  let leaf (t : TypeId) : Option DataType :=
    some ⟨t, 1, 0, default_bytes t, default_bytes t, Endianness.DEFAULT_T⟩
  if name = "int8".toList then leaf TypeId.INT8_T
  else if name = "int16".toList then leaf TypeId.INT16_T
  else if name = "int32".toList then leaf TypeId.INT32_T
  else if name = "int64".toList then leaf TypeId.INT64_T
  else if name = "uint8".toList then leaf TypeId.UINT8_T
  else if name = "uint16".toList then leaf TypeId.UINT16_T
  else if name = "uint32".toList then leaf TypeId.UINT32_T
  else if name = "uint64".toList then leaf TypeId.UINT64_T
  else if name = "float32".toList then leaf TypeId.FLOAT32_T
  else if name = "float64".toList then leaf TypeId.FLOAT64_T
  else if name = "char8_str".toList then leaf TypeId.CHAR8_STR_T
  else if name = "object".toList then some (of_id TypeId.NODE_T)
  else if name = "list".toList then some (of_id TypeId.LIST_T)
  else none

end DataType

/-- Copy `memcpy(dst, src, n)` inside the flat store; `none` when at least one
byte is to be copied and one of the two pointers is null. -/
def Heap.memcpy (h : Heap) (dst src : Ptr) (n : Nat) : Option Heap :=
  if n ≠ 0 ∧ (dst = NULL ∨ src = NULL) then none else some (h.write dst (h.read src n))

/-- Store `memcpy(&data[off], src, n)` into a byte vector; `none` when the
range leaves the vector. -/
def buf_write (data : List Nat) (off : Nat) (bs : List Nat) : Option (List Nat) :=
  if off + bs.length ≤ data.length then
    some (data.take off ++ bs ++ data.drop (off + bs.length))
  else none

namespace Node

mutual
/-- Embedding of `Node::total_bytes`; `tb` is `DataType::total_bytes`. -/
def total_bytes (tb : DataType → Nat) : Node → Nat
  | mk _ _ t _ e ls =>
      if t.m_id = TypeId.UINT32_T ∨ t.m_id = TypeId.UINT64_T ∨ t.m_id = TypeId.FLOAT64_T then tb t
      else if t.m_id = TypeId.NODE_T then total_bytes_entries tb e
      else if t.m_id = TypeId.LIST_T then total_bytes_list tb ls
      else 0
/-- The loop of `Node::total_bytes` over `entries()`. -/
def total_bytes_entries (tb : DataType → Nat) : List (Str × Node) → Nat
  | [] => 0
  | (_, c) :: r => total_bytes tb c + total_bytes_entries tb r
/-- The loop of `Node::total_bytes` over `list()`. -/
def total_bytes_list (tb : DataType → Nat) : List Node → Nat
  | [] => 0
  | c :: r => total_bytes tb c + total_bytes_list tb r
end

mutual
/-- Embedding of `Node::serialize(uint8 *data, index_t curr_offset, bool)`:
the byte vector after the call; `none` if a `memcpy` leaves the vector, or has
at least one byte to copy from a null `m_data`. -/
def serialize_to (tb : DataType → Nat) (h : Heap) : Node → List Nat → Nat → Option (List Nat)
  | mk d a t l e ls, data, curr_offset =>
      if t.m_id = TypeId.NODE_T then serialize_entries tb h e data curr_offset
      else if t.m_id = TypeId.LIST_T then serialize_list tb h ls data curr_offset
      else if total_bytes tb (mk d a t l e ls) ≠ 0 ∧ d = NULL then none
      else buf_write data curr_offset (h.read d (total_bytes tb (mk d a t l e ls)))
/-- The loop of `Node::serialize` over `entries()`. -/
def serialize_entries (tb : DataType → Nat) (h : Heap) :
    List (Str × Node) → List Nat → Nat → Option (List Nat)
  | [], data, _ => some data
  | (_, c) :: r, data, curr_offset =>
      match serialize_to tb h c data curr_offset with
      | none => none
      | some data1 => serialize_entries tb h r data1 (curr_offset + total_bytes tb c)
/-- The loop of `Node::serialize` over `list()`. -/
def serialize_list (tb : DataType → Nat) (h : Heap) :
    List Node → List Nat → Nat → Option (List Nat)
  | [], data, _ => some data
  | c :: r, data, curr_offset =>
      match serialize_to tb h c data curr_offset with
      | none => none
      | some data1 => serialize_list tb h r data1 (curr_offset + total_bytes tb c)
end

/-- Embedding of `Node::serialize(std::vector<uint8>&, bool)`: the vector is
sized `total_bytes()`, zero-filled, and then written from offset `0`. -/
def serialize (tb : DataType → Nat) (h : Heap) (n : Node) : Option (List Nat) :=
  serialize_to tb h n (List.replicate (total_bytes tb n) 0) 0

/-- The opening brace character. -/
def lbrace : Char := Char.ofNat 123

/-- The closing brace character. -/
def rbrace : Char := Char.ofNat 125

mutual
/-- Embedding of `Node::schema(std::ostringstream&)`: the text written to the
stream; `ds` is `DataType::schema`. -/
def schema (ds : DataType → Str) : Node → Str
  | mk _ _ t _ e ls =>
      if t.m_id = TypeId.NODE_T then
        [lbrace] ++ schema_entries ds e true ++ [rbrace, '\n']
      else if t.m_id = TypeId.LIST_T then
        ['['] ++ schema_list ds ls true ++ [']', '\n']
      else ds t
/-- The loop of `Node::schema` over `entries()`; `first` is its flag. -/
def schema_entries (ds : DataType → Str) : List (Str × Node) → Bool → Str
  | [], _ => []
  | (k, c) :: r, first =>
      (if !first then [','] else []) ++ ['"'] ++ k ++ ['"', ' ', ':', ' '] ++ schema ds c ++ ['\n']
        ++ schema_entries ds r false
/-- The loop of `Node::schema` over `list()`; `first` is its flag. -/
def schema_list (ds : DataType → Str) : List Node → Bool → Str
  | [], _ => []
  | c :: r, first =>
      (if !first then [','] else []) ++ schema ds c ++ ['\n'] ++ schema_list ds r false
end

mutual
/-- Destructor `Node::~Node()`: `cleanup()`, then the members are destroyed. -/
def destroy : Heap → Node → Heap
  | h, mk d a t l e ls => destroy_list (destroy_entries (cleanup h (mk d a t l e ls)).1 e) ls
/-- Destruction of the elements of a `std::map<std::string, Node>`. -/
def destroy_entries : Heap → List (Str × Node) → Heap
  | h, [] => h
  | h, (_, c) :: r => destroy_entries (destroy h c) r
/-- Destruction of the elements of a `std::vector<Node>`. -/
def destroy_list : Heap → List Node → Heap
  | h, [] => h
  | h, c :: r => destroy_list (destroy h c) r
end

mutual
/-- Embedding of `Node::set(const Node &node)` on the receiver `a`.
`m_entries = node.m_entries` is the copy assignment of `std::map`: into an
empty map every entry of `node` is copy-constructed, and from an empty map
every old entry is destroyed; between two maps that are not empty the library
either destroys and copy-constructs the elements or assigns onto them with
`Node::operator=`, which the source does not fix. `m_list_data =
node.m_list_data` is the copy assignment of `std::vector`: into an empty
vector every element is copy-constructed, otherwise see `assign_list`. `none`
when a `memcpy` goes through a null pointer or a container assignment is not
determined. -/
def set_node (tb : DataType → Nat) : Heap → Node → Node → Option (Heap × Node)
  | h, a, mk d al t _ e ls =>
      if t.m_id ≠ TypeId.EMPTY_T then
        let r1 : Option (Heap × Node) :=
          if al then
            let i := init h a t
            (i.1.memcpy i.2.m_data d (tb i.2.m_dtype)).map (fun h1 => (h1, i.2))
          else some (h, mk d false t a.m_locked a.entries a.list)
        match r1 with
        | none => none
        | some s1 =>
            match (if a.entries.isEmpty then copy_entries tb s1.1 e
                   else if e.isEmpty then some (destroy_entries s1.1 a.entries, [])
                   else none) with
            | none => none
            | some ce =>
                match (if a.list.isEmpty then copy_list tb ce.1 ls
                       else assign_list tb ce.1 a.list ls) with
                | none => none
                | some cl =>
                    some (cl.1,
                      mk s1.2.m_data s1.2.m_alloced s1.2.m_dtype s1.2.m_locked ce.2 cl.2)
      else some (h, a)
/-- Copy of a `std::map<std::string, Node>`: each entry is copy-constructed
(`Node::Node(const Node&)`, a default node on which `set(node)` runs). -/
def copy_entries (tb : DataType → Nat) :
    Heap → List (Str × Node) → Option (Heap × List (Str × Node))
  | h, [] => some (h, [])
  | h, (k, c) :: r =>
      match set_node tb h default c with
      | none => none
      | some x =>
          match copy_entries tb x.1 r with
          | none => none
          | some y => some (y.1, (k, x.2) :: y.2)
/-- Copy of a `std::vector<Node>`: each element is copy-constructed. -/
def copy_list (tb : DataType → Nat) : Heap → List Node → Option (Heap × List Node)
  | h, [] => some (h, [])
  | h, c :: r =>
      match set_node tb h default c with
      | none => none
      | some x =>
          match copy_list tb x.1 r with
          | none => none
          | some y => some (y.1, x.2 :: y.2)
/-- Copy assignment of a `std::vector<Node>` onto the elements `xs` of a
vector that is not empty: the source elements are assigned to the existing
elements one by one with `Node::operator=`, and the existing elements left
over are destroyed. When the source is the longer one, whether the existing
elements are assigned or replaced depends on the capacity of the vector,
which the state does not record: `none`. -/
def assign_list (tb : DataType → Nat) : Heap → List Node → List Node → Option (Heap × List Node)
  | h, xs, [] => some (destroy_list h xs, [])
  | _, [], _ :: _ => none
  | h, x :: xr, y :: yr =>
      match set_node tb h x y with
      | none => none
      | some r =>
          match assign_list tb r.1 xr yr with
          | none => none
          | some s => some (s.1, r.2 :: s.2)
end

/-- Embedding of `Node::set(void *data, const DataType &dtype)`. -/
def set_external (data : Ptr) (dtype : DataType) : Node → Node
  | mk _ _ _ l e ls => mk data false dtype l e ls

end Node

/-! ## The schema walker -/

/-- A parsed JSON value, as handed over by the JSON tokenizer (numbers are
the non-negative integers a schema uses). -/
inductive JValue where
  | null
  | bool (b : Bool)
  | number (n : Nat)
  | string (s : Str)
  | array (elems : List JValue)
  | object (members : List (Str × JValue))

/-- Member lookup `jvalue[name]` / `HasMember(name)`: the first member so named. -/
def find_member : List (Str × JValue) → Str → Option JValue
  | [], _ => none
  | (k, v) :: r, name => if k = name then some v else find_member r name

namespace Node

/-- Assignment to `m_data`. -/
def set_data : Node → Ptr → Node
  | mk _ a t l e ls, d => mk d a t l e ls

mutual
/-- Embedding of `Node::walk_schema(void *data, const rapidjson::Value&,
index_t curr_offset)` on the receiver `this`. Names go through
`std::string(const char*)` (`c_str`), and `"length"` is read with `GetInt()`,
which is defined on the numbers an `int` holds. `none` when a JSON accessor is
used on a value it is not defined on, the type name is unknown, or a copy of a
walked node does not return. -/
def walk_schema_value (tb : DataType → Nat) (data : Ptr) :
    JValue → Heap → Node → Nat → Option (Heap × Node)
  | JValue.object members, h, this, curr_offset =>
      match find_member members "dtype".toList with
      | some dv =>
          match dv, find_member members "length".toList with
          | JValue.string dtype_name, some (JValue.number length) =>
              if length < 2 ^ 31 then
                match DataType.default_dtype (c_str dtype_name) with
                | some df =>
                    some (h, (this.set_dtype ⟨df.m_id, length, curr_offset, df.m_ele_bytes,
                      df.m_ele_bytes, Endianness.DEFAULT_T⟩).set_data data)
                | none => none
              else none
          | _, _ => none
      | none => walk_schema_members tb data members h this curr_offset
  | JValue.array elems, h, this, curr_offset =>
      walk_schema_elems tb data elems h (this.set_dtype (DataType.of_id TypeId.LIST_T)) curr_offset
  | JValue.string dtype_name, h, this, curr_offset =>
      match DataType.default_dtype (c_str dtype_name) with
      | some df =>
          some (h, (this.set_dtype ⟨df.m_id, 1, curr_offset, df.m_ele_bytes, df.m_ele_bytes,
            Endianness.DEFAULT_T⟩).set_data data)
      | none => none
  | _, h, this, _ => some (h, this)
/-- The member loop of `walk_schema`: each member is walked into a local node,
assigned to `ents[entry_name]`, and the cursor advances by its size. -/
def walk_schema_members (tb : DataType → Nat) (data : Ptr) :
    List (Str × JValue) → Heap → Node → Nat → Option (Heap × Node)
  | [], h, this, _ => some (h, this)
  | (name, v) :: r, h, this, curr_offset =>
      match walk_schema_value tb data v h (of_dtype DataType.node_dtype false) curr_offset with
      | none => none
      | some (h1, node) =>
          match set_node tb h1 ((map_find this.entries (c_str name)).getD default) node with
          | none => none
          | some asg =>
              walk_schema_members tb data r (destroy asg.1 node)
                (this.set_entries (map_insert this.entries (c_str name) asg.2))
                (curr_offset + total_bytes tb node)
/-- The element loop of `walk_schema`: each element is walked into a local
node and appended with `push_back`, which copy-constructs it; the moves of the
elements already there, when the vector grows, are not followed. -/
def walk_schema_elems (tb : DataType → Nat) (data : Ptr) :
    List JValue → Heap → Node → Nat → Option (Heap × Node)
  | [], h, this, _ => some (h, this)
  | v :: r, h, this, curr_offset =>
      match walk_schema_value tb data v h (of_dtype DataType.node_dtype false) curr_offset with
      | none => none
      | some (h1, node) =>
          match set_node tb h1 default node with
          | none => none
          | some cp =>
              walk_schema_elems tb data r (destroy cp.1 node)
                (this.set_list (this.list ++ [cp.2])) (curr_offset + total_bytes tb node)
end

/-- Embedding of `Node::walk_schema(void *data, const std::string &schema)`,
the schema given as the parsed JSON document. -/
def walk_schema (tb : DataType → Nat) (h : Heap) (this : Node) (data : Ptr) (schema : JValue) :
    Option (Heap × Node) :=
  walk_schema_value tb data schema h
    (mk data false (DataType.of_id TypeId.NODE_T) this.m_locked this.entries this.list) 0

/-- Constructor `Node::Node(void *data, const std::string &schema)`. -/
def of_schema (tb : DataType → Nat) (h : Heap) (data : Ptr) (schema : JValue) :
    Option (Heap × Node) :=
  walk_schema tb h default data schema

/-- The bytes of element `i` of a leaf: `element_bytes` bytes at
`m_data + element_index(i)`. -/
def element (h : Heap) (n : Node) (i : Nat) : List Nat :=
  h.read (n.m_data + n.m_dtype.element_index i) n.m_dtype.m_ele_bytes

/-- The content bytes of a leaf: its `count` elements, in order. -/
def leaf_content (h : Heap) (n : Node) : List Nat :=
  ((List.range n.m_dtype.m_num_ele).map (element h n)).flatten

end Node

/-- A heap holding the given bytes at address `p` and zero elsewhere. -/
def Heap.with_bytes (p : Ptr) (bs : List Nat) : Heap := Heap.init.write p bs

/-! ## Auxiliary definitions used in the statements and proofs -/

/-- First component and remainder of a path, by recursion on the characters. -/
def split_at_slash : Str → Str × Str
  | [] => ([], [])
  | c :: cs => if c = '/' then ([], cs) else (c :: (split_at_slash cs).1, (split_at_slash cs).2)


namespace Node

/-- The node on which `fetch` works after forcing the tag to `NODE_T`. -/
def fetch_promote (h : Heap) (n : Node) : Heap × Node :=
  if n.m_dtype.m_id ≠ TypeId.NODE_T then init h n DataType.node_dtype else (h, n)


mutual
/-- Every descriptor in the tree satisfies the descriptor invariant
(`DataType.wf`). -/
def dtypes_wf : Node → Bool
  | mk _ _ t _ e ls => t.wf && dtypes_wf_entries e && dtypes_wf_list ls
/-- The descriptor invariant over the entries of a map. -/
def dtypes_wf_entries : List (Str × Node) → Bool
  | [] => true
  | (_, c) :: r => dtypes_wf c && dtypes_wf_entries r
/-- The descriptor invariant over the elements of a vector. -/
def dtypes_wf_list : List Node → Bool
  | [] => true
  | c :: r => dtypes_wf c && dtypes_wf_list r
end

/-- One lookup in a chain of `get` calls: by path or by index. -/
inductive Step where
  | path (p : Str)
  | index (i : Nat)

/-- A chain `n.get(s1).get(s2)...`; `none` if an index is out of range. -/
def get_chain (E : Node) : Node → List Step → Option Node
  | n, [] => some n
  | n, Step.path p :: r => get_chain E (get E n p) r
  | n, Step.index i :: r =>
      match get_index E n i with
      | none => none
      | some c => get_chain E c r

end Node

/-! ## Further mutators and example states -/

/-- The eight bytes of a 64-bit pattern in host order (little-endian host). -/
def uint64_bytes (v : Nat) : List Nat :=
  (List.range 8).map (fun i => v / 256 ^ i % 256)

namespace Node

/-- Embedding of `Node::set(float64)`; the value is given by its 64-bit
pattern `bits`. -/
def set_float64 (bits : Nat) (h : Heap) (n : Node) : Heap × Node :=
  match init h n DataType.float64_dtype with
  | (h1, n1) =>
      (h1.write (n1.m_data + n1.m_dtype.element_index 0) (uint64_bytes (bits % 2 ^ 64)), n1)

/-- Embedding of `Node::set(const std::vector<uint32>&)`. -/
def set_uint32_vector (data : List Nat) (h : Heap) (n : Node) : Heap × Node :=
  match init h n ⟨TypeId.UINT32_T, data.length, 0, 4, 4, Endianness.DEFAULT_T⟩ with
  | (h1, n1) => (h1.write n1.m_data (data.map (fun v => uint32_bytes (v % 2 ^ 32))).flatten, n1)

/-- The statement sequence `N.fetch(path).set(v)` for a `uint32` value. -/
def fetch_set_uint32 (h : Heap) (n : Node) (path : Str) (v : Nat) : Heap × Node :=
  modify_at (set_uint32 v) (fetch h n path).1 (fetch h n path).2.1 (fetch h n path).2.2

/-- The state after `Node N; N.fetch("a").set(7u);`. -/
def tree_a7 : Heap × Node := fetch_set_uint32 Heap.init default "a".toList 7

/-- The state after `Node N; N.fetch("b").set(1u); N.fetch("a").set(2u);`. -/
def tree_b1_a2 : Heap × Node :=
  fetch_set_uint32 (fetch_set_uint32 Heap.init default "b".toList 1).1
    (fetch_set_uint32 Heap.init default "b".toList 1).2 "a".toList 2

end Node

/-! ## Definitions for the serialization claims -/

namespace Node

/-- The keys of the entries, in iteration order. -/
def keys (n : Node) : List Str := n.entries.map Prod.fst

/-- The statement sequence `N.fetch(name_1); ...; N.fetch(name_k);`. -/
def fetch_all (h : Heap) (n : Node) : List Str → Heap × Node
  | [] => (h, n)
  | name :: r => fetch_all (fetch h n name).1 (fetch h n name).2.1 r

mutual
/-- The bytes a subtree contributes to the output of `serialize`: the
children's contributions in iteration order, or the `total_bytes()` bytes
found at `m_data`. -/
def flat (tb : DataType → Nat) (h : Heap) : Node → List Nat
  | mk d a t l e ls =>
      if t.m_id = TypeId.NODE_T then flat_entries tb h e
      else if t.m_id = TypeId.LIST_T then flat_list tb h ls
      else h.read d (total_bytes tb (mk d a t l e ls))
/-- The contributions of the entries of a map, in iteration order. -/
def flat_entries (tb : DataType → Nat) (h : Heap) : List (Str × Node) → List Nat
  | [] => []
  | (_, c) :: r => flat tb h c ++ flat_entries tb h r
/-- The contributions of the elements of a vector, in order. -/
def flat_list (tb : DataType → Nat) (h : Heap) : List Node → List Nat
  | [] => []
  | c :: r => flat tb h c ++ flat_list tb h r
end

mutual
/-- The specification's compact binary layout (section 6.2): the depth-first,
child-order concatenation of each leaf's content bytes, the `count` elements
found at `base + offset + i * stride`. -/
def content_bytes_spec (h : Heap) : Node → List Nat
  | mk d a t l e ls =>
      if t.m_id = TypeId.NODE_T then content_bytes_spec_entries h e
      else if t.m_id = TypeId.LIST_T then content_bytes_spec_list h ls
      else if t.m_id = TypeId.EMPTY_T then []
      else leaf_content h (mk d a t l e ls)
/-- The layout of the entries of an OBJECT, in child order. -/
def content_bytes_spec_entries (h : Heap) : List (Str × Node) → List Nat
  | [] => []
  | (_, c) :: r => content_bytes_spec h c ++ content_bytes_spec_entries h r
/-- The layout of the children of a LIST, in order. -/
def content_bytes_spec_list (h : Heap) : List Node → List Nat
  | [] => []
  | c :: r => content_bytes_spec h c ++ content_bytes_spec_list h r
end

mutual
/-- The specification's `total_bytes_compact` (section 8): the sum over all
leaves of `count * element_bytes`. -/
def total_bytes_compact_spec : Node → Nat
  | mk _ _ t _ e ls =>
      if t.m_id = TypeId.NODE_T then total_bytes_compact_spec_entries e
      else if t.m_id = TypeId.LIST_T then total_bytes_compact_spec_list ls
      else if t.m_id = TypeId.EMPTY_T then 0
      else t.m_num_ele * t.m_ele_bytes
/-- The sum over the entries of an OBJECT. -/
def total_bytes_compact_spec_entries : List (Str × Node) → Nat
  | [] => 0
  | (_, c) :: r => total_bytes_compact_spec c + total_bytes_compact_spec_entries r
/-- The sum over the children of a LIST. -/
def total_bytes_compact_spec_list : List Node → Nat
  | [] => 0
  | c :: r => total_bytes_compact_spec c + total_bytes_compact_spec_list r
end

mutual
/-- Every leaf of the tree has one of the tags `Node::total_bytes` handles
(`UINT32`, `UINT64`, `FLOAT64`), is compact (`stride == element_bytes`) and
starts at offset `0`. -/
def leaves_compact : Node → Bool
  | mk _ _ t _ e ls =>
      if t.m_id = TypeId.NODE_T then leaves_compact_entries e
      else if t.m_id = TypeId.LIST_T then leaves_compact_list ls
      else if t.m_id = TypeId.EMPTY_T then true
      else decide ((t.m_id = TypeId.UINT32_T ∨ t.m_id = TypeId.UINT64_T ∨
        t.m_id = TypeId.FLOAT64_T) ∧ t.m_stride = t.m_ele_bytes ∧ t.m_offset = 0)
/-- The same over the entries of an OBJECT. -/
def leaves_compact_entries : List (Str × Node) → Bool
  | [] => true
  | (_, c) :: r => leaves_compact c && leaves_compact_entries r
/-- The same over the children of a LIST. -/
def leaves_compact_list : List Node → Bool
  | [] => true
  | c :: r => leaves_compact c && leaves_compact_list r
end

end Node

/-! ## Example states for the serialization claims -/

namespace Node

/-- The schema `{"a": "uint32", "b": "uint32"}`. -/
def schema_ab : JValue :=
  JValue.object [("a".toList, JValue.string "uint32".toList),
    ("b".toList, JValue.string "uint32".toList)]

/-- Eight bytes at address `100`: the `uint32` values 1 and 2. -/
def heap_12 : Heap := Heap.with_bytes 100 [1, 0, 0, 0, 2, 0, 0, 0]

/-- The binary round trip: `N = Node(data, S)`, its `serialize` output stored
at `out`, and `N2 = Node(out, S)`. Returns the final heap, `N` and `N2`. -/
def round_trip (tb : DataType → Nat) (h : Heap) (data out : Ptr) (S : JValue) :
    Option (Heap × Node × Node) :=
  match of_schema tb h data S with
  | none => none
  | some (h1, N) =>
      match serialize tb h1 N with
      | none => none
      | some bytes =>
          match of_schema tb (h1.write out bytes) out S with
          | none => none
          | some (h2, N2) => some (h2, N, N2)

end Node

/-! ## Definitions for the mutator claims -/

namespace Node

/-- Embedding of `Node::is_data_external` (Node.hpp): the node did not
allocate `m_data`. -/
def is_data_external (n : Node) : Bool := !n.m_alloced

/-- The test made by `Node::init`: the storage is kept when the current
descriptor is storage-compatible with the new one and `m_data` is not null. -/
def reuses_storage (n : Node) (dtype : DataType) : Bool :=
  n.m_dtype.compatible_storage dtype && decide (n.m_data ≠ NULL)

/-- The descriptor built by `Node::set(const std::vector<uint32>&)`. -/
def uint32_vec_dtype (len : Nat) : DataType :=
  ⟨TypeId.UINT32_T, len, 0, 4, 4, Endianness.DEFAULT_T⟩

/-- The bytes a leaf's descriptor spans from its base pointer:
`offset + (count-1) * stride + element_bytes` (for `count > 0`). -/
def region_bytes (d : DataType) : Nat :=
  d.m_offset + (d.m_num_ele - 1) * d.m_stride + d.m_ele_bytes

/-- The invariant on an owning leaf: a live allocation at `m_data` is at
least as long as the region its descriptor spans. -/
def owned_region_ok (h : Heap) (n : Node) : Bool :=
  !(n.m_alloced && n.m_dtype.is_leaf && decide (0 < n.m_dtype.m_num_ele)) ||
    h.allocs.any (fun b => decide (b.1 = n.m_data) && decide (region_bytes n.m_dtype ≤ b.2))

/-- The leaf schema object `{"dtype": T, "length": n}`. -/
def leaf_schema (T : Str) (n : Nat) : JValue :=
  JValue.object [("dtype".toList, JValue.string T), ("length".toList, JValue.number n)]

/-- The leaf schema object `{"dtype": "uint32", "length": 2, "offset": 16,
"stride": 8, "element_bytes": 4}`. -/
def schema_explicit : JValue :=
  JValue.object [("dtype".toList, JValue.string "uint32".toList),
    ("length".toList, JValue.number 2), ("offset".toList, JValue.number 16),
    ("stride".toList, JValue.number 8), ("element_bytes".toList, JValue.number 4)]

/-- A `LIST` node with no children, as the schema walker builds for `[]`. -/
def empty_list : Node := set_dtype default (DataType.of_id TypeId.LIST_T)

/-- The state after `Node N; N.set(5u); N.set(DataType(UINT32_T, 2, 0, 4, 4))`. -/
def state_set5_dtype : Heap × Node :=
  ((set_uint32 5 Heap.init default).1,
   set_dtype (set_uint32 5 Heap.init default).2 (uint32_vec_dtype 2))

/-- The state after `Node b; b.set(7u);`. -/
def state_b7 : Heap × Node := set_uint32 7 Heap.init default

end Node

namespace Node

end Node

/-- The shape of a tree: at every node the descriptor, the named children and
the list children. -/
inductive Layout where
  | mk (dtype : DataType) (entries : List (Str × Layout)) (list : List Layout)

namespace Node

mutual
/-- The shape of a node as `set(const Node&)` sees it: an EMPTY node counts as
a bare empty node (the copy does nothing for it), any other node has its
descriptor and the shapes of its entries and list children. -/
def layout : Node → Layout
  | mk _ _ t _ e ls =>
      if t.m_id = TypeId.EMPTY_T then Layout.mk (DataType.of_id TypeId.EMPTY_T) [] []
      else Layout.mk t (layout_entries e) (layout_list ls)
/-- The shapes of the entries of a map, with their names. -/
def layout_entries : List (Str × Node) → List (Str × Layout)
  | [] => []
  | (k, c) :: r => (k, layout c) :: layout_entries r
/-- The shapes of the elements of a vector. -/
def layout_list : List Node → List Layout
  | [] => []
  | c :: r => layout c :: layout_list r
end

end Node

namespace Node

/-- The leaf descriptor the walker assigns: the tag of `df`, `count`
elements, offset `cursor`, stride and element bytes both the width of `df`. -/
def walked_dtype (df : DataType) (count cursor : Nat) : DataType :=
  ⟨df.m_id, count, cursor, df.m_ele_bytes, df.m_ele_bytes, Endianness.DEFAULT_T⟩

/-- The schema `{"a": "uint32", "b": {"dtype": "float64", "length": 3},
"c": "uint32"}`, as its member list. -/
def members_abc : List (Str × JValue) :=
  [("a".toList, JValue.string "uint32".toList),
   ("b".toList, leaf_schema "float64".toList 3),
   ("c".toList, JValue.string "uint32".toList)]

end Node

/-! ## Definitions for the schema, size and stub claims -/

/-- The tags `Node::total_bytes` has a case for: `UINT32_T`, `UINT64_T` and
`FLOAT64_T`. -/
def TypeId.sized (t : TypeId) : Bool :=
  t = TypeId.UINT32_T ∨ t = TypeId.UINT64_T ∨ t = TypeId.FLOAT64_T

namespace Node

/-- The leaf schema object `{"dtype": T, "length": n, "stride": s}`. -/
def leaf_schema_stride (T : Str) (n s : Nat) : JValue :=
  JValue.object [("dtype".toList, JValue.string T), ("length".toList, JValue.number n),
    ("stride".toList, JValue.number s)]

/-- The schema `{"a": "int32", "b": {"dtype": "float64", "length": 3}}`. -/
def schema_int32_float64 : JValue :=
  JValue.object [("a".toList, JValue.string "int32".toList),
    ("b".toList, leaf_schema "float64".toList 3)]

/-- Embedding of `Node::operator==`: the body is `return false;`. -/
def op_eq (_a _b : Node) : Bool := false

/-- Embedding of `Node::paths(std::vector<std::string> &paths, bool expand)`:
the body is empty, so the vector is returned as it came in. -/
def paths (_n : Node) (out : List Str) (_expand : Bool) : List Str := out

/-- The state after `Node N; N.fetch("a").set(7u); N.set(5u); N.fetch("q");`. -/
def state_retagged : Heap × Node :=
  ((fetch (set_uint32 5 tree_a7.1 tree_a7.2).1 (set_uint32 5 tree_a7.1 tree_a7.2).2
      "q".toList).1,
   (fetch (set_uint32 5 tree_a7.1 tree_a7.2).1 (set_uint32 5 tree_a7.1 tree_a7.2).2
      "q".toList).2.1)

/-- A `LIST` node with one child, an empty node. -/
def list_one : Node := set_list empty_list [default]

/-- The state after `Node N; N.fetch("a/b/c").set(7u);`. -/
def tree_abc7 : Heap × Node := fetch_set_uint32 Heap.init default "a/b/c".toList 7

/-- The four zero-size shapes: a `LIST` without list children, an OBJECT
without entries, an EMPTY node, a leaf with `count == 0`. -/
def zero_size (n : Node) : Prop :=
  (n.m_dtype.m_id = TypeId.LIST_T ∧ n.list = []) ∨
  (n.m_dtype.m_id = TypeId.NODE_T ∧ n.entries = []) ∨
  n.m_dtype.m_id = TypeId.EMPTY_T ∨
  (n.m_dtype.is_leaf = true ∧ n.m_dtype.m_num_ele = 0)

end Node

/-! ## Definitions for the path, lock, walker-shape and copy claims -/

namespace Node

/-- The entry names a path is resolved through: `split_path` is applied to the
path, then to the remainder it leaves, until the remainder is empty (the
recursion shared by `get`, `has_path` and `fetch`). -/
def components_fuel : Nat → Str → List Str
  | 0, _ => []
  | fuel + 1, path =>
      let p := split_path path
      if p.2.isEmpty then [p.1] else p.1 :: components_fuel fuel p.2

/-- The entry names of a path, in order. -/
def path_components (path : Str) : List Str := components_fuel (path.length + 1) path

/-- The path `c_1/c_2/.../c_n` written from its components. -/
def join_path : List Str → Str
  | [] => []
  | [c] => c
  | c :: c2 :: cs => c ++ '/' :: join_path (c2 :: cs)

/-- Lookup of a list of entry names as the specification words it: every step finds an
entry under an OBJECT parent. -/
def lookup_spec : Node → List Str → Option Node
  | n, [] => some n
  | n, k :: ks =>
      if n.m_dtype.m_id = TypeId.NODE_T then
        match map_find n.entries k with
        | none => none
        | some c => lookup_spec c ks
      else none

/-- The node a reference returned by `fetch` designates: the stored entries
are followed name by name (no tag is consulted). -/
def deref : Node → List Str → Option Node
  | n, [] => some n
  | n, k :: ks =>
      match map_find n.entries k with
      | none => none
      | some c => deref c ks

/-- The keys of a `std::map` as iteration meets them: strictly ascending. -/
def ascending : List Str → Bool
  | [] => true
  | [_] => true
  | a :: b :: r => str_lt a b && ascending (b :: r)

mutual
/-- The representation invariant of `std::map`: at every node of the tree the
keys of `m_entries` are strictly ascending. -/
def maps_ordered : Node → Bool
  | mk _ _ _ _ e ls =>
      ascending (e.map Prod.fst) && maps_ordered_entries e && maps_ordered_list ls
/-- The same over the entries of a map. -/
def maps_ordered_entries : List (Str × Node) → Bool
  | [] => true
  | (_, c) :: r => maps_ordered c && maps_ordered_entries r
/-- The same over the elements of a vector. -/
def maps_ordered_list : List Node → Bool
  | [] => true
  | c :: r => maps_ordered c && maps_ordered_list r
end

/-- The state after `Node N; N.fetch("a").set(7u); N.set(5u);`. -/
def state_a7_set5 : Heap × Node := set_uint32 5 tree_a7.1 tree_a7.2

mutual
/-- Embedding of `Node::set_lock`. -/
def set_lock : Node → Bool → Node
  | mk d a t _ e ls, value =>
      if t.m_id = TypeId.NODE_T then mk d a t value (set_lock_entries e value) ls
      else if t.m_id = TypeId.LIST_T then mk d a t value e (set_lock_list ls value)
      else mk d a t value e ls
/-- The loop of `Node::set_lock` over `entries()`. -/
def set_lock_entries : List (Str × Node) → Bool → List (Str × Node)
  | [], _ => []
  | (k, c) :: r, value => (k, set_lock c value) :: set_lock_entries r value
/-- The loop of `Node::set_lock` over `list()`. -/
def set_lock_list : List Node → Bool → List Node
  | [], _ => []
  | c :: r, value => set_lock c value :: set_lock_list r value
end

/-- Embedding of `Node::lock_schema`. -/
def lock_schema (n : Node) : Node := set_lock n true

/-- Embedding of `Node::unlock_schema`. -/
def unlock_schema (n : Node) : Node := set_lock n false

/-- Embedding of the non-const `Node::operator[](const std::string&)`: the
outcome of `fetch(path)` on an unlocked node, the node returned by `get(path)`
on a locked one. -/
def op_index (E : Node) (h : Heap) (n : Node) (path : Str) :
    (Heap × Node × List Str) ⊕ Node :=
  if !n.m_locked then Sum.inl (fetch h n path) else Sum.inr (get E n path)

mutual
/-- The node and its descendants reachable through the entries of OBJECT nodes
and the children of LIST nodes, parent first. -/
def reachable : Node → List Node
  | mk d a t l e ls =>
      mk d a t l e ls ::
        (if t.m_id = TypeId.NODE_T then reachable_entries e
         else if t.m_id = TypeId.LIST_T then reachable_list ls
         else [])
/-- The nodes reachable from the entries of a map. -/
def reachable_entries : List (Str × Node) → List Node
  | [] => []
  | (_, c) :: r => reachable c ++ reachable_entries r
/-- The nodes reachable from the elements of a vector. -/
def reachable_list : List Node → List Node
  | [] => []
  | c :: r => reachable c ++ reachable_list r
end

mutual
/-- The `memcpy` calls made by `Node::serialize(uint8*, index_t, bool)`
started at `curr_offset`, in order: destination offset, source pointer and
byte count of each. -/
def serialize_writes (tb : DataType → Nat) : Node → Nat → List (Nat × Ptr × Nat)
  | mk d a t l e ls, curr_offset =>
      if t.m_id = TypeId.NODE_T then serialize_writes_entries tb e curr_offset
      else if t.m_id = TypeId.LIST_T then serialize_writes_list tb ls curr_offset
      else [(curr_offset, d, total_bytes tb (mk d a t l e ls))]
/-- The `memcpy` calls of the loop over `entries()`. -/
def serialize_writes_entries (tb : DataType → Nat) :
    List (Str × Node) → Nat → List (Nat × Ptr × Nat)
  | [], _ => []
  | (_, c) :: r, curr_offset =>
      serialize_writes tb c curr_offset ++
        serialize_writes_entries tb r (curr_offset + total_bytes tb c)
/-- The `memcpy` calls of the loop over `list()`. -/
def serialize_writes_list (tb : DataType → Nat) : List Node → Nat → List (Nat × Ptr × Nat)
  | [], _ => []
  | c :: r, curr_offset =>
      serialize_writes tb c curr_offset ++
        serialize_writes_list tb r (curr_offset + total_bytes tb c)
end

/-- The byte vector after a sequence of `memcpy(&data[off], src, n)` calls;
`none` if one of them leaves the vector or has at least one byte to copy from
a null pointer. -/
def replay (h : Heap) : List (Nat × Ptr × Nat) → List Nat → Option (List Nat)
  | [], data => some data
  | (off, src, n) :: r, data =>
      if n ≠ 0 ∧ src = NULL then none
      else
        match buf_write data off (h.read src n) with
        | none => none
        | some data1 => replay h r data1

/-- The ranges `[off, off + n)` of a sequence of writes tile `[s, e)`: the
first starts at `s`, each next one starts where the one before it ends, and
the last ends at `e`. -/
def tiles : Nat → List (Nat × Ptr × Nat) → Nat → Bool
  | s, [], e => decide (s = e)
  | s, (off, _, n) :: r, e => decide (off = s) && tiles (s + n) r e

/-- Embedding of `Node::operator=(const Node &node)`; `same` is the outcome
of the test `this == &node`. -/
def op_assign (tb : DataType → Nat) (h : Heap) (a node : Node) (same : Bool) :
    Option (Heap × Node) :=
  if !same then set_node tb h a node else some (h, a)

/-- Copy constructor `Node::Node(const Node &node)`: a default node on which
`set(node)` runs. -/
def of_node (tb : DataType → Nat) (h : Heap) (node : Node) : Option (Heap × Node) :=
  set_node tb h default node

mutual
/-- The nodes the schema walker builds: the node and every stored child
borrows its data (`m_alloced` false), is unlocked, and is not EMPTY. -/
def borrowed : Node → Bool
  | mk _ a t l e ls =>
      !a && !l && decide (t.m_id ≠ TypeId.EMPTY_T) && borrowed_entries e && borrowed_list ls
/-- The same over the entries of a map. -/
def borrowed_entries : List (Str × Node) → Bool
  | [] => true
  | (_, c) :: r => borrowed c && borrowed_entries r
/-- The same over the elements of a vector. -/
def borrowed_list : List Node → Bool
  | [] => true
  | c :: r => borrowed c && borrowed_list r
end

mutual
/-- Every leaf of the tree has `data` as its base pointer. -/
def leaves_at (data : Ptr) : Node → Bool
  | mk d _ t _ e ls =>
      (!t.is_leaf || decide (d = data)) && leaves_at_entries data e && leaves_at_list data ls
/-- The same over the entries of a map. -/
def leaves_at_entries (data : Ptr) : List (Str × Node) → Bool
  | [] => true
  | (_, c) :: r => leaves_at data c && leaves_at_entries data r
/-- The same over the elements of a vector. -/
def leaves_at_list (data : Ptr) : List Node → Bool
  | [] => true
  | c :: r => leaves_at data c && leaves_at_list data r
end

end Node

mutual
/-- The schemas on which the walker is defined: in a leaf object `"dtype"` is
a string naming a known type and `"length"` is a number an `int` holds, a
string names a known type, the members of an object without `"dtype"` have
names that differ as C strings, and so on through members and elements. -/
def schema_ok : JValue → Bool
  | JValue.object members =>
      match find_member members "dtype".toList with
      | some dv =>
          match dv, find_member members "length".toList with
          | JValue.string dtype_name, some (JValue.number length) =>
              decide (length < 2 ^ 31) && (DataType.default_dtype (c_str dtype_name)).isSome
          | _, _ => false
      | none =>
          decide ((members.map (fun m => c_str m.1)).Nodup) && schema_ok_members members
  | JValue.array elems => schema_ok_elems elems
  | JValue.string dtype_name => (DataType.default_dtype (c_str dtype_name)).isSome
  | _ => true
/-- The same over the members of an object. -/
def schema_ok_members : List (Str × JValue) → Bool
  | [] => true
  | (_, v) :: r => schema_ok v && schema_ok_members r
/-- The same over the elements of an array. -/
def schema_ok_elems : List JValue → Bool
  | [] => true
  | v :: r => schema_ok v && schema_ok_elems r
end

namespace Node

/-- The schema `[{"a": "uint32", "b": "uint32"}, "float64"]`, as its element
list. -/
def elems_ab_f : List JValue := [schema_ab, JValue.string "float64".toList]

/-- The members of the schema `{"a": "uint32", "b": "uint32"}`. -/
def members_ab : List (Str × JValue) :=
  [("a".toList, JValue.string "uint32".toList), ("b".toList, JValue.string "uint32".toList)]

/-- The members `"a": "uint32"` and `"a\0b": "uint32"`: two different names
that are the same C string. -/
def members_nul : List (Str × JValue) :=
  [("a".toList, JValue.string "uint32".toList),
   (['a', Char.ofNat 0, 'b'], JValue.string "uint32".toList)]

mutual
/-- No `memcpy` of `serialize` reads through a null pointer: every node it
copies from with at least one byte to copy has a non-null `m_data`. -/
def sources_ok (tb : DataType → Nat) : Node → Bool
  | mk d a t l e ls =>
      if t.m_id = TypeId.NODE_T then sources_ok_entries tb e
      else if t.m_id = TypeId.LIST_T then sources_ok_list tb ls
      else decide (total_bytes tb (mk d a t l e ls) = 0 ∨ d ≠ NULL)
/-- The same over the entries of a map. -/
def sources_ok_entries (tb : DataType → Nat) : List (Str × Node) → Bool
  | [] => true
  | (_, c) :: r => sources_ok tb c && sources_ok_entries tb r
/-- The same over the elements of a vector. -/
def sources_ok_list (tb : DataType → Nat) : List Node → Bool
  | [] => true
  | c :: r => sources_ok tb c && sources_ok_list tb r
end

/-- The sentinel after `Node::Empty.set(uint32(5))`, as reached by
`N.get("missing").set(5u)`. -/
def sentinel_set5 : Heap × Node := set_uint32 5 Heap.init Empty

/-- The sentinel after `Node::Empty.fetch("x")`, as reached by
`N.get("missing").fetch("x")`. -/
def sentinel_fetched : Node := (fetch Heap.init Empty "x".toList).2.1

mutual
/-- Every copy that `set(const Node&)` makes of the node returns: if the node
is not EMPTY and owns its data, its bytes can be copied into a block that
`init` allocates on a new node (the tag is `UINT32` or `FLOAT64` and `m_data`
is not null) or there is no byte to copy; and so on through its entries and
list children. -/
def copyable (tb : DataType → Nat) : Node → Bool
  | mk d al t _ e ls =>
      decide (t.m_id = TypeId.EMPTY_T) ||
        ((!al || decide (tb t = 0) ||
            (decide (d ≠ NULL) &&
              decide (t.m_id = TypeId.UINT32_T ∨ t.m_id = TypeId.FLOAT64_T))) &&
          copyable_entries tb e && copyable_list tb ls)
/-- The same over the entries of a map. -/
def copyable_entries (tb : DataType → Nat) : List (Str × Node) → Bool
  | [] => true
  | (_, c) :: r => copyable tb c && copyable_entries tb r
/-- The same over the elements of a vector. -/
def copyable_list (tb : DataType → Nat) : List Node → Bool
  | [] => true
  | c :: r => copyable tb c && copyable_list tb r
end

end Node

/-! ## Paths -/

theorem str_find_none (p : Str) (h : str_find '/' p = none) : split_at_slash p = (p, []) := by
  induction p with
  | nil => rfl
  | cons c cs ih =>
    simp only [str_find] at h
    split at h
    · simp at h
    · rename_i hc
      simp only [Option.map_eq_none'] at h
      simp [split_at_slash, hc, ih h]

theorem str_find_some (p : Str) (i : Nat) (h : str_find '/' p = some i) :
    i < p.length ∧ p.take i = (split_at_slash p).1 ∧ p.drop (i + 1) = (split_at_slash p).2 := by
  induction p generalizing i with
  | nil => simp [str_find] at h
  | cons c cs ih =>
    simp only [str_find] at h
    split at h
    · rename_i hc
      simp only [Option.some.injEq] at h
      subst h
      simp [split_at_slash, hc]
    · rename_i hc
      simp only [Option.map_eq_some'] at h
      obtain ⟨j, hj, rfl⟩ := h
      obtain ⟨h1, h2, h3⟩ := ih j hj
      simp [split_at_slash, hc, h1, h2, h3]

theorem split_path_eq (p : Str) (hp : p.length < 2 ^ 63) : split_path p = split_at_slash p := by
  unfold split_path
  cases hf : str_find '/' p with
  | none => simp [str_find_none p hf]
  | some i =>
    obtain ⟨h1, h2, h3⟩ := str_find_some p i hf
    have e1 : substr p 0 i = (split_at_slash p).1 := by simp [substr, h2]
    have e2 : (if i ≠ size_sub p.length 1 then
          substr p (i + 1) (size_sub p.length (size_sub i 1)) else []) = (split_at_slash p).2 := by
      rw [← h3]
      have hs1 : size_sub p.length 1 = p.length - 1 := by unfold size_sub; omega
      split
      · rename_i hne
        unfold substr
        apply List.take_of_length_le
        simp only [List.length_drop]
        unfold size_sub
        omega
      · rename_i heq
        simp only [ne_eq, Decidable.not_not] at heq
        symm
        apply List.drop_of_length_le
        omega
    simp only [e1, e2]

theorem split_snd_length (p : Str) : (split_at_slash p).2.length ≤ p.length - 1 := by
  induction p with
  | nil => simp [split_at_slash]
  | cons c cs ih =>
    simp only [split_at_slash]
    split
    · simp
    · simp only [List.length_cons, Nat.add_sub_cancel]
      omega

theorem split_snd_lt (p : Str) (h : (split_at_slash p).2 ≠ []) : (split_at_slash p).2.length < p.length := by
  have := split_snd_length p
  cases p with
  | nil => simp [split_at_slash] at h
  | cons c cs => simp only [List.length_cons] at *; omega

namespace Node

theorem get_fuel_irrel (E : Node) : ∀ (f1 f2 : Nat) (n : Node) (p : Str),
    p.length < f1 → p.length < f2 → p.length < 2 ^ 63 →
    get_fuel f1 E n p = get_fuel f2 E n p := by
  intro f1
  induction f1 with
  | zero => intro f2 n p h; omega
  | succ f1 ih =>
    intro f2 n p h1 h2 hp
    cases f2 with
    | zero => omega
    | succ f2 =>
      simp only [get_fuel, split_path_eq p hp]
      split
      · rfl
      · split
        · rfl
        · split
          · rfl
          · rename_i hne
            have hlt := split_snd_lt p (by simpa using hne)
            exact ih f2 _ _ (by omega) (by omega) (by omega)

theorem get_step (E n : Node) (p : Str) (hp : p.length < 2 ^ 63) :
    get E n p =
      if n.m_dtype.m_id ≠ TypeId.NODE_T then E
      else match map_find n.entries (split_at_slash p).1 with
        | none => E
        | some c => if (split_at_slash p).2.isEmpty then c else get E c (split_at_slash p).2 := by
  unfold get
  simp only [get_fuel, split_path_eq p hp]
  split
  · rfl
  · split
    · rfl
    · split
      · rfl
      · rename_i hne
        have hlt := split_snd_lt p (by simpa using hne)
        exact get_fuel_irrel E p.length ((split_at_slash p).2.length + 1) _ _ (by omega) (by omega) (by omega)

theorem has_path_fuel_irrel : ∀ (f1 f2 : Nat) (n : Node) (p : Str),
    p.length < f1 → p.length < f2 → p.length < 2 ^ 63 →
    has_path_fuel f1 n p = has_path_fuel f2 n p := by
  intro f1
  induction f1 with
  | zero => intro f2 n p h; omega
  | succ f1 ih =>
    intro f2 n p h1 h2 hp
    cases f2 with
    | zero => omega
    | succ f2 =>
      simp only [has_path_fuel, split_path_eq p hp]
      split
      · rfl
      · split
        · rfl
        · split
          · rename_i hne
            have hlt := split_snd_lt p (by simpa using hne)
            exact ih f2 _ _ (by omega) (by omega) (by omega)
          · rfl

theorem has_path_step (n : Node) (p : Str) (hp : p.length < 2 ^ 63) :
    has_path n p =
      if n.m_dtype.m_id ≠ TypeId.NODE_T then false
      else match map_find n.entries (split_at_slash p).1 with
        | none => false
        | some c => if !(split_at_slash p).2.isEmpty then has_path c (split_at_slash p).2 else true := by
  unfold has_path
  simp only [has_path_fuel, split_path_eq p hp]
  split
  · rfl
  · split
    · rfl
    · split
      · rename_i hne
        have hlt := split_snd_lt p (by simpa using hne)
        exact has_path_fuel_irrel p.length ((split_at_slash p).2.length + 1) _ _ (by omega) (by omega) (by omega)
      · rfl

theorem fetch_fuel_irrel : ∀ (f1 f2 : Nat) (h : Heap) (n : Node) (p : Str),
    p.length < f1 → p.length < f2 → p.length < 2 ^ 63 →
    fetch_fuel f1 h n p = fetch_fuel f2 h n p := by
  intro f1
  induction f1 with
  | zero => intro f2 h n p h1; omega
  | succ f1 ih =>
    intro f2 h n p h1 h2 hp
    cases f2 with
    | zero => omega
    | succ f2 =>
      simp only [fetch_fuel, split_path_eq p hp]
      split
      · rfl
      · rename_i hne
        have hlt := split_snd_lt p (by simpa using hne)
        rw [ih f2 _ _ _ (by omega) (by omega) (by omega)]

theorem fetch_step (h : Heap) (n : Node) (p : Str) (hp : p.length < 2 ^ 63) :
    fetch h n p =
      (let hn := fetch_promote h n
       let s := split_at_slash p
       let child := (map_find hn.2.entries s.1).getD default
       if s.2.isEmpty then
         (hn.1, hn.2.set_entries (map_insert hn.2.entries s.1 child), [s.1])
       else
         let r := fetch hn.1 child s.2
         (r.1, hn.2.set_entries (map_insert hn.2.entries s.1 r.2.1), s.1 :: r.2.2)) := by
  unfold fetch fetch_promote
  simp only [fetch_fuel, split_path_eq p hp]
  split
  · rfl
  · rename_i hne
    have hlt := split_snd_lt p (by simpa using hne)
    rw [fetch_fuel_irrel p.length ((split_at_slash p).2.length + 1) _ _ _ (by omega) (by omega) (by omega)]
    rfl


theorem map_find_insert_self {α : Type} (m : List (Str × α)) (k : Str) (v : α) :
    map_find (map_insert m k v) k = some v := by
  induction m with
  | nil => simp [map_insert, map_find]
  | cons kv r ih =>
    obtain ⟨k1, v1⟩ := kv
    simp only [map_insert]
    split
    · simp [map_find]
    · rename_i hne
      split
      · simp [map_find]
      · simp [map_find, hne, ih]

@[simp] theorem m_dtype_set_entries (n : Node) (e : List (Str × Node)) :
    (n.set_entries e).m_dtype = n.m_dtype := by
  cases n; rfl

@[simp] theorem entries_set_entries (n : Node) (e : List (Str × Node)) :
    (n.set_entries e).entries = e := by
  cases n; rfl

theorem init_node_dtype (h : Heap) (n : Node) :
    (init h n DataType.node_dtype).2.m_dtype = DataType.node_dtype := by
  cases n with
  | mk d a t l e ls =>
    simp [init, DataType.compatible_storage, DataType.is_leaf, DataType.node_dtype,
      DataType.of_id, cleanup, m_dtype]

theorem fetch_promote_id (h : Heap) (n : Node) :
    (fetch_promote h n).2.m_dtype.m_id = TypeId.NODE_T := by
  unfold fetch_promote
  split
  · rw [init_node_dtype]; rfl
  · rename_i hn
    simpa using hn

theorem fetch_has_path_aux : ∀ (k : Nat) (h : Heap) (n : Node) (p : Str), p.length < k →
    p.length < 2 ^ 63 → has_path (fetch h n p).2.1 p = true := by
  intro k
  induction k with
  | zero => intro h n p hk; omega
  | succ k ih =>
    intro h n p hk hp
    rw [fetch_step h n p hp]
    simp only
    split
    · rename_i he
      rw [has_path_step _ _ hp]
      simp [fetch_promote_id, map_find_insert_self, he]
    · rename_i he
      rw [has_path_step _ _ hp]
      have hlt := split_snd_lt p (by simpa using he)
      simp only [m_dtype_set_entries, fetch_promote_id, entries_set_entries, map_find_insert_self]
      simp only [ne_eq, not_true_eq_false, ↓reduceIte, he, Bool.not_false]
      exact ih _ _ _ (by omega) (by omega)


theorem get_of_not_has_path_aux (E : Node) : ∀ (k : Nat) (n : Node) (p : Str), p.length < k →
    p.length < 2 ^ 63 → has_path n p = false → get E n p = E := by
  intro k
  induction k with
  | zero => intro n p hk; omega
  | succ k ih =>
    intro n p hk hp hh
    rw [has_path_step n p hp] at hh
    rw [get_step E n p hp]
    split
    · rfl
    · rename_i hn
      rw [if_neg hn] at hh
      split
      · rfl
      · rename_i c hc
        rw [hc] at hh
        simp only at hh
        split
        · rename_i he
          simp [he] at hh
        · rename_i he
          have hlt := split_snd_lt p (by simpa using he)
          simp only [he, Bool.not_false, ↓reduceIte] at hh
          exact ih _ _ (by omega) (by omega) hh

theorem get_sentinel (E : Node) (hE : E.is_empty = true) (p : Str) : get E E p = E := by
  have h1 : E.m_dtype.m_id ≠ TypeId.NODE_T := by
    have : E.m_dtype.m_id = TypeId.EMPTY_T := by simpa [is_empty] using hE
    rw [this]; decide
  simp [get, get_fuel, h1]

theorem get_index_sentinel (E : Node) (hE : E.is_empty = true) (i : Nat) :
    get_index E E i = some E := by
  have h1 : E.m_dtype.m_id ≠ TypeId.LIST_T := by
    have : E.m_dtype.m_id = TypeId.EMPTY_T := by simpa [is_empty] using hE
    rw [this]; decide
  simp [get_index, h1]

theorem get_chain_sentinel (E : Node) (hE : E.is_empty = true) (steps : List Step) :
    get_chain E E steps = some E := by
  induction steps with
  | nil => rfl
  | cons s r ih =>
    cases s with
    | path p => simp [get_chain, get_sentinel E hE, ih]
    | index i => simp [get_chain, get_index_sentinel E hE, ih]

theorem split_no_slash (a : Str) (ha : '/' ∉ a) : split_at_slash a = (a, []) := by
  induction a with
  | nil => rfl
  | cons c cs ih =>
    simp only [List.mem_cons, not_or] at ha
    have hc : c ≠ '/' := fun h => ha.1 h.symm
    simp [split_at_slash, hc, ih ha.2]

theorem split_append_slash (a q : Str) (ha : '/' ∉ a) :
    split_at_slash (a ++ '/' :: q) = (a, q) := by
  induction a with
  | nil => simp [split_at_slash]
  | cons c cs ih =>
    simp only [List.mem_cons, not_or] at ha
    have hc : c ≠ '/' := fun h => ha.1 h.symm
    simp [split_at_slash, hc, ih ha.2]

theorem get_first (E n : Node) (hE : E.is_empty = true) (a q : Str) (ha : '/' ∉ a)
    (hq : q ≠ []) (hp : (a ++ '/' :: q).length < 2 ^ 63) :
    get E n (a ++ '/' :: q) = get E (get E n a) q := by
  have hpa : a.length < 2 ^ 63 := by simp at hp; omega
  rw [get_step E n _ hp, get_step E n a hpa, split_append_slash a q ha, split_no_slash a ha]
  have hq2 : q.isEmpty = false := by cases q <;> simp_all
  simp only [hq2, List.isEmpty_nil]
  split
  · exact (get_sentinel E hE q).symm
  · split
    · exact (get_sentinel E hE q).symm
    · simp

theorem has_path_first (E n : Node) (a q : Str) (ha : '/' ∉ a)
    (hq : q ≠ []) (hp : (a ++ '/' :: q).length < 2 ^ 63) :
    has_path n (a ++ '/' :: q) = (has_path n a && has_path (get E n a) q) := by
  have hpa : a.length < 2 ^ 63 := by simp at hp; omega
  rw [has_path_step n _ hp, has_path_step n a hpa, get_step E n a hpa,
    split_append_slash a q ha, split_no_slash a ha]
  have hq2 : q.isEmpty = false := by cases q <;> simp_all
  simp only [hq2, List.isEmpty_nil]
  split
  · simp
  · split
    · simp
    · simp

theorem split_cons (c : Char) (cs : Str) :
    split_at_slash (c :: cs) =
      if c = '/' then ([], cs) else (c :: (split_at_slash cs).1, (split_at_slash cs).2) := rfl

theorem split_trailing (p : Str) (hl : p.getLast? ≠ some '/') :
    (split_at_slash (p ++ ['/'])).1 = (split_at_slash p).1 ∧
    (((split_at_slash p).2 = [] ∧ (split_at_slash (p ++ ['/'])).2 = []) ∨
     ((split_at_slash p).2 ≠ [] ∧
      (split_at_slash (p ++ ['/'])).2 = (split_at_slash p).2 ++ ['/'] ∧
      (split_at_slash p).2.getLast? ≠ some '/')) := by
  induction p with
  | nil => simp [split_at_slash]
  | cons c cs ih =>
    by_cases hc : c = '/'
    · subst hc
      simp only [split_at_slash, List.cons_append, ↓reduceIte, true_and]
      right
      cases cs with
      | nil => simp at hl
      | cons d ds =>
        refine ⟨by simp, rfl, ?_⟩
        simpa [List.getLast?_cons_cons] using hl
    · have hl2 : cs.getLast? ≠ some '/' := by
        cases cs with
        | nil => simp
        | cons d ds => simpa [List.getLast?_cons_cons] using hl
      obtain ⟨h1, h2⟩ := ih hl2
      rw [List.cons_append, split_cons, split_cons, if_neg hc, if_neg hc]
      exact ⟨by rw [h1], h2⟩

theorem get_trailing_aux (E : Node) : ∀ (k : Nat) (n : Node) (p : Str), p.length < k →
    (p ++ ['/']).length < 2 ^ 63 → p.getLast? ≠ some '/' →
    get E n (p ++ ['/']) = get E n p := by
  intro k
  induction k with
  | zero => intro n p hk; omega
  | succ k ih =>
    intro n p hk hp hl
    have hp1 : p.length < 2 ^ 63 := by simp at hp; omega
    rw [get_step E n _ hp, get_step E n p hp1]
    obtain ⟨h1, h2⟩ := split_trailing p hl
    rw [h1]
    rcases h2 with ⟨ha, hb⟩ | ⟨ha, hb, hc⟩
    · rw [ha, hb]
    · rw [hb]
      have hlt := split_snd_lt p ha
      have e1 : ((split_at_slash p).2 ++ ['/']).isEmpty = false := by simp
      have e2 : (split_at_slash p).2.isEmpty = false := by simpa using ha
      simp only [e1, e2]
      split
      · rfl
      · split
        · rfl
        · exact ih _ _ (by omega) (by simp; omega) hc

theorem has_path_trailing_aux : ∀ (k : Nat) (n : Node) (p : Str), p.length < k →
    (p ++ ['/']).length < 2 ^ 63 → p.getLast? ≠ some '/' →
    has_path n (p ++ ['/']) = has_path n p := by
  intro k
  induction k with
  | zero => intro n p hk; omega
  | succ k ih =>
    intro n p hk hp hl
    have hp1 : p.length < 2 ^ 63 := by simp at hp; omega
    rw [has_path_step n _ hp, has_path_step n p hp1]
    obtain ⟨h1, h2⟩ := split_trailing p hl
    rw [h1]
    rcases h2 with ⟨ha, hb⟩ | ⟨ha, hb, hc⟩
    · rw [ha, hb]
    · rw [hb]
      have hlt := split_snd_lt p ha
      have e1 : ((split_at_slash p).2 ++ ['/']).isEmpty = false := by simp
      have e2 : (split_at_slash p).2.isEmpty = false := by simpa using ha
      simp only [e1, e2]
      split
      · rfl
      · split
        · rfl
        · exact ih _ _ (by omega) (by simp; omega) hc

theorem fetch_trailing_aux : ∀ (k : Nat) (h : Heap) (n : Node) (p : Str), p.length < k →
    (p ++ ['/']).length < 2 ^ 63 → p.getLast? ≠ some '/' →
    fetch h n (p ++ ['/']) = fetch h n p := by
  intro k
  induction k with
  | zero => intro h n p hk; omega
  | succ k ih =>
    intro h n p hk hp hl
    have hp1 : p.length < 2 ^ 63 := by simp at hp; omega
    rw [fetch_step h n _ hp, fetch_step h n p hp1]
    obtain ⟨h1, h2⟩ := split_trailing p hl
    simp only [h1]
    rcases h2 with ⟨ha, hb⟩ | ⟨ha, hb, hc⟩
    · rw [ha, hb]
    · rw [hb]
      have hlt := split_snd_lt p ha
      have e1 : ((split_at_slash p).2 ++ ['/']).isEmpty = false := by simp
      have e2 : (split_at_slash p).2.isEmpty = false := by simpa using ha
      simp only [e1, e2]
      rw [ih _ _ _ (by omega) (by simp; omega) hc]

/-- Composition of lookups: a path `p/r` is looked up as `r` in the result of
looking up `p`. -/
theorem get_append_aux (E : Node) (hE : E.is_empty = true) (r : Str) (hr : r ≠ []) :
    ∀ (k : Nat) (n : Node) (p : Str), p.length < k →
    (p ++ '/' :: r).length < 2 ^ 63 → p.getLast? ≠ some '/' →
    get E n (p ++ '/' :: r) = get E (get E n p) r := by
  intro k
  induction k with
  | zero => intro n p hk; omega
  | succ k ih =>
    intro n p hk hp hl
    by_cases hs : '/' ∈ p
    · have hp1 : p.length < 2 ^ 63 := by simp at hp; omega
      have hsp : split_at_slash (p ++ '/' :: r)
          = ((split_at_slash p).1, (split_at_slash p).2 ++ '/' :: r) ∧
          (split_at_slash p).2 ≠ [] ∧ (split_at_slash p).2.getLast? ≠ some '/' := by
        clear ih hk hp hp1
        induction p with
        | nil => simp at hs
        | cons c cs ih2 =>
          by_cases hc : c = '/'
          · subst hc
            cases cs with
            | nil => simp at hl
            | cons d ds =>
              refine ⟨by simp [split_at_slash], by simp [split_at_slash], ?_⟩
              simpa [split_at_slash, List.getLast?_cons_cons] using hl
          · have hs2 : '/' ∈ cs := by
              simp only [List.mem_cons] at hs
              rcases hs with h | h
              · exact absurd h.symm hc
              · exact h
            have hl2 : cs.getLast? ≠ some '/' := by
              cases cs with
              | nil => simp
              | cons d ds => simpa [List.getLast?_cons_cons] using hl
            obtain ⟨h1, h2, h3⟩ := ih2 hl2 hs2
            rw [List.cons_append, split_cons, split_cons, if_neg hc, if_neg hc, h1]
            exact ⟨rfl, h2, h3⟩
      obtain ⟨h1, h2, h3⟩ := hsp
      have hlt := split_snd_lt p h2
      rw [get_step E n _ hp, get_step E n p hp1, h1]
      have e1 : ((split_at_slash p).2 ++ '/' :: r).isEmpty = false := by simp
      have e2 : (split_at_slash p).2.isEmpty = false := by simpa using h2
      simp only [e1, e2]
      split
      · exact (get_sentinel E hE r).symm
      · split
        · exact (get_sentinel E hE r).symm
        · exact ih _ _ (by omega) (by simp at hp ⊢; omega) h3
    · exact get_first E n hE p r hs hr hp

theorem fetch_promote_entries (h : Heap) (n : Node) :
    (fetch_promote h n).2.entries = n.entries := by
  cases n with
  | mk d a t l e ls =>
    unfold fetch_promote
    split
    · simp [init, DataType.compatible_storage, DataType.is_leaf, DataType.node_dtype,
        DataType.of_id, cleanup, entries]
    · rfl

theorem init_alloc (h : Heap) (n : Node) (dtype : DataType)
    (hc : (!(n.m_dtype.compatible_storage dtype) || decide (n.m_data = NULL)) = true)
    (hd : dtype.m_id = TypeId.UINT32_T ∨ dtype.m_id = TypeId.FLOAT64_T) :
    (init h n dtype).2.m_dtype = dtype ∧
    (init h n dtype).2.m_data = (cleanup h n).1.brk + 1 ∧
    (init h n dtype).2.m_alloced = true ∧
    (init h n dtype).1 = ((cleanup h n).1.alloc (dtype.m_num_ele * dtype.m_ele_bytes)).1 := by
  cases n with
  | mk d a t l e ls =>
    unfold init
    rw [if_pos hc]
    simp only [cleanup, if_pos hd, m_dtype, m_data, m_alloced, Heap.alloc, and_self]

/-- C1: for every node `n` (in any state, on any heap `h`) and every path
string `p`, after `n.fetch(p)` the call `has_path(p)` on the resulting node
returns true. -/
theorem C1_fetch_then_has_path (h : Heap) (n : Node) (p : Str) (hp : p.length < 2 ^ 63) :
    (fetch h n p).2.1.has_path p = true :=
  fetch_has_path_aux (p.length + 1) h n p (Nat.lt_succ_self _) hp

theorem C1_fetch_then_has_path_witness :
    "a/b/c".toList.length < 2 ^ 63 ∧
    (fetch Heap.init default "a/b/c".toList).2.1.has_path "a/b/c".toList = true :=
  ⟨by decide, C1_fetch_then_has_path Heap.init default "a/b/c".toList (by decide)⟩

/-- C3 (the part that holds): missing-path safety. For every node `n`, every
state `E` of the sentinel and every path `p` with `has_path(p)` false,
`get(p)` returns the sentinel; and as long as the sentinel is empty, every
further chain of `get(path)` / `get(index)` calls on that result returns the
sentinel again, which is empty. `get` is a function of the tree alone: it
yields no new tree and no new heap. -/
theorem C3_missing_path_safety (E n : Node) (p : Str) (steps : List Step)
    (hp : p.length < 2 ^ 63) (hh : n.has_path p = false) :
    get E n p = E ∧
    (E.is_empty = true →
      get_chain E (get E n p) steps = some E ∧
      (get_chain E (get E n p) steps).map is_empty = some true) := by
  have h1 := get_of_not_has_path_aux E (p.length + 1) n p (Nat.lt_succ_self _) hp hh
  refine ⟨h1, ?_⟩
  intro hE
  have h2 := get_chain_sentinel E hE steps
  rw [h1, h2]
  exact ⟨rfl, by simp [hE]⟩

theorem C3_missing_path_safety_witness :
    get Empty tree_a7.2 "no/such/path".toList = Empty ∧
    (Empty.is_empty = true →
      get_chain Empty (get Empty tree_a7.2 "no/such/path".toList)
        [Step.path "x".toList, Step.index 3, Step.path "y".toList] = some Empty ∧
      (get_chain Empty (get Empty tree_a7.2 "no/such/path".toList)
        [Step.path "x".toList, Step.index 3, Step.path "y".toList]).map is_empty
        = some true) :=
  C3_missing_path_safety Empty tree_a7.2 "no/such/path".toList
    [Step.path "x".toList, Step.index 3, Step.path "y".toList] (by decide) (by decide)

/-- C3 (evaluation of the code): the sentinel can be written. After
`Node N; N.get("x").set(uint32(5));`, which stores 5 in `Node::Empty`,
`has_path("x")` is still false, and `get("x")` and `get("x").get("y")` return
a node that is not empty: a `UINT32` leaf. -/
theorem C3_written_sentinel_counterexample :
    default.has_path "x".toList = false ∧
    (get sentinel_set5.2 default "x".toList).is_empty = false ∧
    (get sentinel_set5.2 default "x".toList).m_dtype.m_id = TypeId.UINT32_T ∧
    (get_chain sentinel_set5.2 (get sentinel_set5.2 default "x".toList)
      [Step.path "y".toList]).map is_empty = some false := by
  decide

/-- C4 (evaluation of the code): the sentinel `Node::Empty` is not protected.
After `set(uint32)`, `set(float64)`, `set(std::vector<uint32>)`,
`set(DataType)` or `fetch(path)` on it, `is_empty()` is false; only
`operator[]` would consult the lock flag. -/
theorem C4_sentinel_is_mutated :
    (set_uint32 5 Heap.init Empty).2.is_empty = false ∧
    (set_uint32 5 Heap.init Empty).2.m_data ≠ NULL ∧
    (set_float64 0 Heap.init Empty).2.is_empty = false ∧
    (set_uint32_vector [1, 2] Heap.init Empty).2.is_empty = false ∧
    (set_dtype Empty DataType.uint32_dtype).is_empty = false ∧
    (fetch Heap.init Empty "a".toList).2.1.is_empty = false ∧
    (fetch Heap.init Empty "a".toList).2.1.entries.length = 1 := by
  decide

theorem get_first_of (E n : Node) (a q : Str) (ha : '/' ∉ a) (hq : q ≠ [])
    (hp : (a ++ '/' :: q).length < 2 ^ 63)
    (hc : E.is_empty = true ∨ n.has_path a = true) :
    get E n (a ++ '/' :: q) = get E (get E n a) q := by
  rcases hc with hE | hh
  · exact get_first E n hE a q ha hq hp
  · have hpa : a.length < 2 ^ 63 := by simp at hp; omega
    rw [has_path_step n a hpa, split_no_slash a ha] at hh
    rw [get_step E n _ hp, get_step E n a hpa, split_append_slash a q ha, split_no_slash a ha]
    have hq2 : q.isEmpty = false := by cases q <;> simp_all
    by_cases hn : n.m_dtype.m_id = TypeId.NODE_T
    · simp only [hn, ne_eq, not_true_eq_false, ↓reduceIte] at hh ⊢
      cases hf : map_find n.entries a with
      | none => rw [hf] at hh; simp at hh
      | some c => simp [hq2]
    · simp [hn] at hh

theorem split_append_mid (p r : Str) (hs : '/' ∈ p) (hl : p.getLast? ≠ some '/') :
    split_at_slash (p ++ '/' :: r)
      = ((split_at_slash p).1, (split_at_slash p).2 ++ '/' :: r) ∧
    (split_at_slash p).2 ≠ [] ∧ (split_at_slash p).2.getLast? ≠ some '/' := by
  induction p with
  | nil => simp at hs
  | cons c cs ih2 =>
    by_cases hc : c = '/'
    · subst hc
      cases cs with
      | nil => simp at hl
      | cons d ds =>
        refine ⟨by simp [split_at_slash], by simp [split_at_slash], ?_⟩
        simpa [split_at_slash, List.getLast?_cons_cons] using hl
    · have hs2 : '/' ∈ cs := by
        simp only [List.mem_cons] at hs
        rcases hs with h | h
        · exact absurd h.symm hc
        · exact h
      have hl2 : cs.getLast? ≠ some '/' := by
        cases cs with
        | nil => simp
        | cons d ds => simpa [List.getLast?_cons_cons] using hl
      obtain ⟨h1, h2, h3⟩ := ih2 hs2 hl2
      rw [List.cons_append, split_cons, split_cons, if_neg hc, if_neg hc, h1]
      exact ⟨rfl, h2, h3⟩

theorem get_append_has_aux (E : Node) (r : Str) (hr : r ≠ []) :
    ∀ (k : Nat) (n : Node) (p : Str), p.length < k →
    (p ++ '/' :: r).length < 2 ^ 63 → p.getLast? ≠ some '/' → n.has_path p = true →
    get E n (p ++ '/' :: r) = get E (get E n p) r := by
  intro k
  induction k with
  | zero => intro n p hk; omega
  | succ k ih =>
    intro n p hk hp hl hh
    by_cases hs : '/' ∈ p
    · have hp1 : p.length < 2 ^ 63 := by simp at hp; omega
      obtain ⟨h1, h2, h3⟩ := split_append_mid p r hs hl
      have hlt := split_snd_lt p h2
      rw [has_path_step n p hp1] at hh
      rw [get_step E n _ hp, get_step E n p hp1, h1]
      have e1 : ((split_at_slash p).2 ++ '/' :: r).isEmpty = false := by simp
      have e2 : (split_at_slash p).2.isEmpty = false := by simpa using h2
      simp only [e1, e2]
      by_cases hn : n.m_dtype.m_id = TypeId.NODE_T
      · simp only [hn, ne_eq, not_true_eq_false, ↓reduceIte] at hh ⊢
        cases hf : map_find n.entries (split_at_slash p).1 with
        | none => rw [hf] at hh; simp at hh
        | some c =>
          rw [hf] at hh
          simp only [e2, Bool.not_false, ↓reduceIte] at hh
          simp only [Bool.false_eq_true, ↓reduceIte]
          exact ih c _ (by omega) (by simp at hp ⊢; omega) h3 hh
      · simp [hn] at hh
    · exact get_first_of E n p r hs hr hp (Or.inr hh)

theorem get_append_of (E n : Node) (p r : Str) (hr : r ≠ [])
    (hp : (p ++ '/' :: r).length < 2 ^ 63) (hl : p.getLast? ≠ some '/')
    (hc : E.is_empty = true ∨ n.has_path p = true) :
    get E n (p ++ '/' :: r) = get E (get E n p) r := by
  rcases hc with hE | hh
  · exact get_append_aux E hE r hr (p.length + 1) n p (Nat.lt_succ_self _) hp hl
  · exact get_append_has_aux E r hr (p.length + 1) n p (Nat.lt_succ_self _) hp hl hh

/-- C8 (the part that holds): a path selects object children in order. For
every node `n`, every state `E` of the sentinel, every name `a` without a
slash and every non-empty path `q`: `has_path(a + "/" + q)` equals
`has_path(a) && get(a).has_path(q)`; and `get(a + "/" + q)` is
`get(a).get(q)` whenever the child `a` exists or the sentinel is empty. -/
theorem C8_path_selects_children (E n : Node) (a q : Str)
    (ha : '/' ∉ a) (hq : q ≠ []) (hp : (a ++ '/' :: q).length < 2 ^ 63) :
    ((E.is_empty = true ∨ n.has_path a = true) →
      get E n (a ++ '/' :: q) = get E (get E n a) q) ∧
    n.has_path (a ++ '/' :: q) = (n.has_path a && (get E n a).has_path q) :=
  ⟨get_first_of E n a q ha hq hp, has_path_first E n a q ha hq hp⟩

theorem C8_path_selects_children_witness :
    ((Empty.is_empty = true ∨
        (fetch Heap.init default "a/b/c".toList).2.1.has_path "a".toList = true) →
      get Empty (fetch Heap.init default "a/b/c".toList).2.1
          ("a".toList ++ '/' :: "b/c".toList)
        = get Empty (get Empty (fetch Heap.init default "a/b/c".toList).2.1 "a".toList)
            "b/c".toList) ∧
    (fetch Heap.init default "a/b/c".toList).2.1.has_path ("a".toList ++ '/' :: "b/c".toList)
      = ((fetch Heap.init default "a/b/c".toList).2.1.has_path "a".toList &&
          (get Empty (fetch Heap.init default "a/b/c".toList).2.1 "a".toList).has_path
            "b/c".toList) :=
  C8_path_selects_children Empty (fetch Heap.init default "a/b/c".toList).2.1 "a".toList
    "b/c".toList (by decide) (by decide) (by decide)

/-- C8 (evaluation of the code): after `Node N; N.get("missing").fetch("x");`,
which gives `Node::Empty` a child `x`, the child `a` of `N` does not exist and
`N.get("a/x")` is the sentinel, now an OBJECT, while `N.get("a").get("x")` is
the child `x` of the sentinel, an empty node: the two calls return different
nodes. -/
theorem C8_fetched_sentinel_counterexample :
    default.has_path "a".toList = false ∧
    sentinel_fetched.is_empty = false ∧
    (get sentinel_fetched default ("a".toList ++ '/' :: "x".toList)).is_empty = false ∧
    (get sentinel_fetched (get sentinel_fetched default "a".toList) "x".toList).is_empty
      = true := by
  decide

/-- C9: a trailing slash is permitted. For every node `n` and every path `p`
that does not itself end in a slash, `get(p + "/")` is `get(p)`,
`has_path(p + "/")` equals `has_path(p)`, and `fetch(p + "/")` leaves the heap
and the node in the same state, with the same reference, as `fetch(p)`. -/
theorem C9_trailing_slash (E : Node) (h : Heap) (n : Node) (p : Str)
    (hp : (p ++ ['/']).length < 2 ^ 63) (hl : p.getLast? ≠ some '/') :
    get E n (p ++ ['/']) = get E n p ∧
    n.has_path (p ++ ['/']) = n.has_path p ∧
    fetch h n (p ++ ['/']) = fetch h n p :=
  ⟨get_trailing_aux E (p.length + 1) n p (Nat.lt_succ_self _) hp hl,
   has_path_trailing_aux (p.length + 1) n p (Nat.lt_succ_self _) hp hl,
   fetch_trailing_aux (p.length + 1) h n p (Nat.lt_succ_self _) hp hl⟩

theorem C9_trailing_slash_witness :
    get Empty tree_a7.2 ("a".toList ++ ['/']) = get Empty tree_a7.2 "a".toList ∧
    tree_a7.2.has_path ("a".toList ++ ['/']) = tree_a7.2.has_path "a".toList ∧
    fetch tree_a7.1 tree_a7.2 ("a".toList ++ ['/']) = fetch tree_a7.1 tree_a7.2 "a".toList :=
  C9_trailing_slash Empty tree_a7.1 tree_a7.2 "a".toList (by decide) (by decide)

/-- C10 (as stated, refuted): on the tree built by `N.fetch("a").set(7u)`,
`get("/a")` is the empty sentinel while `get("a")` is the leaf, and
`fetch("/a")` on an empty node creates a child with the empty name. -/
theorem C10_leading_slash_counterexample :
    get Empty tree_a7.2 "/a".toList ≠ get Empty tree_a7.2 "a".toList ∧
    (fetch Heap.init default "/a".toList).2.1.has_path [] = true ∧
    (fetch Heap.init default "/a".toList).2.1.has_path "a".toList = false ∧
    (fetch Heap.init default "a".toList).2.1.has_path "a".toList = true := by
  refine ⟨?_, by decide, by decide, by decide⟩
  intro h
  have h2 := congrArg is_empty h
  revert h2
  decide

/-- C10 (amended): an empty path component is a name like any other. For
every node `n` and every state `E` of the sentinel: `get("/" + p)` is
`get("").get(p)` for non-empty `p`, whenever the child named `""` exists or
the sentinel is empty; `get(p + "//" + q)` is `get(p).get("").get(q)` for `p`
not ending in a slash and non-empty `q`, whenever `p` and the child named `""`
under it exist or the sentinel is empty; and after `fetch("/" + p)` the node
has a child with the empty name. -/
theorem C10_empty_component_is_a_name (E : Node) (h : Heap) (n : Node) (p q : Str)
    (hp : (p ++ '/' :: '/' :: q).length < 2 ^ 63) :
    (p ≠ [] → (E.is_empty = true ∨ n.has_path [] = true) →
      get E n ('/' :: p) = get E (get E n []) p) ∧
    (p.getLast? ≠ some '/' → q ≠ [] →
      (E.is_empty = true ∨ (n.has_path p = true ∧ (get E n p).has_path [] = true)) →
      get E n (p ++ '/' :: '/' :: q) = get E (get E (get E n p) []) q) ∧
    (fetch h n ('/' :: p)).2.1.has_path [] = true := by
  have hlen : p.length + (q.length + 2) < 2 ^ 63 := by
    simpa [Nat.add_assoc] using hp
  refine ⟨?_, ?_, ?_⟩
  · intro hne hc
    exact get_first_of E n [] p (by simp) hne (by simp; omega) hc
  · intro hl hq hc
    have c1 : E.is_empty = true ∨ n.has_path p = true := by
      rcases hc with hE | hh
      · exact Or.inl hE
      · exact Or.inr hh.1
    have c2 : E.is_empty = true ∨ (get E n p).has_path [] = true := by
      rcases hc with hE | hh
      · exact Or.inl hE
      · exact Or.inr hh.2
    rw [get_append_of E n p ('/' :: q) (by simp) hp hl c1]
    exact get_first_of E (get E n p) [] q (by simp) hq (by simp; omega) c2
  · have hp1 : ('/' :: p).length < 2 ^ 63 := by simp; omega
    rw [fetch_step h n _ hp1]
    have hs : split_at_slash ('/' :: p) = ([], p) := by simp [split_at_slash]
    simp only [hs]
    split <;>
      (rw [has_path_step _ _ (by decide)]
       simp [fetch_promote_id, map_find_insert_self, split_at_slash])

theorem C10_empty_component_is_a_name_witness :
    ("a".toList ≠ [] → (Empty.is_empty = true ∨ tree_a7.2.has_path [] = true) →
      get Empty tree_a7.2 ('/' :: "a".toList) = get Empty (get Empty tree_a7.2 []) "a".toList) ∧
    ("a".toList.getLast? ≠ some '/' → "b".toList ≠ [] →
      (Empty.is_empty = true ∨
        (tree_a7.2.has_path "a".toList = true ∧
          (get Empty tree_a7.2 "a".toList).has_path [] = true)) →
      get Empty tree_a7.2 ("a".toList ++ '/' :: '/' :: "b".toList)
        = get Empty (get Empty (get Empty tree_a7.2 "a".toList) []) "b".toList) ∧
    (fetch tree_a7.1 tree_a7.2 ('/' :: "a".toList)).2.1.has_path [] = true :=
  C10_empty_component_is_a_name Empty tree_a7.1 tree_a7.2 "a".toList "b".toList (by decide)

end Node

/-! ## Key order of the entries -/

theorem char_toNat_inj (a b : Char) (h : a.toNat = b.toNat) : a = b := by
  apply Char.ext
  cases a with | mk va pa => cases b with | mk vb pb =>
    simp only [Char.toNat] at h
    cases va with | mk fa => cases vb with | mk fb =>
      simp only [UInt32.toNat] at h
      congr
      exact BitVec.eq_of_toNat_eq h

theorem str_lt_trans : ∀ (a b c : Str), str_lt a b = true → str_lt b c = true →
    str_lt a c = true
  | [], [], _, h1, _ => by simp [str_lt] at h1
  | [], _ :: _, [], _, h2 => by simp [str_lt] at h2
  | [], _ :: _, _ :: _, _, _ => by simp [str_lt]
  | _ :: _, [], _, h1, _ => by simp [str_lt] at h1
  | _ :: _, _ :: _, [], _, h2 => by simp [str_lt] at h2
  | x :: xs, y :: ys, z :: zs, h1, h2 => by
    simp only [str_lt] at h1 h2 ⊢
    by_cases c1 : x.toNat < y.toNat
    · by_cases c2 : y.toNat < z.toNat
      · have : x.toNat < z.toNat := by omega
        simp [this]
      · simp only [c2, ↓reduceIte] at h2
        by_cases c3 : z.toNat < y.toNat
        · simp [c3] at h2
        · have : x.toNat < z.toNat := by omega
          simp [this]
    · simp only [c1, ↓reduceIte] at h1
      by_cases c4 : y.toNat < x.toNat
      · simp [c4] at h1
      · simp only [c4, ↓reduceIte] at h1
        by_cases c2 : y.toNat < z.toNat
        · have : x.toNat < z.toNat := by omega
          simp [this]
        · simp only [c2, ↓reduceIte] at h2
          by_cases c3 : z.toNat < y.toNat
          · simp [c3] at h2
          · simp only [c3, ↓reduceIte] at h2
            have e1 : ¬ x.toNat < z.toNat := by omega
            have e2 : ¬ z.toNat < x.toNat := by omega
            simp only [e1, e2, ↓reduceIte]
            exact str_lt_trans xs ys zs h1 h2

theorem str_lt_total : ∀ (a b : Str), str_lt a b = false → a ≠ b → str_lt b a = true
  | [], [], _, h2 => by simp at h2
  | [], _ :: _, h1, _ => by simp [str_lt] at h1
  | _ :: _, [], _, _ => by simp [str_lt]
  | x :: xs, y :: ys, h1, h2 => by
    simp only [str_lt] at h1 ⊢
    by_cases c1 : x.toNat < y.toNat
    · simp [c1] at h1
    · simp only [c1, ↓reduceIte] at h1
      by_cases c4 : y.toNat < x.toNat
      · simp [c4]
      · simp only [c4, ↓reduceIte] at h1 ⊢
        have hxy : x = y := char_toNat_inj x y (by omega)
        subst hxy
        simp only [Nat.lt_irrefl, ↓reduceIte]
        exact str_lt_total xs ys h1 (fun e => h2 (by rw [e]))

theorem map_insert_keys_mem {α : Type} (m : List (Str × α)) (k : Str) (v : α) (x : Str) :
    x ∈ (map_insert m k v).map Prod.fst ↔ x = k ∨ x ∈ m.map Prod.fst := by
  induction m with
  | nil => simp [map_insert]
  | cons kv r ih =>
    obtain ⟨k1, v1⟩ := kv
    simp only [map_insert]
    split
    · rename_i he
      subst he
      simp only [List.map_cons, List.mem_cons]
      tauto
    · split
      · simp only [List.map_cons, List.mem_cons]
      · simp only [List.map_cons, List.mem_cons, ih]
        tauto

theorem map_insert_sorted {α : Type} (m : List (Str × α)) (k : Str) (v : α)
    (hs : (m.map Prod.fst).Pairwise (fun a b => str_lt a b = true)) :
    ((map_insert m k v).map Prod.fst).Pairwise (fun a b => str_lt a b = true) := by
  induction m with
  | nil => simp [map_insert]
  | cons kv r ih =>
    obtain ⟨k1, v1⟩ := kv
    simp only [List.map_cons, List.pairwise_cons] at hs
    obtain ⟨hs1, hs2⟩ := hs
    simp only [map_insert]
    split
    · rename_i he
      subst he
      simp only [List.map_cons, List.pairwise_cons]
      exact ⟨hs1, hs2⟩
    · rename_i hne
      split
      · rename_i hlt
        simp only [List.map_cons, List.pairwise_cons]
        refine ⟨?_, hs1, hs2⟩
        intro a ha
        simp only [List.mem_cons] at ha
        rcases ha with ha | ha
        · rw [ha]; exact hlt
        · exact str_lt_trans _ _ _ hlt (hs1 a ha)
      · rename_i hnlt
        simp only [List.map_cons, List.pairwise_cons]
        refine ⟨?_, ih hs2⟩
        intro a ha
        rw [map_insert_keys_mem] at ha
        rcases ha with ha | ha
        · rw [ha]
          exact str_lt_total k k1 (by simpa using hnlt) hne
        · exact hs1 a ha

namespace Node

theorem fetch_name_entries (h : Heap) (n : Node) (a : Str) (ha : '/' ∉ a)
    (hp : a.length < 2 ^ 63) :
    (fetch h n a).2.1.entries =
      map_insert n.entries a ((map_find n.entries a).getD default) := by
  rw [fetch_step h n a hp, split_no_slash a ha]
  simp [fetch_promote_entries]

theorem fetch_all_keys : ∀ (names : List Str) (h : Heap) (n : Node),
    (∀ x ∈ names, '/' ∉ x ∧ x.length < 2 ^ 63) →
    n.keys.Pairwise (fun a b => str_lt a b = true) →
    (fetch_all h n names).2.keys.Pairwise (fun a b => str_lt a b = true) ∧
    ∀ x, x ∈ (fetch_all h n names).2.keys ↔ x ∈ names ∨ x ∈ n.keys
  | [], h, n, _, hs => by simp [fetch_all, hs]
  | a :: r, h, n, hn, hs => by
    have ha := hn a (List.mem_cons_self _ _)
    have hr : ∀ x ∈ r, '/' ∉ x ∧ x.length < 2 ^ 63 :=
      fun x hx => hn x (List.mem_cons_of_mem _ hx)
    have hk : (fetch h n a).2.1.keys.Pairwise (fun a b => str_lt a b = true) := by
      unfold keys
      rw [fetch_name_entries h n a ha.1 ha.2]
      exact map_insert_sorted _ _ _ hs
    obtain ⟨i1, i2⟩ := fetch_all_keys r (fetch h n a).1 (fetch h n a).2.1 hr hk
    refine ⟨i1, ?_⟩
    intro x
    rw [fetch_all, i2]
    unfold keys
    rw [fetch_name_entries h n a ha.1 ha.2, map_insert_keys_mem]
    simp only [List.mem_cons]
    tauto

end Node

/-! ## Serialization -/

theorem read_length (h : Heap) (p n : Nat) : (h.read p n).length = n := by
  simp [Heap.read]

theorem read_add (h : Heap) (p a b : Nat) :
    h.read p (a + b) = h.read p a ++ h.read (p + a) b := by
  simp only [Heap.read, List.range_add, List.map_append, List.map_map]
  congr 1
  apply List.map_congr_left
  intro i _
  simp [Nat.add_assoc]

theorem read_chunks (h : Heap) (p e : Nat) : ∀ c : Nat,
    ((List.range c).map (fun i => h.read (p + i * e) e)).flatten = h.read p (c * e)
  | 0 => by simp [Heap.read]
  | c + 1 => by
    rw [List.range_succ, List.map_append, List.flatten_append, read_chunks h p e c,
      Nat.succ_mul, read_add]
    simp

namespace Node

mutual
theorem flat_length (tb : DataType → Nat) (h : Heap) :
    ∀ n : Node, (flat tb h n).length = total_bytes tb n
  | mk d a t l e ls => by
    by_cases h1 : t.m_id = TypeId.NODE_T
    · simp [flat, total_bytes, h1, flat_entries_length tb h e]
    · by_cases h2 : t.m_id = TypeId.LIST_T
      · simp [flat, total_bytes, h2, flat_list_length tb h ls]
      · simp only [flat, h1, h2, ↓reduceIte, read_length]
theorem flat_entries_length (tb : DataType → Nat) (h : Heap) :
    ∀ e : List (Str × Node), (flat_entries tb h e).length = total_bytes_entries tb e
  | [] => rfl
  | (_, c) :: r => by
    simp [flat_entries, total_bytes_entries, flat_length tb h c, flat_entries_length tb h r]
theorem flat_list_length (tb : DataType → Nat) (h : Heap) :
    ∀ e : List Node, (flat_list tb h e).length = total_bytes_list tb e
  | [] => rfl
  | c :: r => by
    simp [flat_list, total_bytes_list, flat_length tb h c, flat_list_length tb h r]
end

theorem splice_step (data x y : List Nat) (off a b : Nat) (hx : x.length = a)
    (hd : off + a + b ≤ data.length) :
    (data.take off ++ x ++ data.drop (off + a)).take (off + a) ++ y ++
      (data.take off ++ x ++ data.drop (off + a)).drop (off + a + b)
      = data.take off ++ (x ++ y) ++ data.drop (off + (a + b)) := by
  have hl : (data.take off ++ x).length = off + a := by
    simp [hx]; omega
  have e1 : (data.take off ++ x ++ data.drop (off + a)).take (off + a) = data.take off ++ x := by
    rw [List.take_append_of_le_length (by omega), List.take_of_length_le (by omega)]
  have e2 : (data.take off ++ x ++ data.drop (off + a)).drop (off + a + b)
      = data.drop (off + (a + b)) := by
    rw [List.drop_append_eq_append_drop, List.drop_of_length_le (by omega), hl]
    simp only [List.nil_append, List.drop_drop]
    congr 1
    omega
  rw [e1, e2]
  simp [List.append_assoc]

theorem splice_length (data x : List Nat) (off a : Nat) (hx : x.length = a)
    (hd : off + a ≤ data.length) :
    (data.take off ++ x ++ data.drop (off + a)).length = data.length := by
  simp [hx]; omega

mutual
theorem serialize_to_eq (tb : DataType → Nat) (h : Heap) :
    ∀ (n : Node) (data : List Nat) (off : Nat), off + total_bytes tb n ≤ data.length →
    serialize_to tb h n data off =
      if sources_ok tb n then
        some (data.take off ++ flat tb h n ++ data.drop (off + total_bytes tb n))
      else none
  | mk d a t l e ls, data, off, hb => by
    by_cases h1 : t.m_id = TypeId.NODE_T
    · have hb2 : off + total_bytes_entries tb e ≤ data.length := by
        simpa [total_bytes, h1] using hb
      simp [serialize_to, sources_ok, flat, total_bytes, h1,
        serialize_entries_eq tb h e data off hb2]
    · by_cases h2 : t.m_id = TypeId.LIST_T
      · have hb2 : off + total_bytes_list tb ls ≤ data.length := by
          simpa [total_bytes, h2] using hb
        simp [serialize_to, sources_ok, flat, total_bytes, h2,
          serialize_list_eq tb h ls data off hb2]
      · simp only [serialize_to, sources_ok, flat, h1, h2, ↓reduceIte]
        generalize total_bytes tb (mk d a t l e ls) = nb at hb ⊢
        by_cases hc : nb ≠ 0 ∧ d = NULL
        · have hn : ¬ (nb = 0 ∨ d ≠ NULL) := by
            intro hx
            rcases hx with hx | hx
            · exact hc.1 hx
            · exact hx hc.2
          rw [if_pos hc]
          simp only [hn, decide_False, Bool.false_eq_true, ↓reduceIte]
        · have hn : nb = 0 ∨ d ≠ NULL := by
            by_cases hz : nb = 0
            · exact Or.inl hz
            · exact Or.inr (fun hd => hc ⟨hz, hd⟩)
          rw [if_neg hc]
          simp only [hn, decide_True, ↓reduceIte, buf_write, read_length]
          rw [if_pos hb]
theorem serialize_entries_eq (tb : DataType → Nat) (h : Heap) :
    ∀ (e : List (Str × Node)) (data : List Nat) (off : Nat),
    off + total_bytes_entries tb e ≤ data.length →
    serialize_entries tb h e data off =
      if sources_ok_entries tb e then
        some (data.take off ++ flat_entries tb h e ++
          data.drop (off + total_bytes_entries tb e))
      else none
  | [], data, off, _ => by
    simp [serialize_entries, sources_ok_entries, flat_entries, total_bytes_entries]
  | (_, c) :: r, data, off, hb => by
    simp only [total_bytes_entries] at hb
    have hc := serialize_to_eq tb h c data off (by omega)
    have hl := splice_length data (flat tb h c) off (total_bytes tb c) (flat_length tb h c)
      (by omega)
    have hr := serialize_entries_eq tb h r
      (data.take off ++ flat tb h c ++ data.drop (off + total_bytes tb c))
      (off + total_bytes tb c) (by rw [hl]; omega)
    simp only [serialize_entries, hc, sources_ok_entries, flat_entries, total_bytes_entries]
    by_cases hs : sources_ok tb c = true
    · simp only [hs, ↓reduceIte, Bool.true_and, hr]
      by_cases hs2 : sources_ok_entries tb r = true
      · simp only [hs2, ↓reduceIte]
        rw [splice_step data _ _ off _ _ (flat_length tb h c) (by omega)]
      · simp only [hs2, Bool.false_eq_true, ↓reduceIte]
    · simp only [hs, Bool.false_eq_true, ↓reduceIte, Bool.false_and]
theorem serialize_list_eq (tb : DataType → Nat) (h : Heap) :
    ∀ (e : List Node) (data : List Nat) (off : Nat),
    off + total_bytes_list tb e ≤ data.length →
    serialize_list tb h e data off =
      if sources_ok_list tb e then
        some (data.take off ++ flat_list tb h e ++ data.drop (off + total_bytes_list tb e))
      else none
  | [], data, off, _ => by
    simp [serialize_list, sources_ok_list, flat_list, total_bytes_list]
  | c :: r, data, off, hb => by
    simp only [total_bytes_list] at hb
    have hc := serialize_to_eq tb h c data off (by omega)
    have hl := splice_length data (flat tb h c) off (total_bytes tb c) (flat_length tb h c)
      (by omega)
    have hr := serialize_list_eq tb h r
      (data.take off ++ flat tb h c ++ data.drop (off + total_bytes tb c))
      (off + total_bytes tb c) (by rw [hl]; omega)
    simp only [serialize_list, hc, sources_ok_list, flat_list, total_bytes_list]
    by_cases hs : sources_ok tb c = true
    · simp only [hs, ↓reduceIte, Bool.true_and, hr]
      by_cases hs2 : sources_ok_list tb r = true
      · simp only [hs2, ↓reduceIte]
        rw [splice_step data _ _ off _ _ (flat_length tb h c) (by omega)]
      · simp only [hs2, Bool.false_eq_true, ↓reduceIte]
    · simp only [hs, Bool.false_eq_true, ↓reduceIte, Bool.false_and]
end

/-- The outcome of `serialize`: it returns exactly when no `memcpy` has to read
through a null pointer, and then with the bytes the tree contributes. -/
theorem serialize_eq (tb : DataType → Nat) (h : Heap) (n : Node) :
    serialize tb h n = if sources_ok tb n then some (flat tb h n) else none := by
  unfold serialize
  rw [serialize_to_eq tb h n _ 0 (by simp)]
  simp

theorem serialize_eq_flat (tb : DataType → Nat) (h : Heap) (n : Node)
    (hs : sources_ok tb n = true) : serialize tb h n = some (flat tb h n) := by
  rw [serialize_eq, if_pos hs]

theorem serialize_eq_none (tb : DataType → Nat) (h : Heap) (n : Node)
    (hs : sources_ok tb n = false) : serialize tb h n = none := by
  rw [serialize_eq, hs]
  rfl

mutual
theorem sources_ok_of_zero (tb : DataType → Nat) :
    ∀ n : Node, total_bytes tb n = 0 → sources_ok tb n = true
  | mk d a t l e ls, hz => by
    by_cases h1 : t.m_id = TypeId.NODE_T
    · simp only [total_bytes, h1, reduceCtorEq, false_or, or_self, or_false, ↓reduceIte] at hz
      simp only [sources_ok, h1, ↓reduceIte]
      exact sources_ok_entries_of_zero tb e hz
    · by_cases h2 : t.m_id = TypeId.LIST_T
      · simp only [total_bytes, h2, reduceCtorEq, false_or, or_self, or_false, ↓reduceIte] at hz
        simp only [sources_ok, h2, reduceCtorEq, ↓reduceIte]
        exact sources_ok_list_of_zero tb ls hz
      · simp only [sources_ok, h1, h2, ↓reduceIte, hz, true_or, decide_True]
theorem sources_ok_entries_of_zero (tb : DataType → Nat) :
    ∀ e : List (Str × Node), total_bytes_entries tb e = 0 → sources_ok_entries tb e = true
  | [], _ => rfl
  | (_, c) :: r, hz => by
    simp only [total_bytes_entries, Nat.add_eq_zero] at hz
    simp only [sources_ok_entries, sources_ok_of_zero tb c hz.1,
      sources_ok_entries_of_zero tb r hz.2, Bool.and_self]
theorem sources_ok_list_of_zero (tb : DataType → Nat) :
    ∀ e : List Node, total_bytes_list tb e = 0 → sources_ok_list tb e = true
  | [], _ => rfl
  | c :: r, hz => by
    simp only [total_bytes_list, Nat.add_eq_zero] at hz
    simp only [sources_ok_list, sources_ok_of_zero tb c hz.1,
      sources_ok_list_of_zero tb r hz.2, Bool.and_self]
end

theorem serialize_isSome (tb : DataType → Nat) (h : Heap) (n : Node) :
    (serialize tb h n).isSome = sources_ok tb n := by
  rw [serialize_eq]
  cases sources_ok tb n <;> rfl

theorem sources_ok_entries_iff (tb : DataType → Nat) :
    ∀ e : List (Str × Node),
    sources_ok_entries tb e = true ↔ ∀ kc ∈ e, sources_ok tb kc.2 = true
  | [] => by simp [sources_ok_entries]
  | (k, c) :: r => by
    simp only [sources_ok_entries, Bool.and_eq_true, sources_ok_entries_iff tb r,
      List.mem_cons, forall_eq_or_imp]

theorem sources_ok_list_iff (tb : DataType → Nat) :
    ∀ e : List Node, sources_ok_list tb e = true ↔ ∀ c ∈ e, sources_ok tb c = true
  | [] => by simp [sources_ok_list]
  | c :: r => by
    simp only [sources_ok_list, Bool.and_eq_true, sources_ok_list_iff tb r,
      List.mem_cons, forall_eq_or_imp]

theorem flat_entries_flatten (tb : DataType → Nat) (h : Heap) :
    ∀ e : List (Str × Node), flat_entries tb h e = (e.map (fun kc => flat tb h kc.2)).flatten
  | [] => rfl
  | (_, c) :: r => by simp [flat_entries, flat_entries_flatten tb h r]

end Node

namespace Node

theorem schema_entries_append (ds : DataType → Str) :
    ∀ (pre post : List (Str × Node)) (first : Bool),
    schema_entries ds (pre ++ post) first =
      schema_entries ds pre first ++ schema_entries ds post (first && pre.isEmpty)
  | [], post, first => by simp [schema_entries]
  | (k, c) :: r, post, first => by
    simp [schema_entries, schema_entries_append ds r post false]

theorem leaf_content_length (h : Heap) (n : Node) :
    (leaf_content h n).length = n.m_dtype.m_num_ele * n.m_dtype.m_ele_bytes := by
  unfold leaf_content
  generalize n.m_dtype.m_num_ele = c
  induction c with
  | zero => simp
  | succ c ih =>
    rw [List.range_succ, List.map_append, List.flatten_append, List.length_append, ih]
    simp [element, read_length, Nat.succ_mul]

mutual
theorem content_spec_length (h : Heap) :
    ∀ n : Node, (content_bytes_spec h n).length = total_bytes_compact_spec n
  | mk d a t l e ls => by
    by_cases h1 : t.m_id = TypeId.NODE_T
    · simp [content_bytes_spec, total_bytes_compact_spec, h1, content_spec_entries_length h e]
    · by_cases h2 : t.m_id = TypeId.LIST_T
      · simp [content_bytes_spec, total_bytes_compact_spec, h2, content_spec_list_length h ls]
      · by_cases h3 : t.m_id = TypeId.EMPTY_T
        · simp [content_bytes_spec, total_bytes_compact_spec, h3]
        · simp only [content_bytes_spec, total_bytes_compact_spec, h1, h2, h3, ↓reduceIte,
            leaf_content_length, m_dtype]
theorem content_spec_entries_length (h : Heap) :
    ∀ e : List (Str × Node),
    (content_bytes_spec_entries h e).length = total_bytes_compact_spec_entries e
  | [] => rfl
  | (_, c) :: r => by
    simp [content_bytes_spec_entries, total_bytes_compact_spec_entries,
      content_spec_length h c, content_spec_entries_length h r]
theorem content_spec_list_length (h : Heap) :
    ∀ e : List Node, (content_bytes_spec_list h e).length = total_bytes_compact_spec_list e
  | [] => rfl
  | c :: r => by
    simp [content_bytes_spec_list, total_bytes_compact_spec_list,
      content_spec_length h c, content_spec_list_length h r]
end

mutual
theorem flat_eq_spec (tb : DataType → Nat) (h : Heap)
    (htb : ∀ d : DataType, d.m_stride = d.m_ele_bytes → d.m_offset = 0 →
      tb d = d.m_num_ele * d.m_ele_bytes) :
    ∀ n : Node, leaves_compact n = true → flat tb h n = content_bytes_spec h n
  | mk d a t l e ls, hc => by
    by_cases h1 : t.m_id = TypeId.NODE_T
    · simp only [leaves_compact, h1, ↓reduceIte] at hc
      simp [flat, content_bytes_spec, h1, flat_entries_eq_spec tb h htb e hc]
    · by_cases h2 : t.m_id = TypeId.LIST_T
      · simp only [leaves_compact, h2, ↓reduceIte] at hc
        simp [flat, content_bytes_spec, h2, flat_list_eq_spec tb h htb ls hc]
      · by_cases h3 : t.m_id = TypeId.EMPTY_T
        · simp [flat, content_bytes_spec, total_bytes, h3, Heap.read]
        · simp only [leaves_compact, h1, h2, h3, ↓reduceIte, decide_eq_true_eq] at hc
          obtain ⟨hid, hst, hoff⟩ := hc
          simp only [flat, content_bytes_spec, total_bytes, h1, h2, h3, hid, ↓reduceIte,
            htb t hst hoff, leaf_content, m_dtype]
          rw [← read_chunks h d t.m_ele_bytes t.m_num_ele]
          congr 1
          apply List.map_congr_left
          intro i _
          simp [element, DataType.element_index, hst, hoff, m_data, m_dtype]
theorem flat_entries_eq_spec (tb : DataType → Nat) (h : Heap)
    (htb : ∀ d : DataType, d.m_stride = d.m_ele_bytes → d.m_offset = 0 →
      tb d = d.m_num_ele * d.m_ele_bytes) :
    ∀ e : List (Str × Node), leaves_compact_entries e = true →
    flat_entries tb h e = content_bytes_spec_entries h e
  | [], _ => rfl
  | (_, c) :: r, hc => by
    simp only [leaves_compact_entries, Bool.and_eq_true] at hc
    simp [flat_entries, content_bytes_spec_entries, flat_eq_spec tb h htb c hc.1,
      flat_entries_eq_spec tb h htb r hc.2]
theorem flat_list_eq_spec (tb : DataType → Nat) (h : Heap)
    (htb : ∀ d : DataType, d.m_stride = d.m_ele_bytes → d.m_offset = 0 →
      tb d = d.m_num_ele * d.m_ele_bytes) :
    ∀ e : List Node, leaves_compact_list e = true →
    flat_list tb h e = content_bytes_spec_list h e
  | [], _ => rfl
  | c :: r, hc => by
    simp only [leaves_compact_list, Bool.and_eq_true] at hc
    simp [flat_list, content_bytes_spec_list, flat_eq_spec tb h htb c hc.1,
      flat_list_eq_spec tb h htb r hc.2]
end

end Node

/-! ## Claims C5 to C7 -/

namespace Node

theorem fetch_tag (h : Heap) (n : Node) (p : Str) (hp : p.length < 2 ^ 63) :
    (fetch h n p).2.1.m_dtype.m_id = TypeId.NODE_T := by
  rw [fetch_step h n p hp]
  simp only
  split <;> simp [fetch_promote_id]

theorem map_insert_mem {α : Type} (m : List (Str × α)) (k : Str) (v : α) (x : Str × α)
    (hx : x ∈ map_insert m k v) : x = (k, v) ∨ x ∈ m := by
  induction m with
  | nil =>
    simp only [map_insert, List.mem_singleton] at hx
    exact Or.inl hx
  | cons kv r ih =>
    obtain ⟨k1, v1⟩ := kv
    simp only [map_insert] at hx
    split at hx
    · rcases List.mem_cons.1 hx with hx | hx
      · exact Or.inl hx
      · exact Or.inr (List.mem_cons_of_mem _ hx)
    · split at hx
      · rcases List.mem_cons.1 hx with hx | hx
        · exact Or.inl hx
        · exact Or.inr hx
      · rcases List.mem_cons.1 hx with hx | hx
        · exact Or.inr (hx ▸ List.mem_cons_self _ _)
        · rcases ih hx with h1 | h1
          · exact Or.inl h1
          · exact Or.inr (List.mem_cons_of_mem _ h1)

theorem map_find_some_mem {α : Type} (m : List (Str × α)) (k : Str) (v : α)
    (hf : map_find m k = some v) : ∃ k1, (k1, v) ∈ m := by
  induction m with
  | nil => simp [map_find] at hf
  | cons kv r ih =>
    obtain ⟨k1, v1⟩ := kv
    simp only [map_find] at hf
    split at hf
    · simp only [Option.some.injEq] at hf
      subst hf
      exact ⟨k1, List.mem_cons_self _ _⟩
    · obtain ⟨k2, h2⟩ := ih hf
      exact ⟨k2, List.mem_cons_of_mem _ h2⟩

/-- The children created by `fetch(name_1); ...; fetch(name_k)` on a node whose
children are EMPTY default nodes are EMPTY default nodes. -/
theorem fetch_all_children : ∀ (names : List Str) (h : Heap) (n : Node),
    (∀ x ∈ names, '/' ∉ x ∧ x.length < 2 ^ 63) →
    (∀ kc ∈ n.entries, kc.2 = default) →
    ∀ kc ∈ (fetch_all h n names).2.entries, kc.2 = default
  | [], _, _, _, hc => hc
  | a :: r, h, n, hn, hc => by
    have ha := hn a (List.mem_cons_self _ _)
    have hr : ∀ x ∈ r, '/' ∉ x ∧ x.length < 2 ^ 63 :=
      fun x hx => hn x (List.mem_cons_of_mem _ hx)
    rw [fetch_all]
    apply fetch_all_children r _ _ hr
    intro kc hkc
    rw [fetch_name_entries h n a ha.1 ha.2] at hkc
    rcases map_insert_mem _ _ _ _ hkc with h1 | h1
    · rw [h1]
      cases hf : map_find n.entries a with
      | none => rfl
      | some v =>
        obtain ⟨k1, h2⟩ := map_find_some_mem _ _ _ hf
        exact hc (k1, v) h2
    · exact hc _ h1

theorem fetch_all_tag : ∀ (names : List Str) (h : Heap) (n : Node),
    (∀ x ∈ names, x.length < 2 ^ 63) → (names ≠ [] ∨ n.m_dtype.m_id = TypeId.NODE_T) →
    (fetch_all h n names).2.m_dtype.m_id = TypeId.NODE_T
  | [], h, n, _, ht => by
    rcases ht with ht | ht
    · exact absurd rfl ht
    · exact ht
  | a :: r, h, n, hn, _ => by
    rw [fetch_all]
    exact fetch_all_tag r _ _ (fun x hx => hn x (List.mem_cons_of_mem _ hx))
      (Or.inr (fetch_tag h n a (hn a (List.mem_cons_self _ _))))

/-- The output of `serialize` for an OBJECT whose children can all be
serialized: the children's outputs, in the order of the entries. -/
theorem serialize_object_children (tb : DataType → Nat) (h : Heap) (m : Node)
    (hm : m.m_dtype.m_id = TypeId.NODE_T)
    (hs : ∀ kc ∈ m.entries, sources_ok tb kc.2 = true) :
    m.entries.map (fun kc => serialize tb h kc.2)
      = (m.entries.map (fun kc => flat tb h kc.2)).map some ∧
    serialize tb h m = some (m.entries.map (fun kc => flat tb h kc.2)).flatten := by
  cases m with
  | mk d a t l e ls =>
    simp only [m_dtype] at hm
    simp only [entries] at hs ⊢
    constructor
    · simp only [List.map_map]
      apply List.map_congr_left
      intro kc hkc
      exact serialize_eq_flat tb h kc.2 (hs kc hkc)
    · have hse : sources_ok tb (mk d a t l e ls) = true := by
        simp only [sources_ok, hm, ↓reduceIte]
        exact (sources_ok_entries_iff tb e).2 hs
      rw [serialize_eq_flat tb h _ hse]
      simp only [flat, hm, ↓reduceIte, flat_entries_flatten]

/-- C5 (as stated, refuted): after `N.fetch("b").set(1u); N.fetch("a").set(2u);`
the children are visited in the order `a`, `b`, not in insertion order:
`serialize` emits the bytes of `a` before those of `b` (whichever reading of
`DataType::total_bytes()` is taken), and `schema()` lists `a` first. -/
theorem C5_insertion_order_counterexample :
    tree_b1_a2.2.keys = ["a".toList, "b".toList] ∧
    serialize DataType.content_bytes tree_b1_a2.1 tree_b1_a2.2 = some [2, 0, 0, 0, 1, 0, 0, 0] ∧
    serialize DataType.spanned_bytes tree_b1_a2.1 tree_b1_a2.2 = some [2, 0, 0, 0, 1, 0, 0, 0] ∧
    serialize DataType.strided_bytes tree_b1_a2.1 tree_b1_a2.2 = some [2, 0, 0, 0, 1, 0, 0, 0] ∧
    schema (fun _ => "u".toList) tree_b1_a2.2
      = [lbrace] ++ "\"a\" : u\n,\"b\" : u\n".toList ++ [rbrace, '\n'] := by
  decide

/-- C5 (amended): OBJECT children are kept in ascending key order. For every
OBJECT node `m` whose children are those created by `fetch(name_1)`, ...,
`fetch(name_k)` on an empty node (slash-free names), the keys are exactly the
names, in strictly ascending order; when `serialize` returns for each child,
as it does in the tree that the `fetch` calls build, `serialize` of `m`
returns the concatenation of the children's own outputs in that order, and
when it does not return for some child (a `memcpy` through a null data
pointer) it does not return for `m`; `schema()` emits the text of each entry
after the text of the entries before it and before the text of the entries
after it. -/
theorem C5_children_in_key_order (tb : DataType → Nat) (ds : DataType → Str) (h h2 : Heap)
    (names : List Str) (m : Node)
    (hn : ∀ x ∈ names, '/' ∉ x ∧ x.length < 2 ^ 63)
    (hm : m.m_dtype.m_id = TypeId.NODE_T)
    (hk : m.keys = (fetch_all h default names).2.keys) :
    m.keys.Pairwise (fun a b => str_lt a b = true) ∧
    (∀ x, x ∈ m.keys ↔ x ∈ names) ∧
    (∀ outs : List (List Nat),
      m.entries.map (fun kc => serialize tb h2 kc.2) = outs.map some →
      serialize tb h2 m = some outs.flatten) ∧
    ((∃ kc ∈ m.entries, serialize tb h2 kc.2 = none) → serialize tb h2 m = none) ∧
    (∃ outs : List (List Nat),
      (fetch_all h default names).2.entries.map (fun kc => serialize tb h2 kc.2)
        = outs.map some ∧
      serialize tb h2 (fetch_all h default names).2 = some outs.flatten) ∧
    (∀ pre k c post, m.entries = pre ++ (k, c) :: post →
      schema ds m = [lbrace] ++ schema_entries ds pre true ++
        ((if !(true && pre.isEmpty) then [','] else []) ++ ['"'] ++ k ++ ['"', ' ', ':', ' ']
          ++ schema ds c ++ ['\n']) ++
        schema_entries ds post false ++ [rbrace, '\n']) := by
  obtain ⟨k1, k2⟩ := fetch_all_keys names h default hn (by simp [keys, default, entries])
  refine ⟨by rw [hk]; exact k1, ?_, ?_, ?_, ?_, ?_⟩
  · intro x
    rw [hk, k2]
    simp [keys, default, entries]
  · intro outs ho
    have hs : ∀ kc ∈ m.entries, sources_ok tb kc.2 = true := by
      intro kc hkc
      have h1 : (serialize tb h2 kc.2).isSome = true := by
        have h3 : serialize tb h2 kc.2 ∈ outs.map some := by
          rw [← ho]
          exact List.mem_map_of_mem (fun kc => serialize tb h2 kc.2) hkc
        obtain ⟨o, _, h4⟩ := List.mem_map.1 h3
        rw [← h4]
        rfl
      rw [serialize_isSome] at h1
      exact h1
    obtain ⟨s1, s2⟩ := serialize_object_children tb h2 m hm hs
    rw [s1] at ho
    rw [s2, List.map_injective_iff.2 (Option.some_injective _) ho]
  · intro hx
    obtain ⟨kc, hkc, hnone⟩ := hx
    cases m with
    | mk d a t l e ls =>
      simp only [m_dtype] at hm
      simp only [entries] at hkc
      apply serialize_eq_none
      have h1 : sources_ok tb kc.2 = false := by
        have h2 := serialize_isSome tb h2 kc.2
        rw [hnone] at h2
        exact h2.symm
      cases hse : sources_ok tb (mk d a t l e ls) with
      | false => rfl
      | true =>
        simp only [sources_ok, hm, ↓reduceIte] at hse
        have h3 := (sources_ok_entries_iff tb e).1 hse kc hkc
        rw [h1] at h3
        exact absurd h3 (by decide)
  · by_cases hnil : names = []
    · subst hnil
      have ht : total_bytes tb (default : Node) = 0 := by
        simp [total_bytes, default, DataType.of_id]
      have hl := flat_length tb h2 (default : Node)
      rw [ht] at hl
      refine ⟨[], rfl, ?_⟩
      show serialize tb h2 default = some []
      rw [serialize_eq_flat tb h2 _ (sources_ok_of_zero tb _ ht), List.length_eq_zero.1 hl]
    · have hc := fetch_all_children names h default hn (by simp [default, entries])
      have hs : ∀ kc ∈ (fetch_all h default names).2.entries, sources_ok tb kc.2 = true := by
        intro kc hkc
        rw [hc kc hkc]
        exact sources_ok_of_zero tb _ (by simp [total_bytes, default, DataType.of_id])
      obtain ⟨s1, s2⟩ := serialize_object_children tb h2 _
        (fetch_all_tag names h default (fun x hx => (hn x hx).2) (Or.inl hnil)) hs
      exact ⟨_, s1, s2⟩
  · intro pre k c post he
    cases m with
    | mk d a t l e ls =>
      simp only [m_dtype] at hm
      simp only [entries] at he
      simp only [schema, hm, ↓reduceIte, he, schema_entries_append, schema_entries]
      simp [List.append_assoc]

theorem C5_children_in_key_order_witness :
    tree_b1_a2.2.keys.Pairwise (fun a b => str_lt a b = true) ∧
    (∀ x, x ∈ tree_b1_a2.2.keys ↔ x ∈ ["b".toList, "a".toList]) ∧
    (tree_b1_a2.2.entries.map (fun kc => serialize DataType.content_bytes tree_b1_a2.1 kc.2)
        = [[2, 0, 0, 0], [1, 0, 0, 0]].map some ∧
      serialize DataType.content_bytes tree_b1_a2.1 tree_b1_a2.2
        = some [[2, 0, 0, 0], [1, 0, 0, 0]].flatten) ∧
    (∃ outs : List (List Nat),
      (fetch_all Heap.init default ["b".toList, "a".toList]).2.entries.map
          (fun kc => serialize DataType.content_bytes tree_b1_a2.1 kc.2) = outs.map some ∧
      serialize DataType.content_bytes tree_b1_a2.1
          (fetch_all Heap.init default ["b".toList, "a".toList]).2 = some outs.flatten) ∧
    (∀ pre k c post, tree_b1_a2.2.entries = pre ++ (k, c) :: post →
      schema (fun _ => "u".toList) tree_b1_a2.2 =
        [lbrace] ++ schema_entries (fun _ => "u".toList) pre true ++
        ((if !(true && pre.isEmpty) then [','] else []) ++ ['"'] ++ k ++ ['"', ' ', ':', ' ']
          ++ schema (fun _ => "u".toList) c ++ ['\n']) ++
        schema_entries (fun _ => "u".toList) post false ++ [rbrace, '\n']) :=
  have t := C5_children_in_key_order DataType.content_bytes (fun _ => "u".toList) Heap.init
    tree_b1_a2.1 ["b".toList, "a".toList] tree_b1_a2.2 (by decide) (by decide) (by decide)
  ⟨t.1, t.2.1, ⟨by decide, t.2.2.1 [[2, 0, 0, 0], [1, 0, 0, 0]] (by decide)⟩, t.2.2.2.2.1,
    t.2.2.2.2.2⟩

/-- C7 (evaluation of the code): the binary round trip fails on the schema
`{"a": "uint32", "b": "uint32"}` over the buffer holding 1 and 2. `serialize`
copies each leaf from the base pointer, so the output holds 1 twice, and the
node read back from it has `b == 1` where the original has `b == 2`; under
each reading of `DataType::total_bytes()`. -/
theorem C7_round_trip_fails :
    (round_trip DataType.content_bytes heap_12 100 200 schema_ab).map
        (fun r => (element r.1 (get Empty r.2.1 "b".toList) 0,
                   element r.1 (get Empty r.2.2 "b".toList) 0))
      = some ([2, 0, 0, 0], [1, 0, 0, 0]) ∧
    (round_trip DataType.strided_bytes heap_12 100 200 schema_ab).map
        (fun r => (element r.1 (get Empty r.2.1 "b".toList) 0,
                   element r.1 (get Empty r.2.2 "b".toList) 0))
      = some ([2, 0, 0, 0], [1, 0, 0, 0]) ∧
    (round_trip DataType.spanned_bytes heap_12 100 200 schema_ab).map
        (fun r => (element r.1 (get Empty r.2.1 "b".toList) 0,
                   element r.1 (get Empty r.2.2 "b".toList) 0))
      = some ([2, 0, 0, 0], [1, 0, 0, 0]) ∧
    (of_schema DataType.content_bytes heap_12 100 schema_ab).map
        (fun r => serialize DataType.content_bytes r.1 r.2)
      = some (some [1, 0, 0, 0, 1, 0, 0, 0]) := by
  decide!

end Node

/-! ## Claims C11 and C15 to C18 -/

namespace Node

@[simp] theorem m_data_set_entries (n : Node) (e : List (Str × Node)) :
    (n.set_entries e).m_data = n.m_data := by
  cases n; rfl

@[simp] theorem m_alloced_set_entries (n : Node) (e : List (Str × Node)) :
    (n.set_entries e).m_alloced = n.m_alloced := by
  cases n; rfl

theorem fetch_promote_released (h : Heap) (n : Node) (hn : n.m_dtype.m_id ≠ TypeId.NODE_T) :
    (fetch_promote h n).2.m_data = NULL ∧ (fetch_promote h n).2.m_alloced = false ∧
    (fetch_promote h n).2.m_dtype = DataType.node_dtype := by
  cases n with
  | mk d a t l e ls =>
    simp only [m_dtype] at hn
    unfold fetch_promote
    simp [init, DataType.compatible_storage, DataType.is_leaf, DataType.node_dtype,
      DataType.of_id, cleanup, m_dtype, m_data, m_alloced, hn]

theorem fetch_mid_tag (E : Node) (h : Heap) (n : Node) (a q : Str) (ha : '/' ∉ a)
    (hq : q ≠ []) (hp : (a ++ '/' :: q).length < 2 ^ 63) :
    (get E (fetch h n (a ++ '/' :: q)).2.1 a).m_dtype.m_id = TypeId.NODE_T := by
  have hpa : a.length < 2 ^ 63 := by simp at hp; omega
  have hpq : q.length < 2 ^ 63 := by simp at hp; omega
  have hq2 : q.isEmpty = false := by cases q <;> simp_all
  rw [fetch_step h n _ hp, split_append_slash a q ha]
  simp only [hq2]
  rw [get_step E _ a hpa, split_no_slash a ha]
  simp [fetch_promote_id, map_find_insert_self, fetch_tag _ _ q hpq]

/-- C11 (as stated, refuted): on the tree built by `N.fetch("a").set(7u)`,
where `a` is a `UINT32` leaf, `fetch("a/b")` does not fail and does not leave
the tree unchanged: afterwards `a` is an OBJECT with child `b`. A `LIST`
receiver is turned into an OBJECT as well. -/
theorem C11_fetch_through_leaf_counterexample :
    (get Empty tree_a7.2 "a".toList).m_dtype.m_id = TypeId.UINT32_T ∧
    (get Empty (fetch tree_a7.1 tree_a7.2 "a/b".toList).2.1 "a".toList).m_dtype.m_id
      = TypeId.NODE_T ∧
    (fetch tree_a7.1 tree_a7.2 "a/b".toList).2.1.has_path "a/b".toList = true ∧
    empty_list.m_dtype.m_id = TypeId.LIST_T ∧
    (fetch Heap.init empty_list "x".toList).2.1.m_dtype.m_id = TypeId.NODE_T ∧
    (fetch Heap.init empty_list "x".toList).2.1.has_path "x".toList = true := by
  decide

/-- C11 (amended): `fetch(path)` never fails; it forces `NODE_T`. For every
node `n` and path `a/q` (first component `a`, non-empty rest `q`), after
`fetch(a/q)` the receiver and the node met at `a` have tag OBJECT and the path
exists; a receiver that was not an OBJECT, whatever its tag (EMPTY, a leaf or
a LIST), has been re-initialised: its data pointer is null, it owns nothing
and its descriptor is `node_dtype`. -/
theorem C11_fetch_forces_object (E : Node) (h : Heap) (n : Node) (a q : Str)
    (ha : '/' ∉ a) (hq : q ≠ []) (hp : (a ++ '/' :: q).length < 2 ^ 63) :
    (fetch h n (a ++ '/' :: q)).2.1.m_dtype.m_id = TypeId.NODE_T ∧
    (get E (fetch h n (a ++ '/' :: q)).2.1 a).m_dtype.m_id = TypeId.NODE_T ∧
    (fetch h n (a ++ '/' :: q)).2.1.has_path (a ++ '/' :: q) = true ∧
    (n.m_dtype.m_id ≠ TypeId.NODE_T →
      (fetch h n (a ++ '/' :: q)).2.1.m_data = NULL ∧
      (fetch h n (a ++ '/' :: q)).2.1.m_alloced = false ∧
      (fetch h n (a ++ '/' :: q)).2.1.m_dtype = DataType.node_dtype) := by
  refine ⟨fetch_tag h n _ hp, fetch_mid_tag E h n a q ha hq hp,
    fetch_has_path_aux _ h n _ (Nat.lt_succ_self _) hp, ?_⟩
  intro hn
  obtain ⟨r1, r2, r3⟩ := fetch_promote_released h n hn
  rw [fetch_step h n _ hp]
  simp only
  split <;> simp [r1, r2, r3]

theorem C11_fetch_forces_object_witness :
    (fetch tree_a7.1 tree_a7.2 ("a".toList ++ '/' :: "b".toList)).2.1.m_dtype.m_id
      = TypeId.NODE_T ∧
    (get Empty (fetch tree_a7.1 tree_a7.2 ("a".toList ++ '/' :: "b".toList)).2.1
      "a".toList).m_dtype.m_id = TypeId.NODE_T ∧
    (fetch tree_a7.1 tree_a7.2 ("a".toList ++ '/' :: "b".toList)).2.1.has_path
      ("a".toList ++ '/' :: "b".toList) = true ∧
    (tree_a7.2.m_dtype.m_id ≠ TypeId.NODE_T →
      (fetch tree_a7.1 tree_a7.2 ("a".toList ++ '/' :: "b".toList)).2.1.m_data = NULL ∧
      (fetch tree_a7.1 tree_a7.2 ("a".toList ++ '/' :: "b".toList)).2.1.m_alloced = false ∧
      (fetch tree_a7.1 tree_a7.2 ("a".toList ++ '/' :: "b".toList)).2.1.m_dtype
        = DataType.node_dtype) :=
  C11_fetch_forces_object Empty tree_a7.1 tree_a7.2 "a".toList "b".toList (by decide)
    (by decide) (by decide)

/-- C15 (evaluation of the code): `set(const DataType&)` only overwrites the
descriptor. After `N.set(5u); N.set(DataType(UINT32_T, 2, 0, 4, 4))` the node
carries the new descriptor but still points at, and owns, the 4-byte block of
the first `set`, which is still live. -/
theorem C15_set_dtype_keeps_data :
    state_set5_dtype.2.m_dtype = uint32_vec_dtype 2 ∧
    state_set5_dtype.2.m_data ≠ NULL ∧
    state_set5_dtype.2.m_alloced = true ∧
    state_set5_dtype.1.allocs = [(state_set5_dtype.2.m_data, 4)] := by
  decide

/-- C16: external binding. For every node `n`, pointer `p` and descriptor `d`,
after `n.set(p, d)` the storage is borrowed (`is_data_external()` is true,
`m_alloced` is false), the data pointer is `p` and the descriptor is `d`; the
lock flag and the children are untouched. -/
theorem C16_external_binding (n : Node) (p : Ptr) (d : DataType) :
    (set_external p d n).is_data_external = true ∧
    (set_external p d n).m_alloced = false ∧
    (set_external p d n).m_data = p ∧
    (set_external p d n).m_dtype = d ∧
    (set_external p d n).m_locked = n.m_locked ∧
    (set_external p d n).entries = n.entries ∧
    (set_external p d n).list = n.list := by
  cases n
  exact ⟨rfl, rfl, rfl, rfl, rfl, rfl, rfl⟩

/-- C17 (evaluation of the code): the state reached from a default node by
`N.set(5u); N.set(DataType(UINT32_T, 2, 0, 4, 4))` is an owning `UINT32` leaf
of two elements whose descriptor spans 8 bytes over an allocation of 4; the
invariant holds after the first call and is broken by the second. -/
theorem C17_owned_region_violated :
    owned_region_ok (set_uint32 5 Heap.init default).1 (set_uint32 5 Heap.init default).2
      = true ∧
    owned_region_ok state_set5_dtype.1 state_set5_dtype.2 = false ∧
    state_set5_dtype.2.m_alloced = true ∧
    region_bytes state_set5_dtype.2.m_dtype = 8 ∧
    state_set5_dtype.1.allocs = [(state_set5_dtype.2.m_data, 4)] := by
  decide

theorem total_bytes_entries_sum (tb : DataType → Nat) :
    ∀ e : List (Str × Node),
    total_bytes_entries tb e = (e.map (fun kc => total_bytes tb kc.2)).sum
  | [] => rfl
  | (_, c) :: r => by simp [total_bytes_entries, total_bytes_entries_sum tb r]

theorem total_bytes_list_sum (tb : DataType → Nat) :
    ∀ e : List Node, total_bytes_list tb e = (e.map (total_bytes tb)).sum
  | [] => rfl
  | c :: r => by simp [total_bytes_list, total_bytes_list_sum tb r]

/-- C18: `total_bytes()` of an OBJECT node is the sum of `total_bytes()` over
its entries, `total_bytes()` of a LIST node is the sum over its list children,
and `total_bytes()` of an EMPTY node is 0; for every node and whatever
`DataType::total_bytes()` is. -/
theorem C18_total_bytes_composite (tb : DataType → Nat) (n : Node) :
    (n.m_dtype.m_id = TypeId.NODE_T →
      total_bytes tb n = (n.entries.map (fun kc => total_bytes tb kc.2)).sum) ∧
    (n.m_dtype.m_id = TypeId.LIST_T →
      total_bytes tb n = (n.list.map (total_bytes tb)).sum) ∧
    (n.m_dtype.m_id = TypeId.EMPTY_T → total_bytes tb n = 0) := by
  cases n with
  | mk d a t l e ls =>
    simp only [m_dtype, entries, list]
    refine ⟨?_, ?_, ?_⟩
    · intro ht
      simp [total_bytes, ht, total_bytes_entries_sum]
    · intro ht
      simp [total_bytes, ht, total_bytes_list_sum]
    · intro ht
      simp [total_bytes, ht]

theorem C18_total_bytes_composite_witness :
    (tree_b1_a2.2.m_dtype.m_id = TypeId.NODE_T →
      total_bytes DataType.content_bytes tree_b1_a2.2
        = (tree_b1_a2.2.entries.map (fun kc => total_bytes DataType.content_bytes kc.2)).sum) ∧
    (tree_b1_a2.2.m_dtype.m_id = TypeId.LIST_T →
      total_bytes DataType.content_bytes tree_b1_a2.2
        = (tree_b1_a2.2.list.map (total_bytes DataType.content_bytes)).sum) ∧
    (tree_b1_a2.2.m_dtype.m_id = TypeId.EMPTY_T →
      total_bytes DataType.content_bytes tree_b1_a2.2 = 0) ∧
    total_bytes DataType.content_bytes tree_b1_a2.2 = 8 :=
  ⟨(C18_total_bytes_composite DataType.content_bytes tree_b1_a2.2).1,
   (C18_total_bytes_composite DataType.content_bytes tree_b1_a2.2).2.1,
   (C18_total_bytes_composite DataType.content_bytes tree_b1_a2.2).2.2, by decide⟩

end Node

/-! ## Claims C12 and C13 -/

theorem write_mem_out (h : Heap) (p a : Nat) (bs : List Nat) (h1 : a < p) :
    (h.write p bs).mem a = h.mem a := by
  have : ¬ (p ≤ a ∧ a < p + bs.length) := by omega
  simp [Heap.write, this]

theorem uint32_bytes_length (x : Nat) : (uint32_bytes x).length = 4 := rfl

namespace Node

theorem cleanup_heap (h : Heap) (n : Node) :
    (cleanup h n).1.brk = h.brk ∧ (cleanup h n).1.mem = h.mem := by
  cases n with
  | mk d a t l e ls =>
    simp only [cleanup]
    split
    · split
      · exact ⟨rfl, rfl⟩
      · split
        · exact ⟨rfl, rfl⟩
        · split
          · exact ⟨rfl, rfl⟩
          · split <;> exact ⟨rfl, rfl⟩
    · exact ⟨rfl, rfl⟩

theorem init_cond_of_reuses (n : Node) (d : DataType) :
    ((!(n.m_dtype.compatible_storage d) || decide (n.m_data = NULL)) = true) ↔
      reuses_storage n d = false := by
  unfold reuses_storage
  by_cases h1 : n.m_dtype.compatible_storage d = true <;>
    by_cases h2 : n.m_data = NULL <;> simp [h1, h2]

theorem init_fresh (h : Heap) (n : Node) (d : DataType) (hr : reuses_storage n d = false)
    (hd : d.m_id = TypeId.UINT32_T ∨ d.m_id = TypeId.FLOAT64_T) :
    (init h n d).2.m_dtype = d ∧ (init h n d).2.m_data = h.brk + 1 ∧
    (init h n d).2.m_alloced = true ∧ (init h n d).1.mem = h.mem ∧
    (h.brk + 1, d.m_num_ele * d.m_ele_bytes) ∈ (init h n d).1.allocs := by
  obtain ⟨i1, i2, i3, i4⟩ := init_alloc h n d ((init_cond_of_reuses n d).2 hr) hd
  obtain ⟨c1, c2⟩ := cleanup_heap h n
  rw [i1, i2, i3, i4, c1]
  refine ⟨rfl, rfl, rfl, ?_, ?_⟩
  · simp [Heap.alloc, c2]
  · simp [Heap.alloc, c1]

end Node

/-! ## Claim C14 -/

namespace Node

theorem init_dtype_of_not_reuse (h : Heap) (n : Node) (t : DataType)
    (hr : reuses_storage n t = false) : (init h n t).2.m_dtype = t := by
  cases n with
  | mk d a t0 l e ls =>
    unfold init
    rw [if_pos ((init_cond_of_reuses _ t).2 hr)]
    simp only [cleanup]
    split <;> rfl

theorem reuses_default (t : DataType) : reuses_storage default t = false := by
  simp [reuses_storage, default, m_data, NULL]

mutual
theorem destroy_mem : ∀ (n : Node) (h : Heap), (destroy h n).mem = h.mem
  | mk d a t l e ls, h => by
    simp only [destroy]
    rw [destroy_list_mem ls, destroy_entries_mem e, (cleanup_heap h _).2]
theorem destroy_entries_mem : ∀ (e : List (Str × Node)) (h : Heap),
    (destroy_entries h e).mem = h.mem
  | [], h => rfl
  | (_, c) :: r, h => by
    simp only [destroy_entries]
    rw [destroy_entries_mem r, destroy_mem c]
theorem destroy_list_mem : ∀ (e : List Node) (h : Heap), (destroy_list h e).mem = h.mem
  | [], h => rfl
  | c :: r, h => by
    simp only [destroy_list]
    rw [destroy_list_mem r, destroy_mem c]
end

theorem init_data_of_not_alloc (h : Heap) (n : Node) (t : DataType)
    (hr : reuses_storage n t = false)
    (hd : ¬ (t.m_id = TypeId.UINT32_T ∨ t.m_id = TypeId.FLOAT64_T)) :
    (init h n t).2.m_data = NULL := by
  cases n with
  | mk d a t0 l e ls =>
    unfold init
    rw [if_pos ((init_cond_of_reuses _ t).2 hr)]
    simp only [cleanup, if_neg hd, m_data]

/-- The body of `Node::set(const Node &node)` for a source that is not EMPTY,
as a chain of the four steps. -/
theorem set_node_eq (tb : DataType → Nat) (h : Heap) (a : Node) (d : Ptr) (al : Bool)
    (t : DataType) (lk : Bool) (e : List (Str × Node)) (ls : List Node)
    (ht : t.m_id ≠ TypeId.EMPTY_T) :
    set_node tb h a (mk d al t lk e ls) =
      (if al then
          ((init h a t).1.memcpy (init h a t).2.m_data d (tb (init h a t).2.m_dtype)).map
            (fun h1 => (h1, (init h a t).2))
        else some (h, mk d false t a.m_locked a.entries a.list)).bind (fun s1 =>
        (if a.entries.isEmpty then copy_entries tb s1.1 e
          else if e.isEmpty then some (destroy_entries s1.1 a.entries, [])
          else none).bind (fun ce =>
          (if a.list.isEmpty then copy_list tb ce.1 ls
            else assign_list tb ce.1 a.list ls).bind (fun cl =>
            some (cl.1, mk s1.2.m_data s1.2.m_alloced s1.2.m_dtype s1.2.m_locked ce.2 cl.2)))) := by
  simp only [set_node, ht, ne_eq, not_false_eq_true, ↓reduceIte]
  generalize (if al = true then
          ((init h a t).1.memcpy (init h a t).2.m_data d (tb (init h a t).2.m_dtype)).map
            (fun h1 => (h1, (init h a t).2))
        else some (h, mk d false t a.m_locked a.entries a.list)) = r1
  cases r1 with
  | none => rfl
  | some s1 =>
    simp only [Option.bind]
    cases (if a.entries.isEmpty then copy_entries tb s1.1 e
          else if e.isEmpty then some (destroy_entries s1.1 a.entries, [])
          else none) with
    | none => rfl
    | some ce =>
      simp only
      cases (if a.list.isEmpty then copy_list tb ce.1 ls
            else assign_list tb ce.1 a.list ls) with
      | none => rfl
      | some cl => rfl

theorem set_node_of_empty (tb : DataType → Nat) (h : Heap) (a : Node) (d : Ptr) (al : Bool)
    (t : DataType) (lk : Bool) (e : List (Str × Node)) (ls : List Node)
    (ht : t.m_id = TypeId.EMPTY_T) :
    set_node tb h a (mk d al t lk e ls) = some (h, a) := by
  simp [set_node, ht]

/-- The first step of `set(const Node &node)`, the copy of the data: when it
returns, and the descriptor and the data fields it leaves. -/
theorem set_node_data_step (tb : DataType → Nat) (h : Heap) (a : Node) (d : Ptr) (al : Bool)
    (t : DataType) (hre : al = true → reuses_storage a t = false) :
    ((if al then
          ((init h a t).1.memcpy (init h a t).2.m_data d (tb (init h a t).2.m_dtype)).map
            (fun h1 => (h1, (init h a t).2))
        else some (h, mk d false t a.m_locked a.entries a.list)).isSome
      = (!al || decide (tb t = 0) ||
          (decide (d ≠ NULL) &&
            decide (t.m_id = TypeId.UINT32_T ∨ t.m_id = TypeId.FLOAT64_T)))) ∧
    ∀ s1, (if al then
          ((init h a t).1.memcpy (init h a t).2.m_data d (tb (init h a t).2.m_dtype)).map
            (fun h1 => (h1, (init h a t).2))
        else some (h, mk d false t a.m_locked a.entries a.list)) = some s1 →
      s1.2.m_dtype = t ∧
      (al = false → s1.1 = h ∧ s1.2.m_data = d ∧ s1.2.m_alloced = false) ∧
      (al = true → s1.2 = (init h a t).2 ∧
        s1.1 = (init h a t).1.write (init h a t).2.m_data ((init h a t).1.read d (tb t))) := by
  cases al with
  | false =>
    refine ⟨by simp, ?_⟩
    intro s1 hs
    simp only [Bool.false_eq_true, ↓reduceIte, Option.some.injEq] at hs
    subst hs
    exact ⟨rfl, fun _ => ⟨rfl, rfl, rfl⟩, fun hx => absurd hx (by decide)⟩
  | true =>
    have hr := hre rfl
    have hdt := init_dtype_of_not_reuse h a t hr
    simp only [↓reduceIte, hdt, Heap.memcpy]
    by_cases hid : t.m_id = TypeId.UINT32_T ∨ t.m_id = TypeId.FLOAT64_T
    · obtain ⟨_, i2, _, _, _⟩ := init_fresh h a t hr hid
      have hnn : (init h a t).2.m_data ≠ NULL := by
        rw [i2]
        simp [NULL]
      constructor
      · by_cases hz : tb t = 0
        · simp [hz]
        · by_cases hd : d = NULL
          · simp [hz, hd]
          · simp [hz, hd, hnn, hid]
      · intro s1 hs
        by_cases hc : tb t ≠ 0 ∧ ((init h a t).2.m_data = NULL ∨ d = NULL)
        · rw [if_pos hc] at hs
          exact absurd hs (by simp)
        · rw [if_neg hc] at hs
          simp only [Option.map_some', Option.some.injEq] at hs
          subst hs
          exact ⟨hdt, fun hx => absurd hx (by decide), fun _ => ⟨rfl, rfl⟩⟩
    · have hn : (init h a t).2.m_data = NULL := init_data_of_not_alloc h a t hr hid
      constructor
      · by_cases hz : tb t = 0
        · simp [hz]
        · simp [hz, hn, hid]
      · intro s1 hs
        by_cases hc : tb t ≠ 0 ∧ ((init h a t).2.m_data = NULL ∨ d = NULL)
        · rw [if_pos hc] at hs
          exact absurd hs (by simp)
        · rw [if_neg hc] at hs
          simp only [Option.map_some', Option.some.injEq] at hs
          subst hs
          exact ⟨hdt, fun hx => absurd hx (by decide), fun _ => ⟨rfl, rfl⟩⟩

/-- The second step of `set(const Node &node)`, the assignment of the map,
when the receiver or the source has no entries. -/
theorem set_node_entries_step (tb : DataType → Nat) (xs e : List (Str × Node))
    (hl : xs = [] ∨ e = [])
    (he : ∀ h2, (copy_entries tb h2 e).isSome = copyable_entries tb e ∧
      ∀ r, copy_entries tb h2 e = some r →
        layout_entries r.2 = layout_entries e ∧
        total_bytes_entries tb r.2 = total_bytes_entries tb e) (h2 : Heap) :
    (if xs.isEmpty then copy_entries tb h2 e
      else if e.isEmpty then some (destroy_entries h2 xs, []) else none).isSome
      = copyable_entries tb e ∧
    ∀ r, (if xs.isEmpty then copy_entries tb h2 e
      else if e.isEmpty then some (destroy_entries h2 xs, []) else none) = some r →
      layout_entries r.2 = layout_entries e ∧
      total_bytes_entries tb r.2 = total_bytes_entries tb e ∧
      (e = [] → r.1.mem = h2.mem) := by
  rcases hl with hl | hl
  · subst hl
    simp only [List.isEmpty_nil, ↓reduceIte]
    refine ⟨(he h2).1, ?_⟩
    intro r hr
    obtain ⟨a1, a2⟩ := (he h2).2 r hr
    refine ⟨a1, a2, ?_⟩
    intro hn
    subst hn
    simp only [copy_entries, Option.some.injEq] at hr
    subst hr
    rfl
  · subst hl
    cases xs with
    | nil =>
      simp only [List.isEmpty_nil, ↓reduceIte, copy_entries, Option.isSome_some,
        copyable_entries, Option.some.injEq, true_and]
      intro r hr
      subst hr
      exact ⟨rfl, rfl, fun _ => rfl⟩
    | cons x xr =>
      simp only [List.isEmpty_cons, Bool.false_eq_true, ↓reduceIte, List.isEmpty_nil,
        Option.isSome_some, copyable_entries, Option.some.injEq, true_and]
      intro r hr
      subst hr
      exact ⟨rfl, rfl, fun _ => destroy_entries_mem _ _⟩

/-- The third step of `set(const Node &node)`, the assignment of the vector,
when the receiver or the source has no list children. -/
theorem set_node_list_step (tb : DataType → Nat) (xs ls : List Node)
    (hl : xs = [] ∨ ls = [])
    (hls : ∀ h3, (copy_list tb h3 ls).isSome = copyable_list tb ls ∧
      ∀ r, copy_list tb h3 ls = some r →
        layout_list r.2 = layout_list ls ∧
        total_bytes_list tb r.2 = total_bytes_list tb ls) (h3 : Heap) :
    (if xs.isEmpty then copy_list tb h3 ls else assign_list tb h3 xs ls).isSome
      = copyable_list tb ls ∧
    ∀ r, (if xs.isEmpty then copy_list tb h3 ls else assign_list tb h3 xs ls) = some r →
      layout_list r.2 = layout_list ls ∧ total_bytes_list tb r.2 = total_bytes_list tb ls ∧
      (ls = [] → r.1.mem = h3.mem) := by
  rcases hl with hl | hl
  · subst hl
    simp only [List.isEmpty_nil, ↓reduceIte]
    refine ⟨(hls h3).1, ?_⟩
    intro r hr
    obtain ⟨a1, a2⟩ := (hls h3).2 r hr
    refine ⟨a1, a2, ?_⟩
    intro hn
    subst hn
    simp only [copy_list, Option.some.injEq] at hr
    subst hr
    rfl
  · subst hl
    cases xs with
    | nil =>
      simp only [List.isEmpty_nil, ↓reduceIte, copy_list, Option.isSome_some, copyable_list,
        Option.some.injEq, true_and]
      intro r hr
      subst hr
      exact ⟨rfl, rfl, fun _ => rfl⟩
    | cons x xr =>
      simp only [List.isEmpty_cons, Bool.false_eq_true, ↓reduceIte, assign_list,
        Option.isSome_some, copyable_list, Option.some.injEq, true_and]
      intro r hr
      subst hr
      exact ⟨rfl, rfl, fun _ => destroy_list_mem _ _⟩

/-- One call of `set(const Node &node)` on a source that is not EMPTY, given
what the copies of its entries and list children do: when the call returns,
and what the receiver is afterwards. -/
theorem set_node_shape (tb : DataType → Nat) (h : Heap) (a : Node) (d : Ptr) (al : Bool)
    (t : DataType) (lk : Bool) (e : List (Str × Node)) (ls : List Node)
    (ht : t.m_id ≠ TypeId.EMPTY_T) (hre : al = true → reuses_storage a t = false)
    (hen : a.entries = [] ∨ e = []) (hl : a.list = [] ∨ ls = [])
    (he : ∀ h2, (copy_entries tb h2 e).isSome = copyable_entries tb e ∧
      ∀ r, copy_entries tb h2 e = some r →
        layout_entries r.2 = layout_entries e ∧
        total_bytes_entries tb r.2 = total_bytes_entries tb e)
    (hls : ∀ h3, (copy_list tb h3 ls).isSome = copyable_list tb ls ∧
      ∀ r, copy_list tb h3 ls = some r →
        layout_list r.2 = layout_list ls ∧
        total_bytes_list tb r.2 = total_bytes_list tb ls) :
    (set_node tb h a (mk d al t lk e ls)).isSome = copyable tb (mk d al t lk e ls) ∧
    ∀ r, set_node tb h a (mk d al t lk e ls) = some r →
      r.2.m_dtype = t ∧
      layout r.2 = layout (mk d al t lk e ls) ∧
      total_bytes tb r.2 = total_bytes tb (mk d al t lk e ls) ∧
      (al = false → r.2.m_data = d ∧ r.2.m_alloced = false) ∧
      (al = true → r.2.m_data = (init h a t).2.m_data ∧
        r.2.m_alloced = (init h a t).2.m_alloced ∧
        (e = [] → ls = [] → r.1.mem =
          ((init h a t).1.write (init h a t).2.m_data ((init h a t).1.read d (tb t))).mem)) := by
  rw [set_node_eq tb h a d al t lk e ls ht]
  obtain ⟨d1, d2⟩ := set_node_data_step tb h a d al t hre
  have hte : decide (t.m_id = TypeId.EMPTY_T) = false := by simp [ht]
  generalize (if al = true then
          ((init h a t).1.memcpy (init h a t).2.m_data d (tb (init h a t).2.m_dtype)).map
            (fun h1 => (h1, (init h a t).2))
        else some (h, mk d false t a.m_locked a.entries a.list)) = r1 at d1 d2 ⊢
  cases r1 with
  | none =>
    simp only [Option.isSome_none] at d1
    refine ⟨?_, fun r hr => absurd hr (by simp)⟩
    simp only [Option.none_bind, Option.isSome_none, copyable, hte, ← d1, Bool.false_or,
      Bool.false_and]
  | some s1 =>
    simp only [Option.isSome_some] at d1
    obtain ⟨hdt, g1, g2⟩ := d2 s1 rfl
    obtain ⟨e1, e2⟩ := set_node_entries_step tb a.entries e hen he s1.1
    simp only [Option.some_bind]
    cases hce : (if a.entries.isEmpty then copy_entries tb s1.1 e
        else if e.isEmpty then some (destroy_entries s1.1 a.entries, [])
        else none) with
    | none =>
      rw [hce] at e1
      simp only [Option.isSome_none] at e1
      refine ⟨?_, fun r hr => absurd hr (by simp)⟩
      simp only [Option.none_bind, Option.isSome_none, copyable, hte, ← e1, Bool.false_or,
        Bool.and_false, Bool.false_and]
    | some ce =>
      rw [hce] at e1
      simp only [Option.isSome_some] at e1
      obtain ⟨c1, c2, c3⟩ := e2 ce hce
      obtain ⟨l1, l2⟩ := set_node_list_step tb a.list ls hl hls ce.1
      simp only [Option.some_bind]
      cases hcl : (if a.list.isEmpty then copy_list tb ce.1 ls
          else assign_list tb ce.1 a.list ls) with
      | none =>
        rw [hcl] at l1
        simp only [Option.isSome_none] at l1
        refine ⟨?_, fun r hr => absurd hr (by simp)⟩
        simp only [Option.none_bind, Option.isSome_none, copyable, hte, ← l1, Bool.false_or,
          Bool.and_false]
      | some cl =>
        rw [hcl] at l1
        simp only [Option.isSome_some] at l1
        obtain ⟨k1, k2, k3⟩ := l2 cl hcl
        constructor
        · simp only [Option.some_bind, Option.isSome_some, copyable, hte, ← d1, ← e1, ← l1,
            Bool.false_or, Bool.and_self]
        · intro r hr
          simp only [Option.some_bind, Option.some.injEq] at hr
          subst hr
          have hdt2 : (mk s1.2.m_data s1.2.m_alloced s1.2.m_dtype s1.2.m_locked ce.2
              cl.2).m_dtype = t := hdt
          refine ⟨hdt2, ?_, ?_, ?_, ?_⟩
          · simp only [layout, hdt, ht, ↓reduceIte, c1, k1]
          · simp only [total_bytes, hdt, c2, k2]
          · intro hal
            obtain ⟨_, g12, g13⟩ := g1 hal
            exact ⟨g12, g13⟩
          · intro hal
            obtain ⟨g21, g22⟩ := g2 hal
            refine ⟨by rw [← g21]; rfl, by rw [← g21]; rfl, ?_⟩
            intro hee hln
            show cl.1.mem = _
            rw [k3 hln, c3 hee, g22]

mutual
/-- The copy constructor `Node(const Node &node)`: it returns exactly for a
`copyable` source, and the copy has the shape and the size of the source. -/
theorem copy_layout (tb : DataType → Nat) :
    ∀ (b : Node) (h : Heap),
      (set_node tb h default b).isSome = copyable tb b ∧
      ∀ r, set_node tb h default b = some r →
        layout r.2 = layout b ∧ total_bytes tb r.2 = total_bytes tb b
  | mk d al t lk e ls, h => by
    by_cases ht : t.m_id = TypeId.EMPTY_T
    · rw [set_node_of_empty tb h default d al t lk e ls ht]
      refine ⟨by simp [copyable, ht], ?_⟩
      intro r hr
      simp only [Option.some.injEq] at hr
      subst hr
      constructor
      · simp [layout, ht, default, DataType.of_id]
      · simp [total_bytes, ht, default, DataType.of_id]
    · obtain ⟨s1, s2⟩ := set_node_shape tb h default d al t lk e ls ht
        (fun _ => reuses_default t) (Or.inl rfl) (Or.inl rfl)
        (fun h2 => copy_entries_layout tb e h2) (fun h3 => copy_list_layout tb ls h3)
      exact ⟨s1, fun r hr => ⟨(s2 r hr).2.1, (s2 r hr).2.2.1⟩⟩
theorem copy_entries_layout (tb : DataType → Nat) :
    ∀ (e : List (Str × Node)) (h : Heap),
      (copy_entries tb h e).isSome = copyable_entries tb e ∧
      ∀ r, copy_entries tb h e = some r →
        layout_entries r.2 = layout_entries e ∧
        total_bytes_entries tb r.2 = total_bytes_entries tb e
  | [], h => by
    refine ⟨rfl, ?_⟩
    intro r hr
    simp only [copy_entries, Option.some.injEq] at hr
    subst hr
    exact ⟨rfl, rfl⟩
  | (k, c) :: r, h => by
    obtain ⟨a1, a2⟩ := copy_layout tb c h
    simp only [copy_entries, copyable_entries]
    cases hc : set_node tb h default c with
    | none =>
      rw [hc] at a1
      simp only [Option.isSome_none] at a1
      refine ⟨by simp only [Option.isSome_none, ← a1, Bool.false_and], ?_⟩
      intro x hx
      exact absurd hx (by simp)
    | some x =>
      rw [hc] at a1
      simp only [Option.isSome_some] at a1
      obtain ⟨b1, b2⟩ := copy_entries_layout tb r x.1
      obtain ⟨x1, x2⟩ := a2 x hc
      cases hr : copy_entries tb x.1 r with
      | none =>
        rw [hr] at b1
        simp only [Option.isSome_none] at b1
        refine ⟨by simp only [hr, Option.isSome_none, ← b1, Bool.and_false], ?_⟩
        intro y hy
        simp [hr] at hy
      | some y =>
        rw [hr] at b1
        simp only [Option.isSome_some] at b1
        obtain ⟨y1, y2⟩ := b2 y hr
        refine ⟨by simp only [hr, Option.isSome_some, ← a1, ← b1, Bool.and_self], ?_⟩
        intro z hz
        simp only [hr, Option.some.injEq] at hz
        subst hz
        simp only [layout_entries, total_bytes_entries, x1, x2, y1, y2, and_self]
theorem copy_list_layout (tb : DataType → Nat) :
    ∀ (e : List Node) (h : Heap),
      (copy_list tb h e).isSome = copyable_list tb e ∧
      ∀ r, copy_list tb h e = some r →
        layout_list r.2 = layout_list e ∧
        total_bytes_list tb r.2 = total_bytes_list tb e
  | [], h => by
    refine ⟨rfl, ?_⟩
    intro r hr
    simp only [copy_list, Option.some.injEq] at hr
    subst hr
    exact ⟨rfl, rfl⟩
  | c :: r, h => by
    obtain ⟨a1, a2⟩ := copy_layout tb c h
    simp only [copy_list, copyable_list]
    cases hc : set_node tb h default c with
    | none =>
      rw [hc] at a1
      simp only [Option.isSome_none] at a1
      refine ⟨by simp only [Option.isSome_none, ← a1, Bool.false_and], ?_⟩
      intro x hx
      exact absurd hx (by simp)
    | some x =>
      rw [hc] at a1
      simp only [Option.isSome_some] at a1
      obtain ⟨b1, b2⟩ := copy_list_layout tb r x.1
      obtain ⟨x1, x2⟩ := a2 x hc
      cases hr : copy_list tb x.1 r with
      | none =>
        rw [hr] at b1
        simp only [Option.isSome_none] at b1
        refine ⟨by simp only [hr, Option.isSome_none, ← b1, Bool.and_false], ?_⟩
        intro y hy
        simp [hr] at hy
      | some y =>
        rw [hr] at b1
        simp only [Option.isSome_some] at b1
        obtain ⟨y1, y2⟩ := b2 y hr
        refine ⟨by simp only [hr, Option.isSome_some, ← a1, ← b1, Bool.and_self], ?_⟩
        intro z hz
        simp only [hr, Option.some.injEq] at hz
        subst hz
        simp only [layout_list, total_bytes_list, x1, x2, y1, y2, and_self]
end

end Node
namespace Node

end Node

/-! ## Claims C19 and C20 -/

namespace Node

theorem ite_some_width {c : Prop} [Decidable c] (x : DataType) (y : Option DataType)
    (df : DataType)
    (hx : x.m_ele_bytes = DataType.default_bytes x.m_id ∧ x.m_stride = x.m_ele_bytes)
    (hy : y = some df →
      df.m_ele_bytes = DataType.default_bytes df.m_id ∧ df.m_stride = df.m_ele_bytes)
    (hd : (if c then some x else y) = some df) :
    df.m_ele_bytes = DataType.default_bytes df.m_id ∧ df.m_stride = df.m_ele_bytes := by
  by_cases hc : c
  · rw [if_pos hc] at hd
    injection hd with hd
    rw [← hd]; exact hx
  · rw [if_neg hc] at hd
    exact hy hd

theorem default_dtype_width (T : Str) (df : DataType)
    (hd : DataType.default_dtype T = some df) :
    df.m_ele_bytes = DataType.default_bytes df.m_id ∧ df.m_stride = df.m_ele_bytes := by
  unfold DataType.default_dtype at hd
  refine ite_some_width _ _ df ⟨rfl, rfl⟩ ?_ hd
  intro hd
  refine ite_some_width _ _ df ⟨rfl, rfl⟩ ?_ hd
  intro hd
  refine ite_some_width _ _ df ⟨rfl, rfl⟩ ?_ hd
  intro hd
  refine ite_some_width _ _ df ⟨rfl, rfl⟩ ?_ hd
  intro hd
  refine ite_some_width _ _ df ⟨rfl, rfl⟩ ?_ hd
  intro hd
  refine ite_some_width _ _ df ⟨rfl, rfl⟩ ?_ hd
  intro hd
  refine ite_some_width _ _ df ⟨rfl, rfl⟩ ?_ hd
  intro hd
  refine ite_some_width _ _ df ⟨rfl, rfl⟩ ?_ hd
  intro hd
  refine ite_some_width _ _ df ⟨rfl, rfl⟩ ?_ hd
  intro hd
  refine ite_some_width _ _ df ⟨rfl, rfl⟩ ?_ hd
  intro hd
  refine ite_some_width _ _ df ⟨rfl, rfl⟩ ?_ hd
  intro hd
  refine ite_some_width _ _ df ⟨rfl, rfl⟩ ?_ hd
  intro hd
  refine ite_some_width _ _ df ⟨rfl, rfl⟩ ?_ hd
  intro hd
  exact absurd hd (fun h => Option.noConfusion h)

theorem walk_leaf_object (tb : DataType → Nat) (data : Ptr) (members : List (Str × JValue))
    (h : Heap) (this : Node) (c : Nat) (T : Str) (n : Nat)
    (h1 : find_member members "dtype".toList = some (JValue.string T))
    (h2 : find_member members "length".toList = some (JValue.number n)) :
    walk_schema_value tb data (JValue.object members) h this c =
      if n < 2 ^ 31 then
        match DataType.default_dtype (c_str T) with
        | some df => some (h, (this.set_dtype (walked_dtype df n c)).set_data data)
        | none => none
      else none := by
  simp only [walk_schema_value, h1, h2, walked_dtype]

theorem walk_leaf_schema (tb : DataType → Nat) (data : Ptr) (h : Heap) (this : Node)
    (c : Nat) (T : Str) (n : Nat) :
    walk_schema_value tb data (leaf_schema T n) h this c =
      if n < 2 ^ 31 then
        match DataType.default_dtype (c_str T) with
        | some df => some (h, (this.set_dtype (walked_dtype df n c)).set_data data)
        | none => none
      else none :=
  walk_leaf_object tb data
    [("dtype".toList, JValue.string T), ("length".toList, JValue.number n)] h this c T n
    rfl rfl

theorem walk_leaf_string (tb : DataType → Nat) (data : Ptr) (h : Heap) (this : Node)
    (c : Nat) (T : Str) :
    walk_schema_value tb data (JValue.string T) h this c =
      match DataType.default_dtype (c_str T) with
      | some df => some (h, (this.set_dtype (walked_dtype df 1 c)).set_data data)
      | none => none := by
  simp only [walk_schema_value, walked_dtype]

end Node

namespace Node

/-- C20 (as stated, refuted): walking `{"dtype": "uint32", "length": 2,
"offset": 16, "stride": 8, "element_bytes": 4}` with cursor 0 gives the
descriptor `(UINT32, 2, offset 0, stride 4, element_bytes 4)`: the explicit
offset and stride are not read. -/
theorem C20_explicit_layout_counterexample :
    (of_schema DataType.content_bytes Heap.init 100 schema_explicit).map
        (fun r => r.2.m_dtype)
      = some ⟨TypeId.UINT32_T, 2, 0, 4, 4, Endianness.DEFAULT_T⟩ := by
  decide

/-- C20 (amended): explicit layout fields are not read by the schema walker.
For a leaf object with `"dtype": T` and `"length": n` and any further members
(`"offset"`, `"stride"`, `"element_bytes"`, ...), the walk gives the same
result as for `{"dtype": T, "length": n}`: for a length `n` that an `int`
holds and a type name `T` that is known (read as a C string), the leaf
descriptor has count `n`, the cursor as offset, and stride and element bytes
both `T`'s natural width. -/
theorem C20_layout_fields_ignored (tb : DataType → Nat) (data : Ptr)
    (members : List (Str × JValue)) (h : Heap) (this : Node) (c : Nat) (T : Str) (n : Nat)
    (h1 : find_member members "dtype".toList = some (JValue.string T))
    (h2 : find_member members "length".toList = some (JValue.number n)) :
    walk_schema_value tb data (JValue.object members) h this c
      = walk_schema_value tb data (leaf_schema T n) h this c ∧
    ∀ df, n < 2 ^ 31 → DataType.default_dtype (c_str T) = some df →
      walk_schema_value tb data (JValue.object members) h this c
        = some (h, (this.set_dtype (walked_dtype df n c)).set_data data) ∧
      (walked_dtype df n c).m_num_ele = n ∧
      (walked_dtype df n c).m_offset = c ∧
      (walked_dtype df n c).m_stride = DataType.default_bytes df.m_id ∧
      (walked_dtype df n c).m_ele_bytes = DataType.default_bytes df.m_id := by
  constructor
  · rw [walk_leaf_object tb data members h this c T n h1 h2, walk_leaf_schema]
  · intro df hn hd
    have hw := (default_dtype_width (c_str T) df hd).1
    refine ⟨?_, rfl, rfl, hw, hw⟩
    rw [walk_leaf_object tb data members h this c T n h1 h2, if_pos hn, hd]

theorem C20_layout_fields_ignored_witness :
    walk_schema_value DataType.content_bytes 100 schema_explicit Heap.init default 0
      = walk_schema_value DataType.content_bytes 100 (leaf_schema "uint32".toList 2)
          Heap.init default 0 ∧
    ∀ df, 2 < 2 ^ 31 → DataType.default_dtype (c_str "uint32".toList) = some df →
      walk_schema_value DataType.content_bytes 100 schema_explicit Heap.init default 0
        = some (Heap.init, (default.set_dtype (walked_dtype df 2 0)).set_data 100) ∧
      (walked_dtype df 2 0).m_num_ele = 2 ∧
      (walked_dtype df 2 0).m_offset = 0 ∧
      (walked_dtype df 2 0).m_stride = DataType.default_bytes df.m_id ∧
      (walked_dtype df 2 0).m_ele_bytes = DataType.default_bytes df.m_id :=
  C20_layout_fields_ignored DataType.content_bytes 100 _ Heap.init default 0 "uint32".toList 2
    rfl rfl

end Node

/-! ## Claims C21 to C23 -/

namespace Node

/-- C21 (as stated, refuted): walking `{"dtype": "uint32", "length": 2,
"stride": 2}`, whose stride is smaller than the 4 bytes of a `uint32`, does
not fail: it builds the leaf `(UINT32, 2, offset 0, stride 4,
element_bytes 4)`. -/
theorem C21_small_stride_counterexample :
    (of_schema DataType.content_bytes Heap.init 100
        (leaf_schema_stride "uint32".toList 2 2)).map (fun r => r.2.m_dtype)
      = some ⟨TypeId.UINT32_T, 2, 0, 4, 4, Endianness.DEFAULT_T⟩ := by
  decide

/-- C21 (amended): the schema walker does not read an explicit stride.
Walking `{"dtype": T, "length": n, "stride": s}` for a type name `T` that is
known (read as a C string) and a length `n` that an `int` holds, with `s`
smaller than the natural width of `T` or not, succeeds and builds the same
leaf as `{"dtype": T, "length": n}`: count `n`, offset the cursor, stride and
element bytes both the natural width of `T`. -/
theorem C21_stride_not_checked (tb : DataType → Nat) (data : Ptr) (h : Heap) (this : Node)
    (c : Nat) (T : Str) (n s : Nat) (df : DataType)
    (hn : n < 2 ^ 31) (hd : DataType.default_dtype (c_str T) = some df) :
    walk_schema_value tb data (leaf_schema_stride T n s) h this c
      = some (h, (this.set_dtype (walked_dtype df n c)).set_data data) ∧
    walk_schema_value tb data (leaf_schema_stride T n s) h this c
      = walk_schema_value tb data (leaf_schema T n) h this c ∧
    (walked_dtype df n c).m_num_ele = n ∧
    (walked_dtype df n c).m_offset = c ∧
    (walked_dtype df n c).m_stride = DataType.default_bytes df.m_id ∧
    (walked_dtype df n c).m_ele_bytes = DataType.default_bytes df.m_id := by
  have hw := (default_dtype_width (c_str T) df hd).1
  have e1 : walk_schema_value tb data (leaf_schema_stride T n s) h this c
      = some (h, (this.set_dtype (walked_dtype df n c)).set_data data) := by
    unfold leaf_schema_stride
    rw [walk_leaf_object tb data
      [("dtype".toList, JValue.string T), ("length".toList, JValue.number n),
        ("stride".toList, JValue.number s)] h this c T n rfl rfl, if_pos hn, hd]
  refine ⟨e1, ?_, rfl, rfl, hw, hw⟩
  rw [e1, walk_leaf_schema, if_pos hn, hd]

theorem C21_stride_not_checked_witness :
    walk_schema_value DataType.content_bytes 100 (leaf_schema_stride "uint32".toList 2 2)
        Heap.init default 0
      = some (Heap.init,
          (default.set_dtype (walked_dtype DataType.uint32_dtype 2 0)).set_data 100) ∧
    walk_schema_value DataType.content_bytes 100 (leaf_schema_stride "uint32".toList 2 2)
        Heap.init default 0
      = walk_schema_value DataType.content_bytes 100 (leaf_schema "uint32".toList 2)
          Heap.init default 0 ∧
    (walked_dtype DataType.uint32_dtype 2 0).m_num_ele = 2 ∧
    (walked_dtype DataType.uint32_dtype 2 0).m_offset = 0 ∧
    (walked_dtype DataType.uint32_dtype 2 0).m_stride
      = DataType.default_bytes DataType.uint32_dtype.m_id ∧
    (walked_dtype DataType.uint32_dtype 2 0).m_ele_bytes
      = DataType.default_bytes DataType.uint32_dtype.m_id :=
  C21_stride_not_checked DataType.content_bytes 100 Heap.init default 0 "uint32".toList 2 2
    DataType.uint32_dtype (by decide) (by decide)

/-- C22: the string shorthand is the one-element leaf object. For every type
name `T`, data pointer, heap, receiver and cursor `c`, `walk_schema` on the
JSON string `"T"` gives exactly the result it gives on
`{"dtype": "T", "length": 1}` (same node: descriptor, offset, data pointer,
children), in the recursive walker and in the two entry points. -/
theorem C22_string_shorthand (tb : DataType → Nat) (data : Ptr) (h : Heap) (this : Node)
    (c : Nat) (T : Str) :
    walk_schema_value tb data (JValue.string T) h this c
      = walk_schema_value tb data (leaf_schema T 1) h this c ∧
    walk_schema tb h this data (JValue.string T)
      = walk_schema tb h this data (leaf_schema T 1) ∧
    of_schema tb h data (JValue.string T) = of_schema tb h data (leaf_schema T 1) := by
  have h1 : (1 : Nat) < 2 ^ 31 := by norm_num
  refine ⟨?_, ?_, ?_⟩
  · rw [walk_leaf_string, walk_leaf_schema, if_pos h1]
  · unfold walk_schema
    rw [walk_leaf_string, walk_leaf_schema, if_pos h1]
  · unfold of_schema walk_schema
    rw [walk_leaf_string, walk_leaf_schema, if_pos h1]

theorem C22_string_shorthand_witness :
    of_schema DataType.content_bytes Heap.init 100 (JValue.string "float64".toList)
      = of_schema DataType.content_bytes Heap.init 100 (leaf_schema "float64".toList 1) ∧
    (of_schema DataType.content_bytes Heap.init 100 (JValue.string "float64".toList)).map
        (fun r => (r.2.m_dtype, r.2.m_data))
      = some (⟨TypeId.FLOAT64_T, 1, 0, 8, 8, Endianness.DEFAULT_T⟩, 100) :=
  ⟨(C22_string_shorthand DataType.content_bytes 100 Heap.init default 0
      "float64".toList).2.2, by decide⟩

theorem total_bytes_leaf (tb : DataType → Nat) (n : Node) (hl : n.m_dtype.is_leaf = true) :
    total_bytes tb n = if n.m_dtype.m_id.sized then tb n.m_dtype else 0 := by
  cases n with
  | mk d a t l e ls =>
    simp only [m_dtype, DataType.is_leaf, decide_eq_true_eq] at hl
    obtain ⟨_, h2, h3⟩ := hl
    simp only [total_bytes, TypeId.sized, m_dtype, h2, h3, ↓reduceIte, decide_eq_true_eq]

theorem m_dtype_walked (this : Node) (dt : DataType) (data : Ptr) :
    ((this.set_dtype dt).set_data data).m_dtype = dt := by
  cases this; rfl

theorem serialize_length (tb : DataType → Nat) (h : Heap) (n : Node) :
    (serialize tb h n).map List.length
      = if sources_ok tb n then some (total_bytes tb n) else none := by
  rw [serialize_eq]
  cases sources_ok tb n <;> simp [flat_length]

theorem sources_ok_leaf (tb : DataType → Nat) (n : Node) (hl : n.m_dtype.is_leaf = true) :
    sources_ok tb n = decide (total_bytes tb n = 0 ∨ n.m_data ≠ NULL) := by
  cases n with
  | mk d a t l e ls =>
    simp only [m_dtype, DataType.is_leaf, decide_eq_true_eq] at hl
    obtain ⟨_, h2, h3⟩ := hl
    simp only [sources_ok, h2, h3, ↓reduceIte, m_data]

theorem m_data_walked (this : Node) (dt : DataType) (data : Ptr) :
    ((this.set_dtype dt).set_data data).m_data = data := by
  cases this; rfl

/-- C23 (as stated, refuted): for the schema `{"a": "int32", "b": {"dtype":
"float64", "length": 3}}` the node built by the walker has
`total_bytes() == 24`, not 28, and `serialize` gives 24 bytes: the `int32`
leaf `a` contributes nothing (and `b` is laid out at offset 0); under each
reading of `DataType::total_bytes()`. -/
theorem C23_int32_counts_zero_counterexample :
    (of_schema DataType.content_bytes Heap.init 100 schema_int32_float64).map
        (fun r => (total_bytes DataType.content_bytes r.2,
          (serialize DataType.content_bytes r.1 r.2).map List.length,
          (get Empty r.2 "a".toList).m_dtype.m_id,
          total_bytes DataType.content_bytes (get Empty r.2 "a".toList),
          (get Empty r.2 "b".toList).m_dtype.m_offset))
      = some (24, some 24, TypeId.INT32_T, 0, 0) ∧
    (of_schema DataType.strided_bytes Heap.init 100 schema_int32_float64).map
        (fun r => (total_bytes DataType.strided_bytes r.2,
          (serialize DataType.strided_bytes r.1 r.2).map List.length))
      = some (24, some 24) ∧
    (of_schema DataType.spanned_bytes Heap.init 100 schema_int32_float64).map
        (fun r => (total_bytes DataType.spanned_bytes r.2,
          (serialize DataType.spanned_bytes r.1 r.2).map List.length))
      = some (24, some 24) := by
  decide

/-- C23 (amended): a scalar leaf built by the walker for `{"dtype": T,
"length": n}` (`T` a known leaf type name, `n` a length an `int` holds)
contributes `DataType::total_bytes()` of its descriptor, which is
`count * element_bytes` for the compact descriptor the walker assigns, when
its tag is `UINT32`, `UINT64` or `FLOAT64`, and 0 bytes for any other leaf
tag; `serialize` of it gives that many bytes when the data pointer is not null
or there is no byte to copy, and does not return otherwise. For the schema
`{"a": "int32", "b": {"dtype": "float64", "length": 3}}` over a buffer the
node has `total_bytes() == 24` and its `serialize` output is 0 + 24 = 24
bytes. -/
theorem C23_leaf_contribution (tb : DataType → Nat) (data : Ptr) (h : Heap) (this : Node)
    (c : Nat) (T : Str) (n : Nat) (df : DataType)
    (hn : n < 2 ^ 31) (hd : DataType.default_dtype (c_str T) = some df)
    (hl : df.is_leaf = true) :
    (walk_schema_value tb data (leaf_schema T n) h this c).map
        (fun r => total_bytes tb r.2)
      = some (if df.m_id.sized then tb (walked_dtype df n c) else 0) ∧
    (walk_schema_value tb data (leaf_schema T n) h this c).map
        (fun r => (serialize tb r.1 r.2).map List.length)
      = some (if (if df.m_id.sized then tb (walked_dtype df n c) else 0) = 0 ∨ data ≠ NULL
          then some (if df.m_id.sized then tb (walked_dtype df n c) else 0) else none) ∧
    DataType.content_bytes (walked_dtype df n c) = n * DataType.default_bytes df.m_id ∧
    DataType.strided_bytes (walked_dtype df n c) = n * DataType.default_bytes df.m_id ∧
    (of_schema DataType.content_bytes Heap.init 100 schema_int32_float64).map
        (fun r => (total_bytes DataType.content_bytes r.2,
          (serialize DataType.content_bytes r.1 r.2).map List.length))
      = some (24, some 24) := by
  have hw := (default_dtype_width (c_str T) df hd).1
  have hl2 : ((this.set_dtype (walked_dtype df n c)).set_data data).m_dtype.is_leaf = true := by
    rw [m_dtype_walked]
    simpa [DataType.is_leaf, walked_dtype] using hl
  have ht := total_bytes_leaf tb _ hl2
  have hs := sources_ok_leaf tb _ hl2
  rw [m_dtype_walked] at ht
  rw [m_data_walked] at hs
  have hid : (walked_dtype df n c).m_id = df.m_id := rfl
  rw [hid] at ht
  rw [ht] at hs
  refine ⟨?_, ?_, ?_, ?_, by decide⟩
  · rw [walk_leaf_schema, if_pos hn, hd]
    simp only [Option.map_some', ht]
  · rw [walk_leaf_schema, if_pos hn, hd]
    simp only [Option.map_some', serialize_length, ht, hs, decide_eq_true_eq]
  · simp [DataType.content_bytes, walked_dtype, hw]
  · simp [DataType.strided_bytes, walked_dtype, hw]

theorem C23_leaf_contribution_witness :
    (walk_schema_value DataType.content_bytes 100 (leaf_schema "float64".toList 3)
        Heap.init default 4).map (fun r => total_bytes DataType.content_bytes r.2)
      = some (if DataType.float64_dtype.m_id.sized then
          DataType.content_bytes (walked_dtype DataType.float64_dtype 3 4) else 0) ∧
    (walk_schema_value DataType.content_bytes 100 (leaf_schema "float64".toList 3)
        Heap.init default 4).map
        (fun r => (serialize DataType.content_bytes r.1 r.2).map List.length)
      = some (if (if DataType.float64_dtype.m_id.sized then
            DataType.content_bytes (walked_dtype DataType.float64_dtype 3 4) else 0) = 0
            ∨ 100 ≠ NULL
          then some (if DataType.float64_dtype.m_id.sized then
            DataType.content_bytes (walked_dtype DataType.float64_dtype 3 4) else 0)
          else none) ∧
    DataType.content_bytes (walked_dtype DataType.float64_dtype 3 4)
      = 3 * DataType.default_bytes DataType.float64_dtype.m_id ∧
    DataType.strided_bytes (walked_dtype DataType.float64_dtype 3 4)
      = 3 * DataType.default_bytes DataType.float64_dtype.m_id ∧
    (of_schema DataType.content_bytes Heap.init 100 schema_int32_float64).map
        (fun r => (total_bytes DataType.content_bytes r.2,
          (serialize DataType.content_bytes r.1 r.2).map List.length))
      = some (24, some 24) :=
  C23_leaf_contribution DataType.content_bytes 100 Heap.init default 4 "float64".toList 3
    DataType.float64_dtype (by decide) (by decide) (by decide)

end Node

/-! ## Claims C24 to C30 -/

namespace Node

/-- C26 (evaluation of the code): after `N.fetch("a").set(7u); N.set(5u);`
the node is a `UINT32` leaf that still holds its entry `a`; the later
`N.fetch("q")` makes it an OBJECT again and the old child is back:
`has_path("a")` is true and the node has two entries. -/
theorem C26_children_survive_retag :
    tree_a7.2.m_dtype.m_id = TypeId.NODE_T ∧
    (set_uint32 5 tree_a7.1 tree_a7.2).2.m_dtype.m_id = TypeId.UINT32_T ∧
    (set_uint32 5 tree_a7.1 tree_a7.2).2.keys = ["a".toList] ∧
    state_retagged.2.m_dtype.m_id = TypeId.NODE_T ∧
    state_retagged.2.has_path "q".toList = true ∧
    state_retagged.2.has_path "a".toList = true ∧
    state_retagged.2.keys = ["a".toList, "q".toList] := by
  decide

/-- C27 (evaluation of the code): `get(index_t)` returns the sentinel when the
node is not a `LIST` and the `i`-th list child when it is one and `i` is in
range; when `i` is out of range the code evaluates `list()[idx]` unchecked,
which has no defined result (`none`), not the sentinel. -/
theorem C27_index_not_checked (E n : Node) (i : Nat) :
    (n.m_dtype.m_id ≠ TypeId.LIST_T → get_index E n i = some E) ∧
    (n.m_dtype.m_id = TypeId.LIST_T → i < n.list.length →
      get_index E n i = n.list.get? i ∧ (get_index E n i).isSome = true) ∧
    (n.m_dtype.m_id = TypeId.LIST_T → n.list.length ≤ i → get_index E n i = none) ∧
    get_index Empty list_one 0 = some default ∧
    get_index Empty list_one 3 = none := by
  refine ⟨?_, ?_, ?_, rfl, rfl⟩
  · intro hn
    simp [get_index, hn]
  · intro hn hi
    simp only [get_index, hn, ne_eq, not_true_eq_false, ↓reduceIte, true_and]
    rw [List.get?_eq_get hi]
    rfl
  · intro hn hi
    simp only [get_index, hn, ne_eq, not_true_eq_false, ↓reduceIte]
    exact List.get?_eq_none.2 hi

/-- C28 (evaluation of the code): `operator==` returns false for every pair
of nodes, so `a == a` is false for every node and a node never equals its
copy (the copy of `N` after `N.fetch("a").set(7u)`, for one). -/
theorem C28_equality_is_constant_false (tb : DataType → Nat) (h : Heap) (a b : Node) :
    op_eq a b = false ∧ op_eq a a = false ∧
    (∀ r, set_node tb h default a = some r → op_eq r.2 a = false) ∧
    (set_node DataType.content_bytes tree_a7.1 default tree_a7.2).map
      (fun r => op_eq r.2 tree_a7.2) = some false ∧
    op_eq tree_a7.2 tree_a7.2 = false :=
  ⟨rfl, rfl, fun _ _ => rfl, by decide, rfl⟩

/-- C29 (evaluation of the code): `paths` leaves its output vector as it came
in; after `N.fetch("a/b/c").set(7u)` on an empty `N`, `paths(out, true)` on an
empty `out` leaves it empty although `has_path("a/b/c")` is true. -/
theorem C29_paths_is_empty_stub (n : Node) (out : List Str) (expand : Bool) :
    paths n out expand = out ∧
    paths tree_abc7.2 [] true = [] ∧
    paths tree_abc7.2 [] false = [] ∧
    tree_abc7.2.has_path "a/b/c".toList = true :=
  ⟨rfl, rfl, rfl, by decide⟩

theorem total_bytes_zero_size (tb : DataType → Nat) (n : Node)
    (htb : ∀ d : DataType, d.m_num_ele = 0 → tb d = 0) (hz : zero_size n) :
    total_bytes tb n = 0 := by
  cases n with
  | mk d a t l e ls =>
    simp only [zero_size, m_dtype, list, entries] at hz
    rcases hz with ⟨h1, h2⟩ | ⟨h1, h2⟩ | h1 | ⟨h1, h2⟩
    · subst h2
      simp [total_bytes, h1, total_bytes_list]
    · subst h2
      simp [total_bytes, h1, total_bytes_entries]
    · simp [total_bytes, h1]
    · have := total_bytes_leaf tb (mk d a t l e ls) h1
      rw [this]
      simp only [m_dtype]
      split
      · exact htb t h2
      · rfl

/-- C30: zero-size boundary cases. A node rooted at a `LIST` with zero
children, an OBJECT with zero children, an EMPTY node, and a leaf with
`count == 0` each have `total_bytes() == 0` and serialize to a byte vector of
length 0; `tb` is any `DataType::total_bytes()` that is 0 for `count == 0`. -/
theorem C30_zero_size (tb : DataType → Nat) (h : Heap) (n : Node)
    (htb : ∀ d : DataType, d.m_num_ele = 0 → tb d = 0) (hz : zero_size n) :
    total_bytes tb n = 0 ∧ serialize tb h n = some [] ∧
    (serialize tb h n).map List.length = some 0 := by
  have ht := total_bytes_zero_size tb n htb hz
  have hl := flat_length tb h n
  rw [ht] at hl
  have hf : flat tb h n = [] := List.length_eq_zero.1 hl
  have hs := sources_ok_of_zero tb n ht
  refine ⟨ht, ?_, ?_⟩
  · rw [serialize_eq_flat tb h n hs, hf]
  · rw [serialize_length, ht, if_pos hs]

theorem spanned_bytes_zero (d : DataType) (hz : d.m_num_ele = 0) :
    DataType.spanned_bytes d = 0 := by
  simp [DataType.spanned_bytes, hz]

theorem C30_zero_size_witness :
    (total_bytes DataType.spanned_bytes empty_list = 0 ∧
      serialize DataType.spanned_bytes heap_12 empty_list = some [] ∧
      (serialize DataType.spanned_bytes heap_12 empty_list).map List.length = some 0) ∧
    (total_bytes DataType.spanned_bytes (of_dtype DataType.node_dtype false) = 0 ∧
      serialize DataType.spanned_bytes heap_12 (of_dtype DataType.node_dtype false) = some [] ∧
      (serialize DataType.spanned_bytes heap_12 (of_dtype DataType.node_dtype false)).map
        List.length = some 0) ∧
    (total_bytes DataType.spanned_bytes default = 0 ∧
      serialize DataType.spanned_bytes heap_12 default = some [] ∧
      (serialize DataType.spanned_bytes heap_12 default).map List.length = some 0) ∧
    (total_bytes DataType.spanned_bytes (set_external 100 (uint32_vec_dtype 0) default) = 0 ∧
      serialize DataType.spanned_bytes heap_12
        (set_external 100 (uint32_vec_dtype 0) default) = some [] ∧
      (serialize DataType.spanned_bytes heap_12
        (set_external 100 (uint32_vec_dtype 0) default)).map List.length = some 0) :=
  ⟨C30_zero_size DataType.spanned_bytes heap_12 empty_list spanned_bytes_zero
     (Or.inl ⟨rfl, rfl⟩),
   C30_zero_size DataType.spanned_bytes heap_12 (of_dtype DataType.node_dtype false)
     spanned_bytes_zero (Or.inr (Or.inl ⟨rfl, rfl⟩)),
   C30_zero_size DataType.spanned_bytes heap_12 default spanned_bytes_zero
     (Or.inr (Or.inr (Or.inl rfl))),
   C30_zero_size DataType.spanned_bytes heap_12 (set_external 100 (uint32_vec_dtype 0) default)
     spanned_bytes_zero (Or.inr (Or.inr (Or.inr ⟨by decide, rfl⟩)))⟩

end Node
/-! ## Path components, references and map lemmas -/

namespace Node

theorem components_fuel_irrel : ∀ (f1 f2 : Nat) (p : Str),
    p.length < f1 → p.length < f2 → p.length < 2 ^ 63 →
    components_fuel f1 p = components_fuel f2 p := by
  intro f1
  induction f1 with
  | zero => intro f2 p h1; omega
  | succ f1 ih =>
    intro f2 p h1 h2 hp
    cases f2 with
    | zero => omega
    | succ f2 =>
      simp only [components_fuel, split_path_eq p hp]
      split
      · rfl
      · rename_i hne
        have hlt := split_snd_lt p (by simpa using hne)
        rw [ih f2 _ (by omega) (by omega) (by omega)]

theorem components_step (p : Str) (hp : p.length < 2 ^ 63) :
    path_components p =
      if (split_at_slash p).2.isEmpty then [(split_at_slash p).1]
      else (split_at_slash p).1 :: path_components (split_at_slash p).2 := by
  have e : path_components p = components_fuel (p.length + 1) p := rfl
  rw [e]
  simp only [components_fuel, split_path_eq p hp]
  split
  · rfl
  · rename_i hne
    have hlt := split_snd_lt p (by simpa using hne)
    rw [components_fuel_irrel p.length ((split_at_slash p).2.length + 1) _ (by omega) (by omega)
      (by omega)]
    rfl

theorem components_ne_nil (p : Str) (hp : p.length < 2 ^ 63) : path_components p ≠ [] := by
  rw [components_step p hp]
  split <;> simp

theorem join_path_cons (c c2 : Str) (cs : List Str) :
    join_path (c :: c2 :: cs) = c ++ '/' :: join_path (c2 :: cs) := rfl

theorem join_path_ne_nil (c : Str) (cs : List Str) (hc : c ≠ []) : join_path (c :: cs) ≠ [] := by
  cases cs with
  | nil => simpa [join_path] using hc
  | cons c2 r => simp [join_path, hc]

theorem join_path_length_tail (c c2 : Str) (cs : List Str) :
    (join_path (c2 :: cs)).length < (join_path (c :: c2 :: cs)).length := by
  rw [join_path_cons]
  simp only [List.length_append, List.length_cons]
  omega

/-- The components of `c_1/.../c_n` are `c_1, ..., c_n` when no component is
empty or contains a slash. -/
theorem components_join : ∀ (cs : List Str), cs ≠ [] →
    (∀ c ∈ cs, c ≠ [] ∧ '/' ∉ c) → (join_path cs).length < 2 ^ 63 →
    path_components (join_path cs) = cs
  | [], hne, _, _ => absurd rfl hne
  | [c], _, hc, hp => by
    have h1 := (hc c (List.mem_singleton.2 rfl)).2
    simp only [join_path] at hp ⊢
    rw [components_step c hp, split_no_slash c h1]
    simp
  | c :: c2 :: r, _, hc, hp => by
    have h1 := (hc c (List.mem_cons_self _ _)).2
    have h2 := (hc c2 (List.mem_cons_of_mem _ (List.mem_cons_self _ _))).1
    have hlt := join_path_length_tail c c2 r
    have ih := components_join (c2 :: r) (by simp)
      (fun x hx => hc x (List.mem_cons_of_mem _ hx)) (by omega)
    rw [components_step _ hp, join_path_cons, split_append_slash c _ h1]
    have hne := join_path_ne_nil c2 r h2
    simp only [List.isEmpty_eq_true, hne, ↓reduceIte, ih]

theorem str_lt_irrefl : ∀ a : Str, str_lt a a = false
  | [] => rfl
  | x :: xs => by simp [str_lt, str_lt_irrefl xs]

theorem ascending_head_lt : ∀ (k : Str) (ks : List Str), ascending (k :: ks) = true →
    ∀ x ∈ ks, str_lt k x = true
  | _, [], _, x, hx => by simp at hx
  | k, b :: r, ha, x, hx => by
    simp only [ascending, Bool.and_eq_true] at ha
    rcases List.mem_cons.1 hx with rfl | hx
    · exact ha.1
    · exact str_lt_trans k b x ha.1 (ascending_head_lt b r ha.2 x hx)

theorem ascending_tail (k : Str) (ks : List Str) (ha : ascending (k :: ks) = true) :
    ascending ks = true := by
  cases ks with
  | nil => rfl
  | cons b r =>
    simp only [ascending, Bool.and_eq_true] at ha
    exact ha.2

theorem map_find_mem {α : Type} (m : List (Str × α)) (k : Str) (v : α)
    (hf : map_find m k = some v) : k ∈ m.map Prod.fst := by
  induction m with
  | nil => simp [map_find] at hf
  | cons kv r ih =>
    obtain ⟨k1, v1⟩ := kv
    simp only [map_find] at hf
    simp only [List.map_cons, List.mem_cons]
    split at hf
    · rename_i he
      exact Or.inl he
    · exact Or.inr (ih hf)

/-- In an ordered map, storing under a key the value already found there
leaves the map as it is. -/
theorem map_insert_find_id {α : Type} (m : List (Str × α)) (k : Str) (v : α)
    (ha : ascending (m.map Prod.fst) = true) (hf : map_find m k = some v) :
    map_insert m k v = m := by
  induction m with
  | nil => simp [map_find] at hf
  | cons kv r ih =>
    obtain ⟨k1, v1⟩ := kv
    simp only [map_find] at hf
    simp only [map_insert]
    split at hf
    · rename_i he
      simp only [Option.some.injEq] at hf
      subst he; subst hf
      simp
    · rename_i hne
      simp only [hne, ↓reduceIte]
      simp only [List.map_cons] at ha
      have hk := ascending_head_lt k1 _ ha k (map_find_mem r k v hf)
      have hnlt : str_lt k k1 = false := by
        cases hx : str_lt k k1 with
        | false => rfl
        | true =>
          have := str_lt_trans k k1 k hx hk
          rw [str_lt_irrefl] at this
          exact absurd this (by simp)
      simp only [hnlt, Bool.false_eq_true, ↓reduceIte]
      rw [ih (ascending_tail _ _ ha) hf]

theorem map_find_insert_other {α : Type} (m : List (Str × α)) (k k2 : Str) (v : α)
    (hne : k2 ≠ k) : map_find (map_insert m k v) k2 = map_find m k2 := by
  induction m with
  | nil => simp [map_insert, map_find, hne]
  | cons kv r ih =>
    obtain ⟨k1, v1⟩ := kv
    simp only [map_insert]
    split
    · rename_i he
      subst he
      simp [map_find, hne]
    · split
      · simp [map_find, hne]
      · simp only [map_find, ih]

theorem set_entries_self (n : Node) : n.set_entries n.entries = n := by
  cases n; rfl

theorem maps_ordered_find : ∀ (e : List (Str × Node)) (k : Str) (c : Node),
    maps_ordered_entries e = true → map_find e k = some c → maps_ordered c = true
  | [], _, _, _, hf => by simp [map_find] at hf
  | (k1, v1) :: r, k, c, hm, hf => by
    simp only [maps_ordered_entries, Bool.and_eq_true] at hm
    simp only [map_find] at hf
    split at hf
    · simp only [Option.some.injEq] at hf
      subst hf
      exact hm.1
    · exact maps_ordered_find r k c hm.2 hf

theorem maps_ordered_fields (n : Node) (hm : maps_ordered n = true) :
    ascending (n.entries.map Prod.fst) = true ∧ maps_ordered_entries n.entries = true := by
  cases n with
  | mk d a t l e ls =>
    simp only [maps_ordered, Bool.and_eq_true] at hm
    exact ⟨hm.1.1, hm.1.2⟩

end Node
/-! ## Claims C33 and C39 -/

theorem str_find_none_iff (p : Str) : str_find '/' p = none ↔ '/' ∉ p := by
  induction p with
  | nil => simp [str_find]
  | cons c cs ih =>
    simp only [str_find, List.mem_cons, not_or]
    split
    · rename_i hc
      simp [hc]
    · rename_i hc
      simp only [Option.map_eq_none', ih]
      constructor
      · intro h
        exact ⟨fun e => hc e.symm, h⟩
      · intro h
        exact h.2

theorem str_find_take (p : Str) (i : Nat) (h : str_find '/' p = some i) :
    '/' ∉ p.take i ∧ p = p.take i ++ '/' :: p.drop (i + 1) := by
  induction p generalizing i with
  | nil => simp [str_find] at h
  | cons c cs ih =>
    simp only [str_find] at h
    split at h
    · rename_i hc
      simp only [Option.some.injEq] at h
      subst h
      simp [hc]
    · rename_i hc
      simp only [Option.map_eq_some'] at h
      obtain ⟨j, hj, rfl⟩ := h
      obtain ⟨h1, h2⟩ := ih j hj
      refine ⟨?_, ?_⟩
      · simp only [List.take_succ_cons, List.mem_cons, not_or]
        exact ⟨fun e => hc e.symm, h1⟩
      · simp only [List.take_succ_cons, List.drop_succ_cons, List.cons_append, List.cons.injEq,
          true_and]
        exact h2

namespace Node

/-- C33: `split_path` decomposes a path at its first `'/'`. For every path
(of a length a `std::string` can have): without a `'/'`, `curr` is the path
and `next` is empty; otherwise, with `found` the index of the first `'/'`,
`curr` is the prefix before it and contains no `'/'`, `next` is the whole
remainder after it, the path is `curr + "/" + next`, and `next` is empty
exactly when the first `'/'` is the last character. This holds also when the
first `'/'` is at index 0, where `found - 1` wraps. -/
theorem C33_split_path_decomposes (path : Str) (hp : path.length < 2 ^ 63) :
    ('/' ∉ path → split_path path = (path, [])) ∧
    ('/' ∈ path →
      ∃ found, str_find '/' path = some found ∧
        (split_path path).1 = path.take found ∧
        '/' ∉ (split_path path).1 ∧
        (split_path path).2 = path.drop (found + 1) ∧
        path = (split_path path).1 ++ '/' :: (split_path path).2 ∧
        ((split_path path).2 = [] ↔ found + 1 = path.length)) ∧
    (∀ q, path = '/' :: q → split_path path = ([], q)) := by
  refine ⟨?_, ?_, ?_⟩
  · intro hn
    rw [split_path_eq path hp, split_no_slash path hn]
  · intro hm
    cases hf : str_find '/' path with
    | none => exact absurd hm ((str_find_none_iff path).1 hf)
    | some i =>
      obtain ⟨h1, h2, h3⟩ := str_find_some path i hf
      obtain ⟨h4, h5⟩ := str_find_take path i hf
      refine ⟨i, rfl, ?_, ?_, ?_, ?_, ?_⟩
      · rw [split_path_eq path hp, h2]
      · rw [split_path_eq path hp, ← h2]; exact h4
      · rw [split_path_eq path hp, h3]
      · rw [split_path_eq path hp, ← h2, ← h3]; exact h5
      · rw [split_path_eq path hp, ← h3]
        constructor
        · intro he
          have := congrArg List.length he
          simp only [List.length_drop, List.length_nil] at this
          omega
        · intro he
          apply List.drop_of_length_le
          omega
  · intro q hq
    subst hq
    rw [split_path_eq _ hp]
    simp [split_at_slash]

theorem C33_split_path_decomposes_witness :
    ('/' ∉ "/a/b".toList → split_path "/a/b".toList = ("/a/b".toList, [])) ∧
    ('/' ∈ "/a/b".toList →
      ∃ found, str_find '/' "/a/b".toList = some found ∧
        (split_path "/a/b".toList).1 = "/a/b".toList.take found ∧
        '/' ∉ (split_path "/a/b".toList).1 ∧
        (split_path "/a/b".toList).2 = "/a/b".toList.drop (found + 1) ∧
        "/a/b".toList = (split_path "/a/b".toList).1 ++ '/' :: (split_path "/a/b".toList).2 ∧
        ((split_path "/a/b".toList).2 = [] ↔ found + 1 = "/a/b".toList.length)) ∧
    (∀ q, "/a/b".toList = '/' :: q → split_path "/a/b".toList = ([], q)) :=
  C33_split_path_decomposes "/a/b".toList (by decide)

/-- C39: copying from an empty node is a no-op. For every node `a`, every
heap and every node `b` with `b.is_empty()`, `a.set(b)` and `a = b` leave `a`
(and the heap) exactly as they were, so `a` is not reset to EMPTY; and the
copy-constructed `Node(b)` is the default node, which is empty. -/
theorem C39_copy_from_empty (tb : DataType → Nat) (h : Heap) (a b : Node) (same : Bool)
    (hb : b.is_empty = true) :
    set_node tb h a b = some (h, a) ∧
    op_assign tb h a b same = some (h, a) ∧
    of_node tb h b = some (h, default) ∧
    (of_node tb h b).map (fun r => r.2.is_empty) = some true := by
  have hid : b.m_dtype.m_id = TypeId.EMPTY_T := by simpa [is_empty] using hb
  have h1 : ∀ x : Node, set_node tb h x b = some (h, x) := by
    intro x
    cases b with
    | mk d al t lk e ls =>
      simp only [m_dtype] at hid
      simp [set_node, hid]
  refine ⟨h1 a, ?_, h1 default, ?_⟩
  · unfold op_assign
    split
    · exact h1 a
    · rfl
  · unfold of_node
    rw [h1 default]
    rfl

theorem C39_copy_from_empty_witness :
    set_node DataType.content_bytes state_b7.1 state_b7.2 Empty
      = some (state_b7.1, state_b7.2) ∧
    op_assign DataType.content_bytes state_b7.1 state_b7.2 Empty false
      = some (state_b7.1, state_b7.2) ∧
    of_node DataType.content_bytes state_b7.1 Empty = some (state_b7.1, default) ∧
    (of_node DataType.content_bytes state_b7.1 Empty).map (fun r => r.2.is_empty)
      = some true :=
  C39_copy_from_empty DataType.content_bytes state_b7.1 state_b7.2 Empty false rfl

end Node
/-! ## Claim C37 -/

namespace Node

theorem m_locked_set_lock (n : Node) (v : Bool) : (set_lock n v).m_locked = v := by
  cases n with
  | mk d a t l e ls =>
    simp only [set_lock]
    split
    · rfl
    · split <;> rfl

mutual
theorem reachable_set_lock (v : Bool) :
    ∀ n : Node, reachable (set_lock n v) = (reachable n).map (fun d => set_lock d v)
  | mk d a t l e ls => by
    by_cases h1 : t.m_id = TypeId.NODE_T
    · simp only [set_lock, reachable, h1, ↓reduceIte, List.map_cons,
        reachable_entries_set_lock v e]
    · by_cases h2 : t.m_id = TypeId.LIST_T
      · simp only [set_lock, reachable, h2, reduceCtorEq, ↓reduceIte, List.map_cons,
          reachable_list_set_lock v ls]
      · simp only [set_lock, reachable, h1, h2, ↓reduceIte, List.map_cons, List.map_nil]
theorem reachable_entries_set_lock (v : Bool) :
    ∀ e : List (Str × Node),
    reachable_entries (set_lock_entries e v) = (reachable_entries e).map (fun d => set_lock d v)
  | [] => rfl
  | (_, c) :: r => by
    simp only [set_lock_entries, reachable_entries, List.map_append, reachable_set_lock v c,
      reachable_entries_set_lock v r]
theorem reachable_list_set_lock (v : Bool) :
    ∀ e : List Node,
    reachable_list (set_lock_list e v) = (reachable_list e).map (fun d => set_lock d v)
  | [] => rfl
  | c :: r => by
    simp only [set_lock_list, reachable_list, List.map_append, reachable_set_lock v c,
      reachable_list_set_lock v r]
end

theorem reachable_locked (n : Node) (v : Bool) :
    ∀ d ∈ reachable (set_lock n v), d.schema_locked = v := by
  intro d hd
  rw [reachable_set_lock, List.mem_map] at hd
  obtain ⟨x, _, rfl⟩ := hd
  exact m_locked_set_lock x v

/-- C37: schema locking. For every node `n`: after `n.lock_schema()`,
`schema_locked()` is true for `n` and for every descendant reachable through
the entries of OBJECT nodes and the children of LIST nodes (the reachable
nodes being those of `n`, each locked); `unlock_schema()` makes it false for
all of them. On a locked node `operator[](path)` is `get(path)`: no new tree
or heap results, and a missing path gives the `Empty` sentinel; on an unlocked
node `operator[](path)` is `fetch(path)`. -/
theorem C37_schema_locking (E : Node) (h : Heap) (n : Node) (path : Str)
    (hp : path.length < 2 ^ 63) :
    (∀ d ∈ reachable (lock_schema n), d.schema_locked = true) ∧
    reachable (lock_schema n) = (reachable n).map lock_schema ∧
    (∀ d ∈ reachable (unlock_schema (lock_schema n)), d.schema_locked = false) ∧
    (∀ d ∈ reachable (unlock_schema n), d.schema_locked = false) ∧
    (n.schema_locked = true →
      op_index E h n path = Sum.inr (get E n path) ∧
      (n.has_path path = false → get E n path = E)) ∧
    (n.schema_locked = false → op_index E h n path = Sum.inl (fetch h n path)) := by
  refine ⟨reachable_locked n true, reachable_set_lock true n, reachable_locked _ false,
    reachable_locked n false, ?_, ?_⟩
  · intro hl
    simp only [schema_locked] at hl
    refine ⟨by simp [op_index, hl], ?_⟩
    intro hh
    exact get_of_not_has_path_aux E (path.length + 1) n path (by omega) hp hh
  · intro hl
    simp only [schema_locked] at hl
    simp [op_index, hl]

theorem C37_schema_locking_witness :
    (∀ d ∈ reachable (lock_schema tree_abc7.2), d.schema_locked = true) ∧
    reachable (lock_schema tree_abc7.2) = (reachable tree_abc7.2).map lock_schema ∧
    (∀ d ∈ reachable (unlock_schema (lock_schema tree_abc7.2)), d.schema_locked = false) ∧
    (∀ d ∈ reachable (unlock_schema tree_abc7.2), d.schema_locked = false) ∧
    (tree_abc7.2.schema_locked = true →
      op_index Empty tree_abc7.1 tree_abc7.2 "a/x".toList
        = Sum.inr (get Empty tree_abc7.2 "a/x".toList) ∧
      (tree_abc7.2.has_path "a/x".toList = false →
        get Empty tree_abc7.2 "a/x".toList = Empty)) ∧
    (tree_abc7.2.schema_locked = false →
      op_index Empty tree_abc7.1 tree_abc7.2 "a/x".toList
        = Sum.inl (fetch tree_abc7.1 tree_abc7.2 "a/x".toList)) :=
  C37_schema_locking Empty tree_abc7.1 tree_abc7.2 "a/x".toList (by decide)

end Node
/-! ## Claims C34, C35 and C36 -/

namespace Node

theorem lookup_agrees_aux (E : Node) : ∀ (k : Nat) (n : Node) (p : Str), p.length < k →
    p.length < 2 ^ 63 →
    has_path n p = (lookup_spec n (path_components p)).isSome ∧
    get E n p = (lookup_spec n (path_components p)).getD E := by
  intro k
  induction k with
  | zero => intro n p hk; omega
  | succ k ih =>
    intro n p hk hp
    rw [has_path_step n p hp, get_step E n p hp, components_step p hp]
    by_cases hn : n.m_dtype.m_id = TypeId.NODE_T
    · simp only [hn, ne_eq, not_true_eq_false, ↓reduceIte]
      cases hf : map_find n.entries (split_at_slash p).1 with
      | none =>
        by_cases he : (split_at_slash p).2.isEmpty = true
        · simp only [he, ↓reduceIte, lookup_spec, hn, hf]
          exact ⟨rfl, rfl⟩
        · simp only [he, Bool.false_eq_true, ↓reduceIte, lookup_spec, hn, hf]
          exact ⟨rfl, rfl⟩
      | some c =>
        by_cases he : (split_at_slash p).2.isEmpty = true
        · simp only [he, ↓reduceIte, lookup_spec, hn, hf, Bool.not_true, Bool.false_eq_true]
          exact ⟨rfl, rfl⟩
        · have hlt := split_snd_lt p (by simpa using he)
          obtain ⟨i1, i2⟩ := ih c (split_at_slash p).2 (by omega) (by omega)
          simp only [he, Bool.false_eq_true, ↓reduceIte, lookup_spec, hn, hf, Bool.not_false]
          exact ⟨i1, i2⟩
    · simp only [ne_eq, hn, not_false_eq_true, ↓reduceIte]
      by_cases he : (split_at_slash p).2.isEmpty = true
      · simp only [he, ↓reduceIte, lookup_spec, hn]
        exact ⟨rfl, rfl⟩
      · simp only [he, Bool.false_eq_true, ↓reduceIte, lookup_spec, hn]
        exact ⟨rfl, rfl⟩

/-- C36: `has_path` agrees with the lookup done by `get`. For every node `n`
and path `p`, with `path_components p` the entry names `split_path` yields
(for `c_1/.../c_k` without empty components these are `c_1, ..., c_k`):
`has_path(p)` is true exactly when every step of the lookup finds an entry
under an OBJECT parent, starting with `n` itself; when it is true `get(p)`
returns the entry found, when it is false `get(p)` returns the `Empty`
sentinel `E`; `has_path` is false for every path on a node that is not an
OBJECT; and `has_path(p)` does not imply `!get(p).is_empty()`: after
`fetch("a")` on a new node, `has_path("a")` is true and `get("a")` is empty. -/
theorem C36_has_path_agrees_with_get (E n : Node) (p : Str) (hp : p.length < 2 ^ 63) :
    path_components p ≠ [] ∧
    (∀ cs, cs ≠ [] → (∀ c ∈ cs, c ≠ [] ∧ '/' ∉ c) → p = join_path cs →
      path_components p = cs) ∧
    n.has_path p = (lookup_spec n (path_components p)).isSome ∧
    (n.has_path p = true → lookup_spec n (path_components p) = some (get E n p)) ∧
    (n.has_path p = false → get E n p = E) ∧
    (n.m_dtype.m_id ≠ TypeId.NODE_T → n.has_path p = false) ∧
    ((fetch Heap.init default "a".toList).2.1.has_path "a".toList = true ∧
      (get Empty (fetch Heap.init default "a".toList).2.1 "a".toList).is_empty = true) := by
  obtain ⟨h1, h2⟩ := lookup_agrees_aux E (p.length + 1) n p (by omega) hp
  refine ⟨components_ne_nil p hp, ?_, h1, ?_, ?_, ?_, by decide, by decide⟩
  · intro cs hne hc he
    subst he
    exact components_join cs hne hc hp
  · intro hh
    rw [h1] at hh
    rw [h2]
    cases hl : lookup_spec n (path_components p) with
    | none => rw [hl] at hh; simp at hh
    | some c => rfl
  · intro hh
    exact get_of_not_has_path_aux E (p.length + 1) n p (by omega) hp hh
  · intro hn
    rw [has_path_step n p hp, if_pos hn]

theorem C36_has_path_agrees_with_get_witness :
    path_components "a/b/c".toList ≠ [] ∧
    (∀ cs, cs ≠ [] → (∀ c ∈ cs, c ≠ [] ∧ '/' ∉ c) → "a/b/c".toList = join_path cs →
      path_components "a/b/c".toList = cs) ∧
    tree_abc7.2.has_path "a/b/c".toList
      = (lookup_spec tree_abc7.2 (path_components "a/b/c".toList)).isSome ∧
    (tree_abc7.2.has_path "a/b/c".toList = true →
      lookup_spec tree_abc7.2 (path_components "a/b/c".toList)
        = some (get Empty tree_abc7.2 "a/b/c".toList)) ∧
    (tree_abc7.2.has_path "a/b/c".toList = false → get Empty tree_abc7.2 "a/b/c".toList = Empty) ∧
    (tree_abc7.2.m_dtype.m_id ≠ TypeId.NODE_T → tree_abc7.2.has_path "a/b/c".toList = false) ∧
    ((fetch Heap.init default "a".toList).2.1.has_path "a".toList = true ∧
      (get Empty (fetch Heap.init default "a".toList).2.1 "a".toList).is_empty = true) :=
  C36_has_path_agrees_with_get Empty tree_abc7.2 "a/b/c".toList (by decide)

theorem fetch_promote_object (h : Heap) (n : Node) (hn : n.m_dtype.m_id = TypeId.NODE_T) :
    fetch_promote h n = (h, n) := by
  unfold fetch_promote
  simp [hn]

theorem fetch_existing_aux (E : Node) : ∀ (k : Nat) (h : Heap) (n : Node) (p : Str),
    p.length < k → p.length < 2 ^ 63 → maps_ordered n = true → has_path n p = true →
    fetch h n p = (h, n, path_components p) ∧
    deref n (path_components p) = some (get E n p) := by
  intro k
  induction k with
  | zero => intro h n p hk; omega
  | succ k ih =>
    intro h n p hk hp hm hh
    rw [has_path_step n p hp] at hh
    by_cases hn : n.m_dtype.m_id = TypeId.NODE_T
    · simp only [hn, ne_eq, not_true_eq_false, ↓reduceIte] at hh
      obtain ⟨ha, hme⟩ := maps_ordered_fields n hm
      cases hf : map_find n.entries (split_at_slash p).1 with
      | none => rw [hf] at hh; simp at hh
      | some c =>
        rw [hf] at hh
        simp only at hh
        rw [fetch_step h n p hp, get_step E n p hp, components_step p hp,
          fetch_promote_object h n hn]
        simp only [hn, ne_eq, not_true_eq_false, ↓reduceIte, hf, Option.getD_some]
        by_cases he : (split_at_slash p).2.isEmpty = true
        · simp only [he, ↓reduceIte, deref, hf]
          rw [map_insert_find_id _ _ _ ha hf, set_entries_self]
          exact ⟨rfl, trivial⟩
        · have hlt := split_snd_lt p (by simpa using he)
          simp only [he, Bool.not_false, ↓reduceIte] at hh
          obtain ⟨i1, i2⟩ := ih h c _ (by omega) (by omega) (maps_ordered_find _ _ _ hme hf) hh
          simp only [he, Bool.false_eq_true, ↓reduceIte, deref, hf, i1, i2]
          rw [map_insert_find_id _ _ _ ha hf, set_entries_self]
          exact ⟨rfl, trivial⟩
    · simp [hn] at hh

/-- C34: `fetch` on an existing path changes nothing. For every node `n`
(whose maps are ordered, as every `std::map` is) and every path `p` with
`has_path(p)` true, `fetch(p)` leaves the heap and the whole tree unchanged,
and the reference it returns designates the node that `get(p)` returns. -/
theorem C34_fetch_existing_unchanged (E : Node) (h : Heap) (n : Node) (p : Str)
    (hp : p.length < 2 ^ 63) (hm : n.maps_ordered = true) (hh : n.has_path p = true) :
    (fetch h n p).1 = h ∧
    (fetch h n p).2.1 = n ∧
    deref (fetch h n p).2.1 (fetch h n p).2.2 = some (get E n p) := by
  obtain ⟨h1, h2⟩ := fetch_existing_aux E (p.length + 1) h n p (by omega) hp hm hh
  rw [h1]
  exact ⟨rfl, rfl, h2⟩

theorem C34_fetch_existing_unchanged_witness :
    (fetch tree_abc7.1 tree_abc7.2 "a/b/c".toList).1 = tree_abc7.1 ∧
    (fetch tree_abc7.1 tree_abc7.2 "a/b/c".toList).2.1 = tree_abc7.2 ∧
    deref (fetch tree_abc7.1 tree_abc7.2 "a/b/c".toList).2.1
        (fetch tree_abc7.1 tree_abc7.2 "a/b/c".toList).2.2
      = some (get Empty tree_abc7.2 "a/b/c".toList) :=
  C34_fetch_existing_unchanged Empty tree_abc7.1 tree_abc7.2 "a/b/c".toList (by decide)
    (by decide) (by decide)

theorem fetch_keeps_path_aux : ∀ (k : Nat) (h : Heap) (n : Node) (p q : Str),
    q.length < k → q.length < 2 ^ 63 → p.length < 2 ^ 63 → has_path n q = true →
    has_path (fetch h n p).2.1 q = true := by
  intro k
  induction k with
  | zero => intro h n p q hk; omega
  | succ k ih =>
    intro h n p q hk hq hp hh
    rw [has_path_step n q hq] at hh
    by_cases hn : n.m_dtype.m_id = TypeId.NODE_T
    · simp only [hn, ne_eq, not_true_eq_false, ↓reduceIte] at hh
      cases hf : map_find n.entries (split_at_slash q).1 with
      | none => rw [hf] at hh; simp at hh
      | some c =>
        rw [hf] at hh
        simp only at hh
        rw [fetch_step h n p hp, fetch_promote_object h n hn]
        simp only
        by_cases hk2 : (split_at_slash q).1 = (split_at_slash p).1
        · rw [← hk2, hf]
          simp only [Option.getD_some]
          by_cases he : (split_at_slash p).2.isEmpty = true
          · simp only [he, ↓reduceIte]
            rw [has_path_step _ q hq]
            simp only [m_dtype_set_entries, hn, ne_eq, not_true_eq_false, ↓reduceIte,
              entries_set_entries, map_find_insert_self]
            exact hh
          · simp only [he, Bool.false_eq_true, ↓reduceIte]
            rw [has_path_step _ q hq]
            simp only [m_dtype_set_entries, hn, ne_eq, not_true_eq_false, ↓reduceIte,
              entries_set_entries, map_find_insert_self]
            by_cases heq : (split_at_slash q).2.isEmpty = true
            · simp [heq]
            · have hlt := split_snd_lt q (by simpa using heq)
              have hpl := split_snd_length p
              simp only [heq, Bool.not_false, ↓reduceIte] at hh ⊢
              exact ih h c _ _ (by omega) (by omega) (by omega) hh
        · have hfind : ∀ v, map_find (map_insert n.entries (split_at_slash p).1 v)
              (split_at_slash q).1 = some c := by
            intro v
            rw [map_find_insert_other _ _ _ _ hk2, hf]
          by_cases he : (split_at_slash p).2.isEmpty = true
          · simp only [he, ↓reduceIte]
            rw [has_path_step _ q hq]
            simp only [m_dtype_set_entries, hn, ne_eq, not_true_eq_false, ↓reduceIte,
              entries_set_entries, hfind]
            exact hh
          · simp only [he, Bool.false_eq_true, ↓reduceIte]
            rw [has_path_step _ q hq]
            simp only [m_dtype_set_entries, hn, ne_eq, not_true_eq_false, ↓reduceIte,
              entries_set_entries, hfind]
            exact hh
    · simp [hn] at hh

/-- C35: `fetch` never removes a path. For every node `n`, every heap and all
paths `p` and `q`, if `has_path(q)` is true before `fetch(p)`, it is true on
the node after it. -/
theorem C35_fetch_keeps_paths (h : Heap) (n : Node) (p q : Str)
    (hp : p.length < 2 ^ 63) (hq : q.length < 2 ^ 63) (hh : n.has_path q = true) :
    (fetch h n p).2.1.has_path q = true :=
  fetch_keeps_path_aux (q.length + 1) h n p q (by omega) hq hp hh

theorem C35_fetch_keeps_paths_witness :
    (fetch tree_abc7.1 tree_abc7.2 "a/b/c/d".toList).2.1.has_path "a/b/c".toList = true :=
  C35_fetch_keeps_paths tree_abc7.1 tree_abc7.2 "a/b/c/d".toList "a/b/c".toList (by decide)
    (by decide) (by decide)

end Node
/-! ## Claim C31 -/

namespace Node

theorem deref_default (cs : List Str) (hne : cs ≠ []) : deref default cs = none := by
  cases cs with
  | nil => exact absurd rfl hne
  | cons c r => rfl

theorem join_take_length : ∀ (cs : List Str) (k : Nat),
    (join_path (cs.take k)).length ≤ (join_path cs).length
  | [], k => by simp [join_path]
  | [c], 0 => by simp [join_path]
  | [c], k + 1 => by simp [join_path]
  | c :: c2 :: r, 0 => by simp [join_path]
  | c :: c2 :: r, 1 => by simp [join_path]
  | c :: c2 :: r, k + 2 => by
    have ih := join_take_length (c2 :: r) (k + 1)
    simp only [List.take_succ_cons] at ih ⊢
    rw [join_path_cons, join_path_cons]
    simp only [List.length_append, List.length_cons]
    omega

theorem fetch_join_aux : ∀ (cs : List Str) (h : Heap) (n : Node), cs ≠ [] →
    (∀ c ∈ cs, c ≠ [] ∧ '/' ∉ c) → (join_path cs).length < 2 ^ 63 →
    (fetch h n (join_path cs)).2.2 = cs ∧
    (fetch h n (join_path cs)).2.1.m_dtype.m_id = TypeId.NODE_T ∧
    (∀ k, k < cs.length → ∃ m,
      lookup_spec (fetch h n (join_path cs)).2.1 (cs.take k) = some m ∧
      m.m_dtype.m_id = TypeId.NODE_T) ∧
    (∃ t, lookup_spec (fetch h n (join_path cs)).2.1 cs = some t ∧
      deref (fetch h n (join_path cs)).2.1 cs = some t ∧
      (deref n cs = none → t = default))
  | [], _, _, hne, _, _ => absurd rfl hne
  | [c], h, n, _, hc, hp => by
    have h1 := (hc c (List.mem_singleton.2 rfl)).2
    simp only [join_path] at hp ⊢
    rw [fetch_step h n c hp, split_no_slash c h1]
    simp only [List.isEmpty_nil, ↓reduceIte, m_dtype_set_entries, fetch_promote_id,
      List.length_singleton, Nat.lt_one_iff, true_and]
    refine ⟨?_, ?_⟩
    · intro k hk
      subst hk
      exact ⟨_, rfl, by simp [fetch_promote_id]⟩
    · refine ⟨(map_find (fetch_promote h n).2.entries c).getD default, ?_, ?_, ?_⟩
      · simp only [lookup_spec, m_dtype_set_entries, fetch_promote_id, ↓reduceIte,
          entries_set_entries, map_find_insert_self]
      · simp only [deref, entries_set_entries, map_find_insert_self]
      · intro hd
        rw [fetch_promote_entries]
        cases hf : map_find n.entries c with
        | none => rfl
        | some x => simp [deref, hf] at hd
  | c :: c2 :: r, h, n, _, hc, hp => by
    have h1 := (hc c (List.mem_cons_self _ _)).2
    have h2 := (hc c2 (List.mem_cons_of_mem _ (List.mem_cons_self _ _))).1
    have hlt := join_path_length_tail c c2 r
    have hne := join_path_ne_nil c2 r h2
    have ih := fetch_join_aux (c2 :: r) (fetch_promote h n).1
      ((map_find (fetch_promote h n).2.entries c).getD default) (by simp)
      (fun x hx => hc x (List.mem_cons_of_mem _ hx)) (by omega)
    obtain ⟨i1, _, i3, t, i4, i5, i6⟩ := ih
    rw [fetch_step h n _ hp, join_path_cons, split_append_slash c _ h1]
    simp only [List.isEmpty_eq_true, hne, ↓reduceIte, m_dtype_set_entries, fetch_promote_id,
      i1, true_and]
    refine ⟨?_, ?_⟩
    · intro k hk
      cases k with
      | zero => exact ⟨_, rfl, by simp [fetch_promote_id]⟩
      | succ k =>
        obtain ⟨m, hm1, hm2⟩ := i3 k (by simpa using hk)
        refine ⟨m, ?_, hm2⟩
        simp only [List.take_succ_cons, lookup_spec, m_dtype_set_entries, fetch_promote_id,
          ↓reduceIte, entries_set_entries, map_find_insert_self]
        exact hm1
    · refine ⟨t, ?_, ?_, ?_⟩
      · simp only [lookup_spec, m_dtype_set_entries, fetch_promote_id, ↓reduceIte,
          entries_set_entries, map_find_insert_self]
        exact i4
      · simp only [deref, entries_set_entries, map_find_insert_self]
        exact i5
      · intro hd
        apply i6
        rw [fetch_promote_entries]
        cases hf : map_find n.entries c with
        | none => exact deref_default _ (by simp)
        | some x =>
          simp only [deref, hf] at hd
          exact hd

/-- C31 (the part that holds): `fetch` creates OBJECT nodes along the path.
For every node `n` and path `c_1/.../c_n` (at least one component, none empty
or containing a slash), after `fetch` the receiver has tag OBJECT, the node
that `get` finds at every proper prefix `c_1/.../c_k` has tag OBJECT (each
step of the lookup finding it under OBJECT parents), the returned reference
designates the node that `get` finds at the whole path, and if the stored
entries of `n` did not lead to a node for `c_1, ..., c_n`, that terminal node
is a default node: EMPTY, with a null data pointer. -/
theorem C31_fetch_creates_objects (E : Node) (h : Heap) (n : Node) (cs : List Str)
    (hne : cs ≠ []) (hc : ∀ c ∈ cs, c ≠ [] ∧ '/' ∉ c) (hp : (join_path cs).length < 2 ^ 63) :
    (fetch h n (join_path cs)).2.1.m_dtype.m_id = TypeId.NODE_T ∧
    (∀ k, 0 < k → k < cs.length →
      (get E (fetch h n (join_path cs)).2.1 (join_path (cs.take k))).m_dtype.m_id
        = TypeId.NODE_T ∧
      lookup_spec (fetch h n (join_path cs)).2.1 (cs.take k)
        = some (get E (fetch h n (join_path cs)).2.1 (join_path (cs.take k)))) ∧
    (fetch h n (join_path cs)).2.2 = cs ∧
    deref (fetch h n (join_path cs)).2.1 (fetch h n (join_path cs)).2.2
      = some (get E (fetch h n (join_path cs)).2.1 (join_path cs)) ∧
    (deref n cs = none →
      get E (fetch h n (join_path cs)).2.1 (join_path cs) = default ∧
      (get E (fetch h n (join_path cs)).2.1 (join_path cs)).is_empty = true ∧
      (get E (fetch h n (join_path cs)).2.1 (join_path cs)).m_data = NULL) := by
  obtain ⟨a1, a2, a3, t, a4, a5, a6⟩ := fetch_join_aux cs h n hne hc hp
  have hget : get E (fetch h n (join_path cs)).2.1 (join_path cs) = t := by
    rw [(lookup_agrees_aux E ((join_path cs).length + 1) _ _ (by omega) hp).2,
      components_join cs hne hc hp, a4]
    rfl
  refine ⟨a2, ?_, a1, ?_, ?_⟩
  · intro k hk0 hk
    obtain ⟨m, hm1, hm2⟩ := a3 k hk
    have hlen := join_take_length cs k
    have htk : cs.take k ≠ [] := by
      cases cs with
      | nil => exact absurd rfl hne
      | cons c r =>
        cases k with
        | zero => omega
        | succ k => simp
    have hg : get E (fetch h n (join_path cs)).2.1 (join_path (cs.take k)) = m := by
      rw [(lookup_agrees_aux E ((join_path (cs.take k)).length + 1) _ _ (by omega)
          (by omega)).2,
        components_join (cs.take k) htk (fun x hx => hc x (List.mem_of_mem_take hx)) (by omega),
        hm1]
      rfl
    rw [hg]
    exact ⟨hm2, hm1⟩
  · rw [a1, hget]
    exact a5
  · intro hd
    rw [hget, a6 hd]
    exact ⟨rfl, rfl, rfl⟩

theorem C31_fetch_creates_objects_witness :
    (fetch tree_a7.1 tree_a7.2 (join_path ["a".toList, "b".toList, "c".toList])).2.1.m_dtype.m_id
      = TypeId.NODE_T ∧
    (∀ k, 0 < k → k < ["a".toList, "b".toList, "c".toList].length →
      (get Empty (fetch tree_a7.1 tree_a7.2
          (join_path ["a".toList, "b".toList, "c".toList])).2.1
        (join_path (["a".toList, "b".toList, "c".toList].take k))).m_dtype.m_id
        = TypeId.NODE_T ∧
      lookup_spec (fetch tree_a7.1 tree_a7.2
          (join_path ["a".toList, "b".toList, "c".toList])).2.1
        (["a".toList, "b".toList, "c".toList].take k)
        = some (get Empty (fetch tree_a7.1 tree_a7.2
            (join_path ["a".toList, "b".toList, "c".toList])).2.1
          (join_path (["a".toList, "b".toList, "c".toList].take k)))) ∧
    (fetch tree_a7.1 tree_a7.2 (join_path ["a".toList, "b".toList, "c".toList])).2.2
      = ["a".toList, "b".toList, "c".toList] ∧
    deref (fetch tree_a7.1 tree_a7.2 (join_path ["a".toList, "b".toList, "c".toList])).2.1
        (fetch tree_a7.1 tree_a7.2 (join_path ["a".toList, "b".toList, "c".toList])).2.2
      = some (get Empty (fetch tree_a7.1 tree_a7.2
          (join_path ["a".toList, "b".toList, "c".toList])).2.1
        (join_path ["a".toList, "b".toList, "c".toList])) ∧
    (deref tree_a7.2 ["a".toList, "b".toList, "c".toList] = none →
      get Empty (fetch tree_a7.1 tree_a7.2
          (join_path ["a".toList, "b".toList, "c".toList])).2.1
        (join_path ["a".toList, "b".toList, "c".toList]) = default ∧
      (get Empty (fetch tree_a7.1 tree_a7.2
          (join_path ["a".toList, "b".toList, "c".toList])).2.1
        (join_path ["a".toList, "b".toList, "c".toList])).is_empty = true ∧
      (get Empty (fetch tree_a7.1 tree_a7.2
          (join_path ["a".toList, "b".toList, "c".toList])).2.1
        (join_path ["a".toList, "b".toList, "c".toList])).m_data = NULL) :=
  C31_fetch_creates_objects Empty tree_a7.1 tree_a7.2 ["a".toList, "b".toList, "c".toList]
    (by decide) (by decide) (by decide)

/-- C31 (evaluation of the code): after `Node N; N.fetch("a").set(7u);
N.set(5u);` the node is a `UINT32` leaf, `has_path("a")` is false and
`get("a")` is the `Empty` sentinel, so `a` does not exist; yet `fetch("a")`
returns a node that is not EMPTY: the old child, a `UINT32` leaf with a
non-null data pointer holding 7, which `cleanup()` left in `m_entries`. -/
theorem C31_stale_terminal_counterexample :
    state_a7_set5.2.m_dtype.m_id = TypeId.UINT32_T ∧
    state_a7_set5.2.has_path "a".toList = false ∧
    get Empty state_a7_set5.2 "a".toList = Empty ∧
    (fetch state_a7_set5.1 state_a7_set5.2 "a".toList).2.2 = ["a".toList] ∧
    (deref (fetch state_a7_set5.1 state_a7_set5.2 "a".toList).2.1
        (fetch state_a7_set5.1 state_a7_set5.2 "a".toList).2.2).map
      (fun t => (t.is_empty, t.m_dtype.m_id, decide (t.m_data = NULL),
        load_uint32 (fetch state_a7_set5.1 state_a7_set5.2 "a".toList).1 t.m_data))
      = some (false, TypeId.UINT32_T, false, 7) := by
  refine ⟨by decide, by decide, rfl, by decide, by decide⟩

end Node
/-! ## Claim C38 -/

namespace Node

theorem replay_append (h : Heap) : ∀ (a b : List (Nat × Ptr × Nat)) (data : List Nat),
    replay h (a ++ b) data =
      match replay h a data with
      | none => none
      | some data1 => replay h b data1
  | [], b, data => rfl
  | (off, src, n) :: r, b, data => by
    simp only [List.cons_append, replay]
    by_cases hc : n ≠ 0 ∧ src = NULL
    · simp only [if_pos hc]
    · simp only [if_neg hc]
      cases buf_write data off (h.read src n) with
      | none => rfl
      | some d1 => exact replay_append h r b d1

mutual
theorem serialize_to_replay (tb : DataType → Nat) (h : Heap) :
    ∀ (n : Node) (data : List Nat) (off : Nat),
    serialize_to tb h n data off = replay h (serialize_writes tb n off) data
  | mk d a t l e ls, data, off => by
    by_cases h1 : t.m_id = TypeId.NODE_T
    · simp only [serialize_to, serialize_writes, h1, ↓reduceIte]
      exact serialize_entries_replay tb h e data off
    · by_cases h2 : t.m_id = TypeId.LIST_T
      · simp only [serialize_to, serialize_writes, h2, reduceCtorEq, ↓reduceIte]
        exact serialize_list_replay tb h ls data off
      · simp only [serialize_to, serialize_writes, h1, h2, ↓reduceIte, replay]
        by_cases hc : total_bytes tb (mk d a t l e ls) ≠ 0 ∧ d = NULL
        · simp only [if_pos hc]
        · simp only [if_neg hc]
          cases buf_write data off (h.read d (total_bytes tb (mk d a t l e ls))) <;> rfl
theorem serialize_entries_replay (tb : DataType → Nat) (h : Heap) :
    ∀ (e : List (Str × Node)) (data : List Nat) (off : Nat),
    serialize_entries tb h e data off = replay h (serialize_writes_entries tb e off) data
  | [], data, off => rfl
  | (_, c) :: r, data, off => by
    simp only [serialize_entries, serialize_writes_entries, replay_append,
      serialize_to_replay tb h c data off]
    cases replay h (serialize_writes tb c off) data with
    | none => rfl
    | some d1 => exact serialize_entries_replay tb h r d1 _
theorem serialize_list_replay (tb : DataType → Nat) (h : Heap) :
    ∀ (e : List Node) (data : List Nat) (off : Nat),
    serialize_list tb h e data off = replay h (serialize_writes_list tb e off) data
  | [], data, off => rfl
  | c :: r, data, off => by
    simp only [serialize_list, serialize_writes_list, replay_append,
      serialize_to_replay tb h c data off]
    cases replay h (serialize_writes tb c off) data with
    | none => rfl
    | some d1 => exact serialize_list_replay tb h r d1 _
end

theorem tiles_append : ∀ (a b : List (Nat × Ptr × Nat)) (s m e : Nat),
    tiles s a m = true → tiles m b e = true → tiles s (a ++ b) e = true
  | [], b, s, m, e, h1, h2 => by
    simp only [tiles, decide_eq_true_eq] at h1
    subst h1
    exact h2
  | (off, src, n) :: r, b, s, m, e, h1, h2 => by
    simp only [tiles, Bool.and_eq_true, decide_eq_true_eq, List.cons_append] at h1 ⊢
    exact ⟨h1.1, tiles_append r b _ m e h1.2 h2⟩

mutual
theorem writes_tiles (tb : DataType → Nat) :
    ∀ (n : Node) (off : Nat),
    tiles off (serialize_writes tb n off) (off + total_bytes tb n) = true
  | mk d a t l e ls, off => by
    by_cases h1 : t.m_id = TypeId.NODE_T
    · simp only [serialize_writes, total_bytes, h1, reduceCtorEq, false_or, or_self, or_false,
        ↓reduceIte]
      exact writes_entries_tiles tb e off
    · by_cases h2 : t.m_id = TypeId.LIST_T
      · simp only [serialize_writes, total_bytes, h2, reduceCtorEq, false_or, or_self, or_false,
          ↓reduceIte]
        exact writes_list_tiles tb ls off
      · simp only [serialize_writes, h1, h2, ↓reduceIte, tiles, decide_True, Bool.and_self]
theorem writes_entries_tiles (tb : DataType → Nat) :
    ∀ (e : List (Str × Node)) (off : Nat),
    tiles off (serialize_writes_entries tb e off) (off + total_bytes_entries tb e) = true
  | [], off => by simp [serialize_writes_entries, total_bytes_entries, tiles]
  | (_, c) :: r, off => by
    simp only [serialize_writes_entries, total_bytes_entries]
    apply tiles_append _ _ off (off + total_bytes tb c) _ (writes_tiles tb c off)
    rw [← Nat.add_assoc]
    exact writes_entries_tiles tb r _
theorem writes_list_tiles (tb : DataType → Nat) :
    ∀ (e : List Node) (off : Nat),
    tiles off (serialize_writes_list tb e off) (off + total_bytes_list tb e) = true
  | [], off => by simp [serialize_writes_list, total_bytes_list, tiles]
  | c :: r, off => by
    simp only [serialize_writes_list, total_bytes_list]
    apply tiles_append _ _ off (off + total_bytes tb c) _ (writes_tiles tb c off)
    rw [← Nat.add_assoc]
    exact writes_list_tiles tb r _
end

theorem total_bytes_entries_append (tb : DataType → Nat) :
    ∀ (a b : List (Str × Node)),
    total_bytes_entries tb (a ++ b) = total_bytes_entries tb a + total_bytes_entries tb b
  | [], b => by simp [total_bytes_entries]
  | (k, c) :: r, b => by
    have ih := total_bytes_entries_append tb r b
    rw [List.cons_append]
    simp only [total_bytes_entries, ih]
    omega

theorem total_bytes_list_append (tb : DataType → Nat) :
    ∀ (a b : List Node),
    total_bytes_list tb (a ++ b) = total_bytes_list tb a + total_bytes_list tb b
  | [], b => by simp [total_bytes_list]
  | c :: r, b => by
    have ih := total_bytes_list_append tb r b
    rw [List.cons_append]
    simp only [total_bytes_list, ih]
    omega

end Node
/-! ## The nodes built by the schema walker -/

namespace Node

theorem ite_some_prop {c : Prop} [Decidable c] (P : DataType → Prop) (x : DataType)
    (y : Option DataType) (df : DataType) (hx : P x) (hy : y = some df → P df)
    (hd : (if c then some x else y) = some df) : P df := by
  by_cases hc : c
  · rw [if_pos hc] at hd
    injection hd with hd
    rw [← hd]; exact hx
  · rw [if_neg hc] at hd
    exact hy hd

theorem default_dtype_tag (T : Str) (df : DataType)
    (hd : DataType.default_dtype T = some df) : df.m_id ≠ TypeId.EMPTY_T := by
  unfold DataType.default_dtype at hd
  refine ite_some_prop (fun d => d.m_id ≠ TypeId.EMPTY_T) _ _ df (by decide) ?_ hd
  intro hd
  refine ite_some_prop (fun d => d.m_id ≠ TypeId.EMPTY_T) _ _ df (by decide) ?_ hd
  intro hd
  refine ite_some_prop (fun d => d.m_id ≠ TypeId.EMPTY_T) _ _ df (by decide) ?_ hd
  intro hd
  refine ite_some_prop (fun d => d.m_id ≠ TypeId.EMPTY_T) _ _ df (by decide) ?_ hd
  intro hd
  refine ite_some_prop (fun d => d.m_id ≠ TypeId.EMPTY_T) _ _ df (by decide) ?_ hd
  intro hd
  refine ite_some_prop (fun d => d.m_id ≠ TypeId.EMPTY_T) _ _ df (by decide) ?_ hd
  intro hd
  refine ite_some_prop (fun d => d.m_id ≠ TypeId.EMPTY_T) _ _ df (by decide) ?_ hd
  intro hd
  refine ite_some_prop (fun d => d.m_id ≠ TypeId.EMPTY_T) _ _ df (by decide) ?_ hd
  intro hd
  refine ite_some_prop (fun d => d.m_id ≠ TypeId.EMPTY_T) _ _ df (by decide) ?_ hd
  intro hd
  refine ite_some_prop (fun d => d.m_id ≠ TypeId.EMPTY_T) _ _ df (by decide) ?_ hd
  intro hd
  refine ite_some_prop (fun d => d.m_id ≠ TypeId.EMPTY_T) _ _ df (by decide) ?_ hd
  intro hd
  refine ite_some_prop (fun d => d.m_id ≠ TypeId.EMPTY_T) _ _ df (by decide) ?_ hd
  intro hd
  refine ite_some_prop (fun d => d.m_id ≠ TypeId.EMPTY_T) _ _ df (by decide) ?_ hd
  intro hd
  exact absurd hd (fun h => Option.noConfusion h)

theorem borrowed_fields (n : Node) (hb : borrowed n = true) :
    n.m_alloced = false ∧ n.m_locked = false ∧ n.m_dtype.m_id ≠ TypeId.EMPTY_T ∧
    borrowed_entries n.entries = true ∧ borrowed_list n.list = true := by
  cases n with
  | mk d a t l e ls =>
    simp only [borrowed, Bool.and_eq_true, Bool.not_eq_true', decide_eq_true_eq] at hb
    obtain ⟨⟨⟨⟨ha, hl⟩, ht⟩, he⟩, hls⟩ := hb
    exact ⟨ha, hl, ht, he, hls⟩

theorem borrowed_mk (d : Ptr) (t : DataType) (e : List (Str × Node)) (ls : List Node)
    (ht : t.m_id ≠ TypeId.EMPTY_T) (he : borrowed_entries e = true)
    (hls : borrowed_list ls = true) : borrowed (mk d false t false e ls) = true := by
  simp only [borrowed, Bool.not_false, Bool.and_self, Bool.true_and, Bool.and_eq_true,
    decide_eq_true_eq]
  exact ⟨⟨ht, he⟩, hls⟩

mutual
theorem destroy_borrowed : ∀ (n : Node) (h : Heap), borrowed n = true → destroy h n = h
  | mk d a t l e ls, h, hb => by
    obtain ⟨ha, _, _, he, hls⟩ := borrowed_fields _ hb
    simp only [m_alloced, entries, list] at ha he hls
    subst ha
    simp only [destroy, cleanup, Bool.false_and, Bool.false_eq_true, ↓reduceIte]
    rw [destroy_entries_borrowed e h he, destroy_list_borrowed ls h hls]
theorem destroy_entries_borrowed : ∀ (e : List (Str × Node)) (h : Heap),
    borrowed_entries e = true → destroy_entries h e = h
  | [], h, _ => rfl
  | (_, c) :: r, h, hb => by
    simp only [borrowed_entries, Bool.and_eq_true] at hb
    simp only [destroy_entries]
    rw [destroy_borrowed c h hb.1, destroy_entries_borrowed r h hb.2]
theorem destroy_list_borrowed : ∀ (e : List Node) (h : Heap),
    borrowed_list e = true → destroy_list h e = h
  | [], h, _ => rfl
  | c :: r, h, hb => by
    simp only [borrowed_list, Bool.and_eq_true] at hb
    simp only [destroy_list]
    rw [destroy_borrowed c h hb.1, destroy_list_borrowed r h hb.2]
end

mutual
/-- The copy the walker makes of a node that borrows its data, into a node
without children: it returns, the copy is the node itself and the heap is the
same. -/
theorem copy_borrowed (tb : DataType → Nat) :
    ∀ (b : Node) (h : Heap) (a : Node), borrowed b = true → a.m_locked = false →
    a.entries = [] → a.list = [] → set_node tb h a b = some (h, b)
  | mk d al t lk e ls, h, a, hb, hl, hae, hal => by
    obtain ⟨ha, hlk, ht, he, hls⟩ := borrowed_fields _ hb
    simp only [m_alloced, m_locked, m_dtype, entries, list] at ha hlk ht he hls
    subst ha; subst hlk
    rw [set_node_eq tb h a d false t false e ls ht]
    simp only [Bool.false_eq_true, ↓reduceIte, Option.some_bind, hae, hal,
      copy_entries_borrowed tb e h he, List.isEmpty_nil, copy_list_borrowed tb ls h hls, hl]
    rfl
theorem copy_entries_borrowed (tb : DataType → Nat) :
    ∀ (e : List (Str × Node)) (h : Heap), borrowed_entries e = true →
    copy_entries tb h e = some (h, e)
  | [], h, _ => rfl
  | (k, c) :: r, h, hb => by
    simp only [borrowed_entries, Bool.and_eq_true] at hb
    simp only [copy_entries, copy_borrowed tb c h default hb.1 rfl rfl rfl,
      copy_entries_borrowed tb r h hb.2]
theorem copy_list_borrowed (tb : DataType → Nat) :
    ∀ (e : List Node) (h : Heap), borrowed_list e = true → copy_list tb h e = some (h, e)
  | [], h, _ => rfl
  | c :: r, h, hb => by
    simp only [borrowed_list, Bool.and_eq_true] at hb
    simp only [copy_list, copy_borrowed tb c h default hb.1 rfl rfl rfl,
      copy_list_borrowed tb r h hb.2]
end

end Node
namespace Node

theorem leaves_at_fields (data : Ptr) (n : Node) (hl : leaves_at data n = true) :
    leaves_at_entries data n.entries = true ∧ leaves_at_list data n.list = true := by
  cases n with
  | mk d a t l e ls =>
    simp only [leaves_at, Bool.and_eq_true] at hl
    exact ⟨hl.1.2, hl.2⟩

theorem borrowed_find : ∀ (e : List (Str × Node)) (k : Str) (c : Node),
    borrowed_entries e = true → map_find e k = some c → borrowed c = true
  | [], _, _, _, hf => by simp [map_find] at hf
  | (k1, v1) :: r, k, c, hm, hf => by
    simp only [borrowed_entries, Bool.and_eq_true] at hm
    simp only [map_find] at hf
    split at hf
    · simp only [Option.some.injEq] at hf
      subst hf
      exact hm.1
    · exact borrowed_find r k c hm.2 hf

theorem borrowed_insert : ∀ (e : List (Str × Node)) (k : Str) (c : Node),
    borrowed_entries e = true → borrowed c = true → borrowed_entries (map_insert e k c) = true
  | [], k, c, _, hc => by simp [map_insert, borrowed_entries, hc]
  | (k1, v1) :: r, k, c, hm, hc => by
    simp only [borrowed_entries, Bool.and_eq_true] at hm
    simp only [map_insert]
    split
    · simp only [borrowed_entries, Bool.and_eq_true]
      exact ⟨hc, hm.2⟩
    · split
      · simp only [borrowed_entries, Bool.and_eq_true]
        exact ⟨hc, hm.1, hm.2⟩
      · simp only [borrowed_entries, Bool.and_eq_true]
        exact ⟨hm.1, borrowed_insert r k c hm.2 hc⟩

theorem borrowed_snoc : ∀ (l : List Node) (c : Node),
    borrowed_list l = true → borrowed c = true → borrowed_list (l ++ [c]) = true
  | [], c, _, hc => by simp [borrowed_list, hc]
  | x :: r, c, hm, hc => by
    simp only [borrowed_list, Bool.and_eq_true] at hm
    rw [List.cons_append]
    simp only [borrowed_list, Bool.and_eq_true]
    exact ⟨hm.1, borrowed_snoc r c hm.2 hc⟩

theorem leaves_at_insert (data : Ptr) : ∀ (e : List (Str × Node)) (k : Str) (c : Node),
    leaves_at_entries data e = true → leaves_at data c = true →
    leaves_at_entries data (map_insert e k c) = true
  | [], k, c, _, hc => by simp [map_insert, leaves_at_entries, hc]
  | (k1, v1) :: r, k, c, hm, hc => by
    simp only [leaves_at_entries, Bool.and_eq_true] at hm
    simp only [map_insert]
    split
    · simp only [leaves_at_entries, Bool.and_eq_true]
      exact ⟨hc, hm.2⟩
    · split
      · simp only [leaves_at_entries, Bool.and_eq_true]
        exact ⟨hc, hm.1, hm.2⟩
      · simp only [leaves_at_entries, Bool.and_eq_true]
        exact ⟨hm.1, leaves_at_insert data r k c hm.2 hc⟩

theorem leaves_at_snoc (data : Ptr) : ∀ (l : List Node) (c : Node),
    leaves_at_list data l = true → leaves_at data c = true →
    leaves_at_list data (l ++ [c]) = true
  | [], c, _, hc => by simp [leaves_at_list, hc]
  | x :: r, c, hm, hc => by
    simp only [leaves_at_list, Bool.and_eq_true] at hm
    rw [List.cons_append]
    simp only [leaves_at_list, Bool.and_eq_true]
    exact ⟨hm.1, leaves_at_snoc data r c hm.2 hc⟩

theorem borrowed_retag (this : Node) (t : DataType) (d : Ptr) (ht : t.m_id ≠ TypeId.EMPTY_T)
    (hb : borrowed this = true) : borrowed ((this.set_dtype t).set_data d) = true := by
  obtain ⟨ha, hl, _, he, hls⟩ := borrowed_fields _ hb
  cases this with
  | mk d0 a t0 l e ls =>
    simp only [m_alloced, m_locked, entries, list] at ha hl he hls
    subst ha; subst hl
    exact borrowed_mk d t e ls ht he hls

theorem leaves_at_retag (data : Ptr) (this : Node) (t : DataType)
    (hl : leaves_at data this = true) :
    leaves_at data ((this.set_dtype t).set_data data) = true := by
  obtain ⟨he, hls⟩ := leaves_at_fields data _ hl
  cases this with
  | mk d0 a t0 l e ls =>
    simp only [entries, list] at he hls
    simp [set_dtype, set_data, leaves_at, he, hls]

theorem borrowed_set_list_tag (this : Node) (hb : borrowed this = true) :
    borrowed (this.set_dtype (DataType.of_id TypeId.LIST_T)) = true := by
  obtain ⟨ha, hl, _, he, hls⟩ := borrowed_fields _ hb
  cases this with
  | mk d0 a t0 l e ls =>
    simp only [m_alloced, m_locked, entries, list] at ha hl he hls
    subst ha; subst hl
    exact borrowed_mk d0 _ e ls (by decide) he hls

theorem leaves_at_set_list_tag (data : Ptr) (this : Node) (hl : leaves_at data this = true) :
    leaves_at data (this.set_dtype (DataType.of_id TypeId.LIST_T)) = true := by
  obtain ⟨he, hls⟩ := leaves_at_fields data _ hl
  cases this with
  | mk d0 a t0 l e ls =>
    simp only [entries, list] at he hls
    simp [set_dtype, leaves_at, he, hls, DataType.is_leaf, DataType.of_id]

theorem borrowed_set_entries (this : Node) (e2 : List (Str × Node))
    (hb : borrowed this = true) (he2 : borrowed_entries e2 = true) :
    borrowed (this.set_entries e2) = true := by
  obtain ⟨ha, hl, ht, _, hls⟩ := borrowed_fields _ hb
  cases this with
  | mk d0 a t0 l e ls =>
    simp only [m_alloced, m_locked, m_dtype, list] at ha hl ht hls
    subst ha; subst hl
    exact borrowed_mk d0 t0 e2 ls ht he2 hls

theorem borrowed_set_list (this : Node) (l2 : List Node)
    (hb : borrowed this = true) (hl2 : borrowed_list l2 = true) :
    borrowed (this.set_list l2) = true := by
  obtain ⟨ha, hl, ht, he, _⟩ := borrowed_fields _ hb
  cases this with
  | mk d0 a t0 l e ls =>
    simp only [m_alloced, m_locked, m_dtype, entries] at ha hl ht he
    subst ha; subst hl
    exact borrowed_mk d0 t0 e l2 ht he hl2

theorem leaves_at_set_entries (data : Ptr) (this : Node) (e2 : List (Str × Node))
    (hl : leaves_at data this = true) (he2 : leaves_at_entries data e2 = true) :
    leaves_at data (this.set_entries e2) = true := by
  cases this with
  | mk d0 a t0 l e ls =>
    simp only [leaves_at, Bool.and_eq_true] at hl
    simp only [set_entries, leaves_at, Bool.and_eq_true]
    exact ⟨⟨hl.1.1, he2⟩, hl.2⟩

theorem leaves_at_set_list (data : Ptr) (this : Node) (l2 : List Node)
    (hl : leaves_at data this = true) (hl2 : leaves_at_list data l2 = true) :
    leaves_at data (this.set_list l2) = true := by
  cases this with
  | mk d0 a t0 l e ls =>
    simp only [leaves_at, Bool.and_eq_true] at hl
    simp only [set_list, leaves_at, Bool.and_eq_true]
    exact ⟨⟨hl.1.1, hl.1.2⟩, hl2⟩

/-- One round of the member loop on nodes that borrow their data, for a name
that is not yet a key: the walked node is stored as it is, under the name read
as a C string, and the heap is the same. -/
theorem walk_members_cons (tb : DataType → Nat) (data : Ptr) (name : Str) (v : JValue)
    (r : List (Str × JValue)) (h : Heap) (this : Node) (c : Nat) (node : Node)
    (hf : map_find this.entries (c_str name) = none)
    (hw : walk_schema_value tb data v h (of_dtype DataType.node_dtype false) c = some (h, node))
    (hn : borrowed node = true) :
    walk_schema_members tb data ((name, v) :: r) h this c =
      walk_schema_members tb data r h
        (this.set_entries (map_insert this.entries (c_str name) node))
        (c + total_bytes tb node) := by
  have hset : set_node tb h ((map_find this.entries (c_str name)).getD default) node
      = some (h, node) := by
    rw [hf]
    exact copy_borrowed tb node h default hn rfl rfl rfl
  simp only [walk_schema_members, hw, hset, destroy_borrowed node h hn]

/-- One round of the element loop on nodes that borrow their data. -/
theorem walk_elems_cons (tb : DataType → Nat) (data : Ptr) (v : JValue)
    (r : List JValue) (h : Heap) (this : Node) (c : Nat) (node : Node)
    (hw : walk_schema_value tb data v h (of_dtype DataType.node_dtype false) c = some (h, node))
    (hn : borrowed node = true) :
    walk_schema_elems tb data (v :: r) h this c =
      walk_schema_elems tb data r h (this.set_list (this.list ++ [node]))
        (c + total_bytes tb node) := by
  have hset : set_node tb h default node = some (h, node) :=
    copy_borrowed tb node h default hn rfl rfl rfl
  simp only [walk_schema_elems, hw, hset, destroy_borrowed node h hn]

theorem fresh_borrowed : borrowed (of_dtype DataType.node_dtype false) = true := by decide

theorem fresh_leaves_at (data : Ptr) :
    leaves_at data (of_dtype DataType.node_dtype false) = true := rfl

theorem fresh_entries : (of_dtype DataType.node_dtype false).entries = [] := rfl

/-- The names still to come are not keys after a round that stores another
name. -/
theorem fresh_after_insert (this : Node) (k : Str) (node : Node) (names : List Str)
    (hnd : (k :: names).Nodup) (hf : ∀ x ∈ k :: names, map_find this.entries x = none) :
    ∀ x ∈ names,
      map_find (this.set_entries (map_insert this.entries k node)).entries x = none := by
  intro x hx
  rw [List.nodup_cons] at hnd
  have hne : x ≠ k := fun e => hnd.1 (e ▸ hx)
  rw [entries_set_entries, map_find_insert_other _ _ _ _ hne]
  exact hf x (List.mem_cons_of_mem _ hx)

mutual
theorem walk_value_inv (tb : DataType → Nat) (data : Ptr) :
    ∀ (v : JValue) (h : Heap) (this : Node) (c : Nat),
    borrowed this = true → leaves_at data this = true → this.entries = [] →
    schema_ok v = true →
    ∃ n, walk_schema_value tb data v h this c = some (h, n) ∧ borrowed n = true ∧
      leaves_at data n = true
  | JValue.object members, h, this, c, hb, hl, he, hok => by
    cases hd : find_member members "dtype".toList with
    | none =>
      simp only [schema_ok, hd, Bool.and_eq_true, decide_eq_true_eq] at hok
      simp only [walk_schema_value, hd]
      refine walk_members_inv tb data members h this c hb hl ?_ hok.1 hok.2
      intro x _
      rw [he]
      rfl
    | some dv =>
      simp only [schema_ok, hd] at hok
      split at hok
      · rename_i T len hlen
        simp only [Bool.and_eq_true, decide_eq_true_eq] at hok
        cases hdf : DataType.default_dtype (c_str T) with
        | none => simp [hdf] at hok
        | some df =>
          refine ⟨(this.set_dtype (walked_dtype df len c)).set_data data, ?_, ?_, ?_⟩
          · rw [walk_leaf_object tb data members h this c T len hd hlen, if_pos hok.1, hdf]
          · exact borrowed_retag this _ data (default_dtype_tag _ df hdf) hb
          · exact leaves_at_retag data this _ hl
      · simp at hok
  | JValue.array elems, h, this, c, hb, hl, _, hok => by
    simp only [schema_ok] at hok
    simp only [walk_schema_value]
    exact walk_elems_inv tb data elems h _ c (borrowed_set_list_tag this hb)
      (leaves_at_set_list_tag data this hl) hok
  | JValue.string T, h, this, c, hb, hl, _, hok => by
    simp only [schema_ok] at hok
    cases hdf : DataType.default_dtype (c_str T) with
    | none => simp [hdf] at hok
    | some df =>
      refine ⟨(this.set_dtype (walked_dtype df 1 c)).set_data data, ?_, ?_, ?_⟩
      · rw [walk_leaf_string, hdf]
      · exact borrowed_retag this _ data (default_dtype_tag _ df hdf) hb
      · exact leaves_at_retag data this _ hl
  | JValue.null, h, this, c, hb, hl, _, _ => ⟨this, by simp [walk_schema_value], hb, hl⟩
  | JValue.bool _, h, this, c, hb, hl, _, _ => ⟨this, by simp [walk_schema_value], hb, hl⟩
  | JValue.number _, h, this, c, hb, hl, _, _ => ⟨this, by simp [walk_schema_value], hb, hl⟩
theorem walk_members_inv (tb : DataType → Nat) (data : Ptr) :
    ∀ (ms : List (Str × JValue)) (h : Heap) (this : Node) (c : Nat),
    borrowed this = true → leaves_at data this = true →
    (∀ x ∈ ms.map (fun m => c_str m.1), map_find this.entries x = none) →
    (ms.map (fun m => c_str m.1)).Nodup → schema_ok_members ms = true →
    ∃ n, walk_schema_members tb data ms h this c = some (h, n) ∧ borrowed n = true ∧
      leaves_at data n = true
  | [], h, this, c, hb, hl, _, _, _ => ⟨this, by simp [walk_schema_members], hb, hl⟩
  | (name, v) :: r, h, this, c, hb, hl, hf, hnd, hok => by
    simp only [schema_ok_members, Bool.and_eq_true] at hok
    obtain ⟨node, hw, hnb, hnl⟩ := walk_value_inv tb data v h
      (of_dtype DataType.node_dtype false) c fresh_borrowed (fresh_leaves_at data)
      fresh_entries hok.1
    rw [walk_members_cons tb data name v r h this c node
      (hf _ (List.mem_cons_self _ _)) hw hnb]
    exact walk_members_inv tb data r h _ _
      (borrowed_set_entries this _ hb
        (borrowed_insert _ _ _ (borrowed_fields _ hb).2.2.2.1 hnb))
      (leaves_at_set_entries data this _ hl
        (leaves_at_insert data _ _ _ (leaves_at_fields data _ hl).1 hnl))
      (fresh_after_insert this (c_str name) node _ hnd hf)
      (List.nodup_cons.1 hnd).2 hok.2
theorem walk_elems_inv (tb : DataType → Nat) (data : Ptr) :
    ∀ (es : List JValue) (h : Heap) (this : Node) (c : Nat),
    borrowed this = true → leaves_at data this = true → schema_ok_elems es = true →
    ∃ n, walk_schema_elems tb data es h this c = some (h, n) ∧ borrowed n = true ∧
      leaves_at data n = true
  | [], h, this, c, hb, hl, _ => ⟨this, by simp [walk_schema_elems], hb, hl⟩
  | v :: r, h, this, c, hb, hl, hok => by
    simp only [schema_ok_elems, Bool.and_eq_true] at hok
    obtain ⟨node, hw, hnb, hnl⟩ := walk_value_inv tb data v h
      (of_dtype DataType.node_dtype false) c fresh_borrowed (fresh_leaves_at data)
      fresh_entries hok.1
    rw [walk_elems_cons tb data v r h this c node hw hnb]
    exact walk_elems_inv tb data r h _ _
      (borrowed_set_list this _ hb (borrowed_snoc _ _ (borrowed_fields _ hb).2.2.2.2 hnb))
      (leaves_at_set_list data this _ hl
        (leaves_at_snoc data _ _ (leaves_at_fields data _ hl).2 hnl)) hok.2
end

end Node
/-! ## Claims C19 and C32 -/

namespace Node

theorem ascending_pairwise : ∀ l : List Str, ascending l = true →
    l.Pairwise (fun a b => str_lt a b = true)
  | [], _ => List.Pairwise.nil
  | k :: ks, h =>
    List.Pairwise.cons (ascending_head_lt k ks h) (ascending_pairwise ks (ascending_tail k ks h))

theorem pairwise_ascending : ∀ l : List Str, l.Pairwise (fun a b => str_lt a b = true) →
    ascending l = true
  | [], _ => rfl
  | [_], _ => rfl
  | a :: b :: r, h => by
    rw [List.pairwise_cons] at h
    simp only [ascending, Bool.and_eq_true]
    exact ⟨h.1 b (List.mem_cons_self _ _), pairwise_ascending (b :: r) h.2⟩

theorem ascending_nodup (l : List Str) (h : ascending l = true) : l.Nodup := by
  refine List.Pairwise.imp ?_ (ascending_pairwise l h)
  intro a b hab he
  subst he
  rw [str_lt_irrefl] at hab
  exact absurd hab (by simp)

theorem map_insert_ascending {α : Type} (m : List (Str × α)) (k : Str) (v : α)
    (h : ascending (m.map Prod.fst) = true) :
    ascending ((map_insert m k v).map Prod.fst) = true :=
  pairwise_ascending _ (map_insert_sorted m k v (ascending_pairwise _ h))

@[simp] theorem list_set_list (n : Node) (l : List Node) : (n.set_list l).list = l := by
  cases n; rfl

@[simp] theorem m_dtype_set_list (n : Node) (l : List Node) :
    (n.set_list l).m_dtype = n.m_dtype := by
  cases n; rfl

@[simp] theorem m_dtype_set_dtype (n : Node) (t : DataType) : (n.set_dtype t).m_dtype = t := by
  cases n; rfl

@[simp] theorem list_set_dtype (n : Node) (t : DataType) : (n.set_dtype t).list = n.list := by
  cases n; rfl

theorem keys_set_entries (n : Node) (e : List (Str × Node)) :
    (n.set_entries e).keys = e.map Prod.fst := by
  cases n; rfl

/-- The member loop on a node that borrows its data, for names that differ as
C strings and are not yet keys: what it stores. `kids` are the nodes walked,
in document order. -/
theorem walk_members_shape (tb : DataType → Nat) (data : Ptr) :
    ∀ (ms : List (Str × JValue)) (h : Heap) (this : Node) (c : Nat),
    borrowed this = true → leaves_at data this = true →
    (∀ x ∈ ms.map (fun m => c_str m.1), map_find this.entries x = none) →
    (ms.map (fun m => c_str m.1)).Nodup → schema_ok_members ms = true →
    ∃ (n : Node) (kids : List Node), walk_schema_members tb data ms h this c = some (h, n) ∧
      leaves_at data n = true ∧ n.m_dtype = this.m_dtype ∧
      (∀ x, x ∈ n.keys ↔ (x ∈ ms.map (fun m => c_str m.1) ∨ x ∈ this.keys)) ∧
      (ascending this.keys = true → ascending n.keys = true) ∧
      (∀ x, x ∉ ms.map (fun m => c_str m.1) →
        map_find n.entries x = map_find this.entries x) ∧
      kids.length = ms.length ∧
      (∀ i name v, ms.get? i = some (name, v) → ∃ child, kids.get? i = some child ∧
        map_find n.entries (c_str name) = some child ∧
        walk_schema_value tb data v h (of_dtype DataType.node_dtype false)
          (c + ((kids.take i).map (total_bytes tb)).sum) = some (h, child))
  | [], h, this, c, _, hl, _, _, _ => by
    refine ⟨this, [], by simp [walk_schema_members], hl, rfl, ?_, fun x => x, fun _ _ => rfl,
      rfl, ?_⟩
    · intro x
      simp
    · intro i name v hmem
      simp at hmem
  | (name, v) :: r, h, this, c, hb, hl, hf, hnd, hok => by
    simp only [schema_ok_members, Bool.and_eq_true] at hok
    obtain ⟨node, hw, hnb, hnl⟩ := walk_value_inv tb data v h
      (of_dtype DataType.node_dtype false) c fresh_borrowed (fresh_leaves_at data)
      fresh_entries hok.1
    have hb1 := borrowed_set_entries this (map_insert this.entries (c_str name) node) hb
      (borrowed_insert _ _ _ (borrowed_fields _ hb).2.2.2.1 hnb)
    have hl1 := leaves_at_set_entries data this (map_insert this.entries (c_str name) node) hl
      (leaves_at_insert data _ _ _ (leaves_at_fields data _ hl).1 hnl)
    have hnd2 := List.nodup_cons.1 hnd
    obtain ⟨n, kids, i1, i2, i3, i4, i5, i6, i7, i8⟩ := walk_members_shape tb data r h
      (this.set_entries (map_insert this.entries (c_str name) node)) (c + total_bytes tb node)
      hb1 hl1 (fresh_after_insert this (c_str name) node _ hnd hf) hnd2.2 hok.2
    rw [walk_members_cons tb data name v r h this c node
      (hf _ (List.mem_cons_self _ _)) hw hnb]
    refine ⟨n, node :: kids, i1, i2, ?_, ?_, ?_, ?_, ?_, ?_⟩
    · rw [i3, m_dtype_set_entries]
    · intro x
      rw [i4 x, keys_set_entries, map_insert_keys_mem]
      simp only [List.map_cons, List.mem_cons, keys]
      tauto
    · intro ha
      apply i5
      rw [keys_set_entries]
      exact map_insert_ascending _ _ _ ha
    · intro x hx
      simp only [List.map_cons, List.mem_cons, not_or] at hx
      rw [i6 x hx.2, entries_set_entries, map_find_insert_other _ _ _ _ hx.1]
    · simp only [List.length_cons, i7]
    · intro i name2 v2 hi
      cases i with
      | zero =>
        simp only [List.get?_cons_zero, Option.some.injEq, Prod.mk.injEq] at hi
        obtain ⟨e1, e2⟩ := hi
        subst e1; subst e2
        refine ⟨node, rfl, ?_, ?_⟩
        · rw [i6 _ hnd2.1, entries_set_entries, map_find_insert_self]
        · simpa using hw
      | succ i =>
        simp only [List.get?_cons_succ] at hi
        obtain ⟨child, j1, j2, j3⟩ := i8 i name2 v2 hi
        refine ⟨child, by simpa using j1, j2, ?_⟩
        simp only [List.take_succ_cons, List.map_cons, List.sum_cons]
        rw [← Nat.add_assoc]
        exact j3

/-- The element loop on a node that borrows its data: what it appends. -/
theorem walk_elems_shape (tb : DataType → Nat) (data : Ptr) :
    ∀ (es : List JValue) (h : Heap) (this : Node) (c : Nat),
    borrowed this = true → leaves_at data this = true → schema_ok_elems es = true →
    ∃ n, walk_schema_elems tb data es h this c = some (h, n) ∧
      leaves_at data n = true ∧ n.m_dtype = this.m_dtype ∧
      ∃ kids, n.list = this.list ++ kids ∧ kids.length = es.length ∧
        ∀ i v, es.get? i = some v → ∃ child, kids.get? i = some child ∧
          walk_schema_value tb data v h (of_dtype DataType.node_dtype false)
            (c + ((kids.take i).map (total_bytes tb)).sum) = some (h, child)
  | [], h, this, c, _, hl, _ => by
    refine ⟨this, by simp [walk_schema_elems], hl, rfl, [], by simp, rfl, ?_⟩
    intro i v hi
    simp at hi
  | v :: r, h, this, c, hb, hl, hok => by
    simp only [schema_ok_elems, Bool.and_eq_true] at hok
    obtain ⟨node, hw, hnb, hnl⟩ := walk_value_inv tb data v h
      (of_dtype DataType.node_dtype false) c fresh_borrowed (fresh_leaves_at data)
      fresh_entries hok.1
    have hb1 := borrowed_set_list this (this.list ++ [node]) hb
      (borrowed_snoc _ _ (borrowed_fields _ hb).2.2.2.2 hnb)
    have hl1 := leaves_at_set_list data this (this.list ++ [node]) hl
      (leaves_at_snoc data _ _ (leaves_at_fields data _ hl).2 hnl)
    obtain ⟨n, i1, i2, i3, kids, i4, i5, i6⟩ := walk_elems_shape tb data r h
      (this.set_list (this.list ++ [node])) (c + total_bytes tb node) hb1 hl1 hok.2
    rw [walk_elems_cons tb data v r h this c node hw hnb]
    refine ⟨n, i1, i2, ?_, node :: kids, ?_, ?_, ?_⟩
    · rw [i3, m_dtype_set_list]
    · rw [i4, list_set_list, List.append_assoc]
      rfl
    · simp [i5]
    · intro i v2 hi
      cases i with
      | zero =>
        simp only [List.get?_cons_zero, Option.some.injEq] at hi
        subst hi
        exact ⟨node, rfl, by simpa using hw⟩
      | succ i =>
        simp only [List.get?_cons_succ] at hi
        obtain ⟨child, j1, j3⟩ := i6 i v2 hi
        refine ⟨child, by simpa using j1, ?_⟩
        simp only [List.take_succ_cons, List.map_cons, List.sum_cons]
        rw [← Nat.add_assoc]
        exact j3

/-- C19 (as stated, refuted): the walker reads `"length"` with `GetInt()` into
an `int`, so a leaf does not get every requested length as count: for
`{"dtype": "uint32", "length": 2147483648}` no leaf with count `2 ^ 31`
results. -/
theorem C19_length_beyond_int_counterexample :
    (walk_schema_value DataType.content_bytes 100 (leaf_schema "uint32".toList (2 ^ 31))
        Heap.init default 0).map (fun r => r.2.m_dtype.m_num_ele) ≠ some (2 ^ 31) ∧
    (of_schema DataType.content_bytes Heap.init 100
        (JValue.object [("a".toList, leaf_schema "uint32".toList (2 ^ 31))])).map
      (fun r => (get Empty r.2 "a".toList).m_dtype.m_num_ele) ≠ some (2 ^ 31) := by
  decide

/-- C19 (amended): the offset assignment rule of `walk_schema`, on schemas on which the
JSON accessors of the walker are defined and whose member names differ as C
strings. The receiver is a node just constructed with tag OBJECT, as every
receiver of the walker is. Walking an object without `"dtype"` with starting
cursor `c` returns a node in which the `k`-th member, in document order, is
stored under its name as the node `kids[k]` that walking its value with
cursor `c` plus the sum of `total_bytes()` of `kids[0..k-1]` returns; walking
an array returns a node whose `k`-th list child is the node that walking the
`k`-th element with cursor `c` plus the sum of `total_bytes()` of the list
children before it returns. A leaf `{"dtype": T, "length": n}` (or the string
`T`, with `n = 1`) walked with cursor `c`, for a known type name and a length
an `int` holds, gets offset `c`, stride and element bytes both the natural
width of `T`, and count `n`. -/
theorem C19_offset_assignment (tb : DataType → Nat) (data d0 : Ptr) (h : Heap) (c : Nat)
    (elems : List JValue) (members : List (Str × JValue))
    (he : schema_ok_elems elems = true) (hm : schema_ok_members members = true)
    (hd : find_member members "dtype".toList = none)
    (hn : (members.map (fun m => c_str m.1)).Nodup) :
    (∃ (r : Node) (kids : List Node), walk_schema_value tb data (JValue.object members) h
          (mk d0 false DataType.node_dtype false [] []) c = some (h, r) ∧
      kids.length = members.length ∧
      ∀ k name v, members.get? k = some (name, v) → ∃ child, kids.get? k = some child ∧
        map_find r.entries (c_str name) = some child ∧
        walk_schema_value tb data v h (of_dtype DataType.node_dtype false)
          (c + ((kids.take k).map (total_bytes tb)).sum) = some (h, child)) ∧
    (∃ r, walk_schema_value tb data (JValue.array elems) h
          (mk d0 false DataType.node_dtype false [] []) c = some (h, r) ∧
      r.list.length = elems.length ∧
      ∀ k v, elems.get? k = some v → ∃ child, r.list.get? k = some child ∧
        walk_schema_value tb data v h (of_dtype DataType.node_dtype false)
          (c + ((r.list.take k).map (total_bytes tb)).sum) = some (h, child)) ∧
    (∀ (this : Node) (ck : Nat) (T : Str) (n : Nat) (df : DataType), n < 2 ^ 31 →
      DataType.default_dtype (c_str T) = some df →
      walk_schema_value tb data (leaf_schema T n) h this ck
        = some (h, (this.set_dtype (walked_dtype df n ck)).set_data data) ∧
      walk_schema_value tb data (JValue.string T) h this ck
        = some (h, (this.set_dtype (walked_dtype df 1 ck)).set_data data) ∧
      (walked_dtype df n ck).m_offset = ck ∧
      (walked_dtype df n ck).m_num_ele = n ∧
      (walked_dtype df n ck).m_stride = DataType.default_bytes df.m_id ∧
      (walked_dtype df n ck).m_ele_bytes = DataType.default_bytes df.m_id) := by
  have hb0 : borrowed (mk d0 false DataType.node_dtype false [] []) = true :=
    borrowed_mk d0 _ [] [] (by decide) rfl rfl
  have hl0 : leaves_at data (mk d0 false DataType.node_dtype false [] []) = true := rfl
  refine ⟨?_, ?_, ?_⟩
  · obtain ⟨n, kids, i1, _, _, _, _, _, i7, i8⟩ := walk_members_shape tb data members h
      (mk d0 false DataType.node_dtype false [] []) c hb0 hl0 (fun _ _ => rfl) hn hm
    refine ⟨n, kids, ?_, i7, i8⟩
    simp only [walk_schema_value, hd]
    exact i1
  · obtain ⟨n, i1, _, _, kids, i4, i5, i6⟩ := walk_elems_shape tb data elems h
      ((mk d0 false DataType.node_dtype false [] []).set_dtype (DataType.of_id TypeId.LIST_T)) c
      (borrowed_set_list_tag _ hb0) (leaves_at_set_list_tag data _ hl0) he
    have hk : n.list = kids := by
      rw [i4]
      rfl
    refine ⟨n, ?_, ?_, ?_⟩
    · simp only [walk_schema_value]
      exact i1
    · rw [hk, i5]
    · rw [hk]
      exact i6
  · intro this ck T n df hlt hdf
    have hw := (default_dtype_width (c_str T) df hdf).1
    refine ⟨?_, ?_, rfl, rfl, hw, hw⟩
    · rw [walk_leaf_schema, if_pos hlt, hdf]
    · rw [walk_leaf_string, hdf]

theorem C19_offset_assignment_witness :
    (of_schema DataType.content_bytes heap_12 100 (JValue.object members_abc)).map
      (fun r => r.2.entries.map (fun kc => (kc.1, kc.2.m_dtype.m_offset)))
      = some [("a".toList, 0), ("b".toList, 4), ("c".toList, 28)] ∧
    (∃ (r : Node) (kids : List Node), walk_schema_value DataType.content_bytes 100 (JValue.object members_abc)
          heap_12 (mk 100 false DataType.node_dtype false [] []) 0 = some (heap_12, r) ∧
      kids.length = members_abc.length ∧
      ∀ k name v, members_abc.get? k = some (name, v) → ∃ child,
        kids.get? k = some child ∧
        map_find r.entries (c_str name) = some child ∧
        walk_schema_value DataType.content_bytes 100 v heap_12
          (of_dtype DataType.node_dtype false)
          (0 + ((kids.take k).map (total_bytes DataType.content_bytes)).sum)
          = some (heap_12, child)) ∧
    (∃ r, walk_schema_value DataType.content_bytes 100 (JValue.array elems_ab_f) heap_12
          (mk 100 false DataType.node_dtype false [] []) 0 = some (heap_12, r) ∧
      r.list.length = elems_ab_f.length ∧
      ∀ k v, elems_ab_f.get? k = some v → ∃ child, r.list.get? k = some child ∧
        walk_schema_value DataType.content_bytes 100 v heap_12
          (of_dtype DataType.node_dtype false)
          (0 + ((r.list.take k).map (total_bytes DataType.content_bytes)).sum)
          = some (heap_12, child)) :=
  have t := C19_offset_assignment DataType.content_bytes 100 100 heap_12 0 elems_ab_f
    members_abc (by decide) (by decide) rfl (by decide)
  ⟨by decide, t.1, t.2.1⟩

/-- C32 (as stated, refuted): the walker builds each key with
`std::string(const char*)`, which stops at the first NUL. The object with the
two distinct member names `"a"` and `"a\0b"` is walked into an OBJECT with
the one key `"a"`. -/
theorem C32_nul_names_counterexample :
    (members_nul.map Prod.fst).Nodup ∧ members_nul.length = 2 ∧
    (find_member members_nul "dtype".toList).isNone = true ∧
    (of_schema DataType.content_bytes heap_12 100 (JValue.object members_nul)).map
      (fun r => r.2.keys) = some ["a".toList] := by
  decide

/-- C32 (amended): the schema walker mirrors the JSON shape. The receiver is a
node just constructed with tag OBJECT, as every receiver of the walker is: the
local node of a loop round (`d0` null) or the root of `Node(data, schema)`
(`d0` the data pointer). On schemas on which the JSON accessors of the walker
are defined (`"length"` is a number an `int` holds, type names are known, the
member names of every object differ as C strings), and for every heap, data
pointer and cursor: walking a JSON array of `n` values returns a LIST node
with exactly `n` children, child `i` being the node that walking `array[i]`
into a new node returns (with the cursor of that round); walking an object
without `"dtype"` whose member names differ as C strings returns an OBJECT
whose keys are exactly those names cut at their first NUL, once each, every
name mapped to the node that walking its value returns; the heap is the same
after the walk; and in every result every leaf has the caller's data pointer
as its base. -/
theorem C32_walker_mirrors_shape (tb : DataType → Nat) (data d0 : Ptr) (h : Heap) (c : Nat)
    (elems : List JValue) (members : List (Str × JValue))
    (he : schema_ok_elems elems = true) (hm : schema_ok_members members = true)
    (hd : find_member members "dtype".toList = none)
    (hn : (members.map (fun m => c_str m.1)).Nodup) :
    (∃ n, walk_schema_value tb data (JValue.array elems) h
          (mk d0 false DataType.node_dtype false [] []) c = some (h, n) ∧
      n.m_dtype.m_id = TypeId.LIST_T ∧ n.list.length = elems.length ∧
      (∀ i v, elems.get? i = some v → ∃ ci child, n.list.get? i = some child ∧
        walk_schema_value tb data v h (of_dtype DataType.node_dtype false) ci
          = some (h, child)) ∧
      leaves_at data n = true) ∧
    (∃ n, walk_schema_value tb data (JValue.object members) h
          (mk d0 false DataType.node_dtype false [] []) c = some (h, n) ∧
      n.m_dtype.m_id = TypeId.NODE_T ∧
      n.keys.Nodup ∧ (∀ x, x ∈ n.keys ↔ x ∈ members.map (fun m => c_str m.1)) ∧
      n.keys.length = members.length ∧
      (∀ name v, (name, v) ∈ members → ∃ ci child,
        map_find n.entries (c_str name) = some child ∧
        walk_schema_value tb data v h (of_dtype DataType.node_dtype false) ci
          = some (h, child)) ∧
      leaves_at data n = true) ∧
    (∀ v, schema_ok v = true →
      ∃ n, walk_schema_value tb data v h (mk d0 false DataType.node_dtype false [] []) c
          = some (h, n) ∧ leaves_at data n = true) ∧
    of_dtype DataType.node_dtype false = mk NULL false DataType.node_dtype false [] [] ∧
    (∀ v, of_schema tb h data v
      = walk_schema_value tb data v h (mk data false DataType.node_dtype false [] []) 0) := by
  have hb0 : borrowed (mk d0 false DataType.node_dtype false [] []) = true :=
    borrowed_mk d0 _ [] [] (by decide) rfl rfl
  have hl0 : leaves_at data (mk d0 false DataType.node_dtype false [] []) = true := rfl
  refine ⟨?_, ?_, ?_, rfl, fun _ => rfl⟩
  · obtain ⟨n, i1, i2, i3, kids, i4, i5, i6⟩ := walk_elems_shape tb data elems h
      ((mk d0 false DataType.node_dtype false [] []).set_dtype (DataType.of_id TypeId.LIST_T)) c
      (borrowed_set_list_tag _ hb0) (leaves_at_set_list_tag data _ hl0) he
    have hk : n.list = kids := by
      rw [i4]
      rfl
    refine ⟨n, ?_, ?_, ?_, ?_, i2⟩
    · simp only [walk_schema_value]
      exact i1
    · rw [i3]
      rfl
    · rw [hk, i5]
    · rw [hk]
      intro i v hi
      obtain ⟨child, j1, j2⟩ := i6 i v hi
      exact ⟨_, child, j1, j2⟩
  · obtain ⟨n, kids, i1, i2, i3, i4, i5, _, _, i8⟩ := walk_members_shape tb data members h
      (mk d0 false DataType.node_dtype false [] []) c hb0 hl0 (fun _ _ => rfl) hn hm
    have hmem : ∀ x, x ∈ n.keys ↔ x ∈ members.map (fun m => c_str m.1) := by
      intro x
      rw [i4 x]
      have : (mk d0 false DataType.node_dtype false [] []).keys = [] := rfl
      rw [this]
      simp only [List.not_mem_nil, or_false]
    have hnd : n.keys.Nodup := ascending_nodup _ (i5 rfl)
    refine ⟨n, ?_, ?_, hnd, hmem, ?_, ?_, i2⟩
    · simp only [walk_schema_value, hd]
      exact i1
    · rw [i3]
      rfl
    · have hperm := (List.perm_ext_iff_of_nodup hnd hn).2 hmem
      rw [hperm.length_eq, List.length_map]
    · intro name v hmem2
      obtain ⟨i, hi⟩ := List.get?_of_mem hmem2
      obtain ⟨child, _, j2, j3⟩ := i8 i name v hi
      exact ⟨_, child, j2, j3⟩
  · intro v hv
    obtain ⟨n, i1, _, i3⟩ := walk_value_inv tb data v h
      (mk d0 false DataType.node_dtype false [] []) c hb0 hl0 rfl hv
    exact ⟨n, i1, i3⟩

theorem C32_walker_mirrors_shape_witness :
    (∃ n, walk_schema_value DataType.content_bytes 100 (JValue.array elems_ab_f) heap_12
          (mk 100 false DataType.node_dtype false [] []) 0 = some (heap_12, n) ∧
      n.m_dtype.m_id = TypeId.LIST_T ∧ n.list.length = elems_ab_f.length ∧
      (∀ i v, elems_ab_f.get? i = some v → ∃ ci child, n.list.get? i = some child ∧
        walk_schema_value DataType.content_bytes 100 v heap_12
          (of_dtype DataType.node_dtype false) ci = some (heap_12, child)) ∧
      leaves_at 100 n = true) ∧
    (∃ n, walk_schema_value DataType.content_bytes 100 (JValue.object members_ab) heap_12
          (mk 100 false DataType.node_dtype false [] []) 0 = some (heap_12, n) ∧
      n.m_dtype.m_id = TypeId.NODE_T ∧
      n.keys.Nodup ∧ (∀ x, x ∈ n.keys ↔ x ∈ members_ab.map (fun m => c_str m.1)) ∧
      n.keys.length = members_ab.length ∧
      (∀ name v, (name, v) ∈ members_ab → ∃ ci child,
        map_find n.entries (c_str name) = some child ∧
        walk_schema_value DataType.content_bytes 100 v heap_12
          (of_dtype DataType.node_dtype false) ci = some (heap_12, child)) ∧
      leaves_at 100 n = true) ∧
    (∀ v, schema_ok v = true →
      ∃ n, walk_schema_value DataType.content_bytes 100 v heap_12
          (mk 100 false DataType.node_dtype false [] []) 0 = some (heap_12, n) ∧
        leaves_at 100 n = true) ∧
    of_dtype DataType.node_dtype false = mk NULL false DataType.node_dtype false [] [] ∧
    (∀ v, of_schema DataType.content_bytes heap_12 100 v
      = walk_schema_value DataType.content_bytes 100 v heap_12
          (mk 100 false DataType.node_dtype false [] []) 0) :=
  C32_walker_mirrors_shape DataType.content_bytes 100 100 heap_12 0 elems_ab_f members_ab
    (by decide) (by decide) rfl (by decide)

end Node

end conduit
